import Mathlib

/-!
# Handle registry and binding synthesizer of `veil/cgo`

The generator in `cgo/ast_helpers.go` emits three Go functions that manage the
process-wide `refs` variable: `init`, `cgo_incref` and `cgo_decref`.  The first
part of this development gives the meaning of the emitted statements (read off
the `// ...` statement comments and the AST nodes of `Init`, `IncrementRef` and
`DecrementRef`) as functions on an explicit registry state.

Conventions of the embedding:

* `unsafe.Pointer` identities are natural numbers, `0` standing for `nil`;
* `int32` values are integers, every arithmetic result being reduced with
  `wrap32` (two's complement wraparound);
* a Go map is a function into `Option`; a read of a missing key gives the zero
  value, a write is `Function.update`, `delete` writes `none`;
* every emitted function body runs between `refs.Lock()` and `refs.Unlock()`,
  so a call is one atomic step; a `panic` ends the step with the state reached
  at the `panic` statement.
-/

namespace Veil

/-- Two's complement wraparound of Go's `int32` arithmetic. -/
def wrap32 (x : Int) : Int := (x + 2147483648) % 4294967296 - 2147483648

/-- An `unsafe.Pointer` value: an address, `0` being `nil`. -/
abbrev Ptr := Nat

/-- The emitted `cobject` struct of `CObjectStruct`: fields `ptr` and `cnt`. -/
structure cobject where
  ptr : Ptr
  cnt : Int
deriving DecidableEq, Repr

/-- The emitted `refs` struct of `RefsStruct` (the embedded mutex is elided):
the id generator `next`, the index `refs` from identity to handle and the index
`ptrs` from handle to `cobject`. -/
@[ext]
structure Refs where
  next : Int
  refs : Ptr → Option Int
  ptrs : Int → Option cobject

/-- Result of one call of an emitted registry function: normal return with the
new state, or a Go `panic` with its message and the state at the panic. -/
inductive Outcome where
  | ok (r : Refs)
  | panic (msg : String) (r : Refs)

/-- Go map read `m[k]` on `ptrs`: the zero `cobject` when the key is missing. -/
def ptrsAt (r : Refs) (num : Int) : cobject := (r.ptrs num).getD ⟨0, 0⟩

/-- The emitted `init`: `refs.next = -1`, then both maps are made anew. -/
def init (r : Refs) : Refs :=
  let r1 : Refs := { r with next := -1 }
  let r2 : Refs := { r1 with refs := fun _ => none }
  { r2 with ptrs := fun _ => none }

/-- The emitted `cgo_incref(ptr)` of `IncrementRef`. -/
def cgo_incref (r : Refs) (ptr : Ptr) : Outcome :=
  match r.refs ptr with
  | some num =>
    -- s := refs.ptrs[num]; refs.ptrs[num] = cobject{s.ptr, s.cnt + 1}
    let s := ptrsAt r num
    .ok { r with ptrs := Function.update r.ptrs num (some ⟨s.ptr, wrap32 (s.cnt + 1)⟩) }
  | none =>
    -- num = refs.next; refs.next--
    let num := r.next
    let r1 : Refs := { r with next := wrap32 (r.next - 1) }
    if r1.next > 0 then
      .panic "refs.next underflow" r1
    else
      -- refs.refs[ptr] = num; refs.ptrs[num] = cobject{ptr, 1}
      let r2 : Refs := { r1 with refs := Function.update r1.refs ptr (some num) }
      .ok { r2 with ptrs := Function.update r2.ptrs num (some ⟨ptr, 1⟩) }

/-- The emitted `cgo_decref(ptr)` of `DecrementRef`. -/
def cgo_decref (r : Refs) (ptr : Ptr) : Outcome :=
  match r.refs ptr with
  | none => .panic "decref untracked object!" r
  | some num =>
    -- s := refs.ptrs[num]
    let s := ptrsAt r num
    if wrap32 (s.cnt - 1) ≤ 0 then
      -- delete(refs.ptrs, num); delete(refs.refs, ptr); return
      let r1 : Refs := { r with ptrs := Function.update r.ptrs num none }
      .ok { r1 with refs := Function.update r1.refs ptr none }
    else
      -- refs.ptrs[num] = cobject{s.ptr, s.cnt - 1}
      .ok { r with ptrs := Function.update r.ptrs num (some ⟨s.ptr, wrap32 (s.cnt - 1)⟩) }

/-- Registry states reachable from `init` through normally returning
`cgo_incref` and `cgo_decref` calls. -/
inductive Reachable : Refs → Prop where
  | init (r : Refs) : Reachable (init r)
  | incref {r r1 : Refs} (p : Ptr) : Reachable r → cgo_incref r p = .ok r1 → Reachable r1
  | decref {r r1 : Refs} (p : Ptr) : Reachable r → cgo_decref r p = .ok r1 → Reachable r1

/-- A registry call: acquire or release of an identity. -/
inductive Op where
  | incref (p : Ptr)
  | decref (p : Ptr)
deriving DecidableEq, Repr

/-- One registry call. -/
def step (r : Refs) : Op → Outcome
  | .incref p => cgo_incref r p
  | .decref p => cgo_decref r p

/-- A sequence of registry calls, in order, stopping at the first panic. -/
def run (r : Refs) : List Op → Outcome
  | [] => .ok r
  | op :: ops =>
    match step r op with
    | .ok r1 => run r1 ops
    | .panic msg r1 => .panic msg r1

/-- Number of calls in the sequence that are a `cgo_incref` of an identity that
is not tracked at the time of the call (counted up to the first panic). -/
def freshAcquires (r : Refs) : List Op → Nat
  | [] => 0
  | op :: ops =>
    match step r op with
    | .ok r1 =>
      (match op with
        | .incref p => if r.refs p = none then 1 else 0
        | .decref _ => 0) + freshAcquires r1 ops
    | .panic _ _ => 0

/-- A registry with nothing tracked and the generator at `n`. -/
def emptyAt (n : Int) : Refs := ⟨n, fun _ => none, fun _ => none⟩

/-- A registry tracking the single identity `p` under handle `-1` with
refcount `c`, the generator standing at `-2`. -/
def single (p : Ptr) (c : Int) : Refs :=
  ⟨-2, Function.update (fun _ => none) p (some (-1)),
    Function.update (fun _ => none) (-1) (some ⟨p, c⟩)⟩

/-! ## The binding synthesizer

`FuncAst` and its helpers build `go/ast` trees from `go/types` descriptions.
Both libraries are outside the repository; the parts the generator touches are
given here as plain data. -/

/-- The direction of a channel type (`types.ChanDir`). -/
inductive ChanDir where
  | SendRecv | SendOnly | RecvOnly
deriving DecidableEq, Repr

/-- The `go/types` types the generator distinguishes.  A `Named` type carries
the path of its object's package (`none` for universe types such as `error`,
whose `Obj().Pkg()` is `nil`), its name, its methods and its underlying type;
a `Signature` carries its parameters and results as named entries (an unnamed
one has the empty name) and whether it is variadic; a `Struct` carries its
fields (an embedded field has the empty name), an `Interface` its methods (each
with a `Signature`) followed by its embedded types. -/
inductive GoType where
  | Basic (name : String)
  | Pointer (elem : GoType)
  | Named (pkg : Option String) (name : String) (methods : List (String × GoType))
      (underlying : GoType)
  | Slice (elem : GoType)
  | Array (len : Nat) (elem : GoType)
  | Map (key elem : GoType)
  | Chan (dir : ChanDir) (elem : GoType)
  | Signature (params results : List (String × GoType)) (variadic : Bool)
  | Interface (methods : List (String × GoType))
  | Struct (fields : List (String × GoType))

/-- A `types.Var`: a parameter or result with its name, type and package. -/
structure Var where
  Name : String
  Type_ : GoType
  Pkg : Option String

/-- The `go/token` tokens the generator writes into the tree. -/
inductive Token where
  | AND | NOT | ADD | SUB | LEQ | GTR | DEC | ASSIGN | DEFINE | INT | STRING | VAR | TYPE
deriving DecidableEq, Repr

/-- The `ast.Expr` nodes the generator builds. -/
inductive Expr where
  | Ident (name : String)
  | BasicLit (kind : Token) (value : String)
  | SelectorExpr (x : Expr) (sel : String)
  | CallExpr (fn : Expr) (args : List Expr)
  | ParenExpr (x : Expr)
  | StarExpr (x : Expr)
  | UnaryExpr (op : Token) (x : Expr)
  | BinaryExpr (x : Expr) (op : Token) (y : Expr)
  | IndexExpr (x : Expr) (index : Expr)
  | ArrayType (elt : Expr)
  | MapType (key value : Expr)
  | CompositeLit (type : Expr) (elts : List Expr)

/-- The `ast.Stmt` nodes the generator builds.  An entry of `ReturnStmt.Results`
is `none` when the slot of the `[]ast.Expr` was never assigned (a `nil`
expression). -/
inductive Stmt where
  | ExprStmt (x : Expr)
  | AssignStmt (lhs : List Expr) (tok : Token) (rhs : List Expr)
  | ReturnStmt (results : List (Option Expr))
  | DeclStmt (name : String) (type : Expr)
  | IncDecStmt (x : Expr) (tok : Token)
  | IfStmt (cond : Expr) (body : List Stmt) (els : List Stmt)

/-- An `ast.Field`: the names and the type expression. -/
structure Field where
  Names : List String
  Type_ : Expr

/-- An `ast.FuncType`; `none` is a `nil` field list. -/
structure FuncType where
  Params : Option (List Field)
  Results : Option (List Field)

/-- An `ast.FuncDecl`: the doc comment lines, the name, the type and the body. -/
structure FuncDecl where
  Doc : List String
  Name : String
  Type_ : FuncType
  Body : List Stmt

/-- The observations `FuncAst` makes of its argument `f *Func` (the `Func`
wrapper itself is declared outside these sources): `f.CGoName()`,
`f.AliasedGoName()` and the parameter and result tuples of the signature of
`f.Func`. -/
structure Func where
  CGoName : String
  AliasedGoName : Expr
  Params : List Var
  Results : List Var

def INCREMENT_REF_FUNC_NAME : String := "cgo_incref"

def DECREMENT_REF_FUNC_NAME : String := "cgo_decref"

/-- `NewIdent`: the identifier of that name. -/
def NewIdent (name : String) : Expr := .Ident name

/-- The package-level `unsafePointer` selector `unsafe.Pointer`. -/
def unsafePointer : Expr := .SelectorExpr (NewIdent "unsafe") "Pointer"

/-- The package-level `uintptr` identifier. -/
def uintptr : Expr := NewIdent "uintptr"

/-- `UnsafePointerToTarget`: `unsafe.Pointer(targets...)`. -/
def UnsafePointerToTarget (targets : List Expr) : Expr := .CallExpr unsafePointer targets

/-- `IncrementRefCall`: the statement `cgo_incref(unsafe.Pointer(target))`. -/
def IncrementRefCall (target : Expr) : Stmt :=
  .ExprStmt (.CallExpr (NewIdent INCREMENT_REF_FUNC_NAME) [UnsafePointerToTarget [target]])

/-- `CastUnsafePtr`: `(castType)(target)`. -/
def CastUnsafePtr (castType target : Expr) : Expr := .CallExpr (.ParenExpr castType) [target]

/-- `DeRef`: the expression prefaced with `*`. -/
def DeRef (expr : Expr) : Expr := .StarExpr expr

/-- `Ref`: the expression prefaced with `&`. -/
def Ref (expr : Expr) : Expr := .UnaryExpr .AND expr

/-- `Return`: a return statement of the expressions. -/
def Return (expressions : List (Option Expr)) : Stmt := .ReturnStmt expressions

/-- `ExportComments`: the single comment `//export name`. -/
def ExportComments (exportName : String) : List String := ["//export " ++ exportName]

/-- `UintPtr`: `uintptr(arg)`. -/
def UintPtr (arg : Expr) : Expr := .CallExpr (NewIdent "uintptr") [arg]

/-- `UintptrToUnsafePointer`: `unsafe.Pointer(arg)`. -/
def UintptrToUnsafePointer (arg : Expr) : Expr := .CallExpr unsafePointer [arg]

/-- `splitPkgPath`: the separators of a package path. -/
def splitPkgPath (r : Char) : Bool := r == '.' || r == '/'

/-- Go's `strings.FieldsFunc` on the characters still to read, `cur` holding
the current field in reverse: the maximal runs of characters on which `f` is
false, empty runs dropped. -/
def fieldsFuncAux (f : Char → Bool) : List Char → List Char → List String
  | [], cur => if cur.isEmpty then [] else [String.mk cur.reverse]
  | c :: cs, cur =>
    if f c then
      if cur.isEmpty then fieldsFuncAux f cs [] else String.mk cur.reverse :: fieldsFuncAux f cs []
    else fieldsFuncAux f cs (c :: cur)

/-- Go's `strings.FieldsFunc`. -/
def FieldsFunc (s : String) (f : Char → Bool) : List String := fieldsFuncAux f s.data []

/-- `PkgPathAliasFromString`: the fields of the path joined with `_`. -/
def PkgPathAliasFromString (path : String) : String :=
  "_".intercalate (FieldsFunc path splitPkgPath)

/-- The keyword of a channel type of that direction, as `types.TypeString`
writes it. -/
def chanKeyword : ChanDir → String
  | .SendRecv => "chan "
  | .SendOnly => "chan<- "
  | .RecvOnly => "<-chan "

/-- Whether `types.TypeString` puts the element of a channel type in
parentheses: a bidirectional channel of a receive-only channel. -/
def chanParens : ChanDir → GoType → Bool
  | .SendRecv, .Chan .RecvOnly _ => true
  | _, _ => false

mutual
/-- Rendering of a type by `types.TypeString` with a `nil` qualifier, which is
what `t.String()` returns (struct tags are not part of the data). -/
def typeString : GoType → String
  | .Basic name => name
  | .Pointer elem => "*" ++ typeString elem
  | .Named none name _ _ => name
  | .Named (some pkg) name _ _ => if pkg = "" then name else pkg ++ "." ++ name
  | .Slice elem => "[]" ++ typeString elem
  | .Array len elem => "[" ++ toString len ++ "]" ++ typeString elem
  | .Map key elem => "map[" ++ typeString key ++ "]" ++ typeString elem
  | .Chan dir elem =>
    if chanParens dir elem then chanKeyword dir ++ "(" ++ typeString elem ++ ")"
    else chanKeyword dir ++ typeString elem
  | .Signature params results variadic =>
    "func(" ++ tupleString variadic params ++ ")" ++ resultsString results
  | .Interface methods => "interface\x7b" ++ methodStrings methods ++ "\x7d"
  | .Struct fields => "struct\x7b" ++ fieldStrings fields ++ "\x7d"
/-- Rendering of the entries of a tuple (`writeTuple` without its parentheses),
the last one in its variadic form when `variadic` is set. -/
def tupleString (variadic : Bool) : List (String × GoType) → String
  | [] => ""
  | [e] => if variadic then variadicString e else entryString e
  | e :: es => entryString e ++ ", " ++ tupleString variadic es
/-- Rendering of the results of a signature (`writeSignature` after the
parameters): nothing for no result, the type alone for a single unnamed result,
a parenthesised tuple otherwise. -/
def resultsString : List (String × GoType) → String
  | [] => ""
  | [(name, t)] =>
    if name = "" then " " ++ typeString t else " (" ++ name ++ " " ++ typeString t ++ ")"
  | e :: es => " (" ++ entryString e ++ ", " ++ tupleString false es ++ ")"
/-- Rendering of the members of an interface, separated by `; `: a method as
its name followed by its signature, an embedded type as the type. -/
def methodStrings : List (String × GoType) → String
  | [] => ""
  | [m] => methodString m
  | m :: ms => methodString m ++ "; " ++ methodStrings ms
/-- Rendering of one member of an interface. -/
def methodString : String × GoType → String
  | (name, .Signature params results variadic) =>
    name ++ "(" ++ tupleString variadic params ++ ")" ++ resultsString results
  | (_, t) => typeString t
/-- Rendering of the fields of a struct, separated by `; `. -/
def fieldStrings : List (String × GoType) → String
  | [] => ""
  | [e] => entryString e
  | e :: es => entryString e ++ "; " ++ fieldStrings es
/-- Rendering of one entry: the name, unless empty, and the type. -/
def entryString : String × GoType → String
  | (name, t) => if name = "" then typeString t else name ++ " " ++ typeString t
/-- Rendering of the last entry of a variadic tuple: `...T` for a slice of
`T`, the type followed by `...` otherwise. -/
def variadicString : String × GoType → String
  | (name, .Slice elem) =>
    if name = "" then "..." ++ typeString elem else name ++ " ..." ++ typeString elem
  | (name, t) =>
    if name = "" then typeString t ++ "..." else name ++ " " ++ typeString t ++ "..."
end

/-- `CastExpr`: the argument expression for a parameter of type `t` given as
`ident`.  `none` stands for the nil-pointer panic of `pkg.Path()` on a `Named`
type whose object has no package. -/
def CastExpr : GoType → Expr → Option Expr
  | .Pointer elem, ident => (CastExpr elem (UintptrToUnsafePointer ident)).map DeRef
  | .Named pkg name _ _, ident =>
    match pkg with
    | none => none
    | some path =>
      some (DeRef (CastUnsafePtr
        (DeRef (.SelectorExpr (NewIdent (PkgPathAliasFromString path)) name))
        (UintptrToUnsafePointer ident)))
  | .Slice elem, ident =>
    some (DeRef (CastUnsafePtr (DeRef (NewIdent ("[]" ++ typeString elem)))
      (UintptrToUnsafePointer ident)))
  | _, ident => some ident

/-- `ParamExpr`: the cast of the parameter's identifier. -/
def ParamExpr (param : Var) (t : GoType) : Option Expr := CastExpr t (NewIdent param.Name)

/-- `ParamIdents`: one argument expression per parameter, in order. -/
def ParamIdents (funcParams : List Var) : Option (List Expr) :=
  funcParams.mapM (fun param => ParamExpr param param.Type_)

/-- `NamedToField`: the field of a variable of a named type. -/
def NamedToField (p : Var) (pkg : Option String) (name : String) : Field :=
  match (match p.Pkg with
    | none => pkg
    | some q => some q) with
  | some path => ⟨[p.Name], NewIdent (PkgPathAliasFromString path ++ "." ++ name)⟩
  | none => ⟨[p.Name], NewIdent (typeString p.Type_)⟩

/-- `VarToField`: the field of a variable, typed by its own rendering unless
`t` is a named type. -/
def VarToField (p : Var) : GoType → Field
  | .Named pkg name _ _ => NamedToField p pkg name
  | _ => ⟨[p.Name], NewIdent (typeString p.Type_)⟩

/-- `UintPtrOrBasic`: the field of `VarToField` when `t` is `Basic`, otherwise
a `uintptr` field of the variable's name. -/
def UintPtrOrBasic (p : Var) : GoType → Field
  | .Basic name => VarToField p (.Basic name)
  | _ => ⟨[p.Name], uintptr⟩

/-- `Fields`: one field per variable of the tuple; a pointer is classified by
its element type. -/
def Fields (funcParams : List Var) : List Field :=
  funcParams.map (fun p =>
    match p.Type_ with
    | .Pointer elem => UintPtrOrBasic p elem
    | t => UintPtrOrBasic p t)

/-- The identifier `r<i>` bound to the `i`-th result. -/
def resultName (i : Nat) : Expr := NewIdent ("r" ++ toString i)

/-- The acquire statement the result loop of `FuncAst` appends for the `i`-th
result: none for `Basic` and for the types the switch has no case for. -/
def resultStmts (i : Nat) : GoType → List Stmt
  | .Pointer _ => [IncrementRefCall (resultName i)]
  | .Named _ _ _ _ => [IncrementRefCall (Ref (resultName i))]
  | _ => []

/-- The value the result loop of `FuncAst` leaves in `resultExprs[i]`; the slot
keeps its initial `nil` for the types the switch has no case for. -/
def resultExpr (i : Nat) : GoType → Option Expr
  | .Basic _ => some (resultName i)
  | .Pointer _ => some (UintPtr (UnsafePointerToTarget [resultName i]))
  | .Named _ _ _ _ => some (UintPtr (UnsafePointerToTarget [Ref (resultName i)]))
  | _ => none

/-- `FuncAst`: the wrapper declaration of an exported function; `none` when
building the call's arguments panics. -/
def FuncAst (f : Func) : Option FuncDecl :=
  (ParamIdents f.Params).map (fun args =>
    let functionCall : Expr := .CallExpr f.AliasedGoName args
    let params := Fields f.Params
    if f.Results.length > 0 then
      let resultNames := (List.range f.Results.length).map resultName
      let assign : Stmt := .AssignStmt resultNames .DEFINE [functionCall]
      let results := f.Results.enum
      { Doc := ExportComments f.CGoName
        Name := f.CGoName
        Type_ := ⟨some params, some (Fields f.Results)⟩
        Body := [assign] ++ results.flatMap (fun ir => resultStmts ir.1 ir.2.Type_) ++
          [Return (results.map (fun ir => resultExpr ir.1 ir.2.Type_))] }
    else
      { Doc := ExportComments f.CGoName
        Name := f.CGoName
        Type_ := ⟨some params, none⟩
        Body := [.ExprStmt functionCall] })

/-- Whether the type switch of the result loop of `FuncAst` has a case for the
type: `Basic`, `Pointer` and `Named` only. -/
def hasResultCase : GoType → Bool
  | .Basic _ => true
  | .Pointer _ => true
  | .Named _ _ _ _ => true
  | _ => false

/-- An exported function `F() []int` of package `pkg`: no parameter, one
result of slice type. -/
def sliceResultFunc : Func :=
  { CGoName := "cgo_pkg_F"
    AliasedGoName := .SelectorExpr (NewIdent "pkg") "F"
    Params := []
    Results := [⟨"", .Slice (.Basic "int"), none⟩] }

/-! ## The emitted registry functions and the slice bundle as syntax -/

def COBJECT_STRUCT_TYPE_NAME : String := "cobject"

def REFS_VAR_NAME : String := "refs"

def REFS_STRUCT_FIELD_NAME : String := "refs"

/-- `DecrementRefCall`: the statement `cgo_decref(target)`. -/
def DecrementRefCall (target : Expr) : Stmt :=
  .ExprStmt (.CallExpr (NewIdent DECREMENT_REF_FUNC_NAME) [target])

/-- `DeclareVar`: the statement `var name t`. -/
def DeclareVar (name : String) (t : Expr) : Stmt := .DeclStmt name t

/-- `FormatSprintf`: `fmt.Sprintf("format", target)`. -/
def FormatSprintf (format : String) (target : Expr) : Expr :=
  .CallExpr (.SelectorExpr (NewIdent "fmt") "Sprintf")
    [.BasicLit .STRING ("\"" ++ format ++ "\""), target]

/-- `InstanceMethodParams`: the `self unsafe.Pointer` field followed by the
given fields. -/
def InstanceMethodParams (fields : List Field) : List Field :=
  [⟨["self"], unsafePointer⟩] ++ fields

/-- The statement `refs.<method>()` of the emitted registry functions. -/
def refsCall (method : String) : Stmt :=
  .ExprStmt (.CallExpr (.SelectorExpr (NewIdent REFS_VAR_NAME) method) [])

/-- `Init`: the declaration of the emitted `init`. -/
def Init : FuncDecl :=
  let refsVar := NewIdent REFS_VAR_NAME
  { Doc := []
    Name := "init"
    Type_ := ⟨none, none⟩
    Body := [
      refsCall "Lock",
      .AssignStmt [.SelectorExpr refsVar "next"] .ASSIGN [.BasicLit .INT "-1"],
      .AssignStmt [.SelectorExpr refsVar REFS_STRUCT_FIELD_NAME] .ASSIGN
        [.CallExpr (NewIdent "make") [.MapType unsafePointer (NewIdent "int32")]],
      .AssignStmt [.SelectorExpr refsVar "ptrs"] .ASSIGN
        [.CallExpr (NewIdent "make")
          [.MapType (NewIdent "int32") (NewIdent COBJECT_STRUCT_TYPE_NAME)]],
      refsCall "Unlock"] }

/-- `DecrementRef`: the declaration of the emitted `cgo_decref`. -/
def DecrementRef : FuncDecl :=
  let ptr := NewIdent "ptr"
  let refsType := NewIdent REFS_VAR_NAME
  let num := NewIdent "num"
  let ok := NewIdent "ok"
  let s := NewIdent "s"
  let del := NewIdent "delete"
  let one : Expr := .BasicLit .INT "1"
  { Doc := ExportComments DECREMENT_REF_FUNC_NAME
    Name := DECREMENT_REF_FUNC_NAME
    Type_ := ⟨some [⟨["ptr"], .SelectorExpr (NewIdent "unsafe") "Pointer"⟩], none⟩
    Body := [
      refsCall "Lock",
      .AssignStmt [num, ok] .DEFINE
        [.IndexExpr (.SelectorExpr refsType REFS_STRUCT_FIELD_NAME) ptr],
      .IfStmt (.UnaryExpr .NOT ok)
        [.ExprStmt (.CallExpr (NewIdent "panic")
          [.BasicLit .STRING "\"decref untracked object!\""])] [],
      .AssignStmt [s] .DEFINE [.IndexExpr (.SelectorExpr refsType "ptrs") num],
      .IfStmt (.BinaryExpr (.BinaryExpr (.SelectorExpr s "cnt") .SUB one) .LEQ
          (.BasicLit .INT "0"))
        [.ExprStmt (.CallExpr del [.SelectorExpr refsType "ptrs", num]),
          .ExprStmt (.CallExpr del [.SelectorExpr refsType REFS_STRUCT_FIELD_NAME, ptr]),
          refsCall "Unlock",
          .ReturnStmt []] [],
      .AssignStmt [.IndexExpr (.SelectorExpr refsType "ptrs") num] .ASSIGN
        [.CompositeLit (NewIdent COBJECT_STRUCT_TYPE_NAME)
          [.SelectorExpr s "ptr", .BinaryExpr (.SelectorExpr s "cnt") .SUB one]],
      refsCall "Unlock"] }

/-- `IncrementRef`: the declaration of the emitted `cgo_incref`. -/
def IncrementRef : FuncDecl :=
  let ptr := NewIdent "ptr"
  let refsType := NewIdent REFS_VAR_NAME
  let num := NewIdent "num"
  let ok := NewIdent "ok"
  let s := NewIdent "s"
  let one : Expr := .BasicLit .INT "1"
  { Doc := ExportComments INCREMENT_REF_FUNC_NAME
    Name := INCREMENT_REF_FUNC_NAME
    Type_ := ⟨some [⟨["ptr"], .SelectorExpr (NewIdent "unsafe") "Pointer"⟩], none⟩
    Body := [
      refsCall "Lock",
      .AssignStmt [num, ok] .DEFINE
        [.IndexExpr (.SelectorExpr refsType REFS_STRUCT_FIELD_NAME) ptr],
      .IfStmt ok
        [.AssignStmt [s] .DEFINE [.IndexExpr (.SelectorExpr refsType "ptrs") num],
          .AssignStmt [.IndexExpr (.SelectorExpr refsType "ptrs") num] .ASSIGN
            [.CompositeLit (NewIdent COBJECT_STRUCT_TYPE_NAME)
              [.SelectorExpr s "ptr", .BinaryExpr (.SelectorExpr s "cnt") .ADD one]]]
        [.AssignStmt [num] .ASSIGN [.SelectorExpr refsType "next"],
          .IncDecStmt (.SelectorExpr refsType "next") .DEC,
          .IfStmt (.BinaryExpr (.SelectorExpr refsType "next") .GTR (.BasicLit .INT "0"))
            [.ExprStmt (.CallExpr (NewIdent "panic")
              [.BasicLit .STRING "\"refs.next underflow\""])] [],
          .AssignStmt [.IndexExpr (.SelectorExpr refsType REFS_STRUCT_FIELD_NAME) ptr] .ASSIGN
            [num],
          .AssignStmt [.IndexExpr (.SelectorExpr refsType "ptrs") num] .ASSIGN
            [.CompositeLit (NewIdent COBJECT_STRUCT_TYPE_NAME) [ptr, one]]],
      refsCall "Unlock"] }

/-- `NewAst`: the constructor declaration of a slice type. -/
def NewAst (functionName : String) (goType : Expr) : FuncDecl :=
  let localVarIdent := NewIdent "o"
  let target : Expr := .UnaryExpr .AND localVarIdent
  { Doc := ExportComments functionName
    Name := functionName
    Type_ := ⟨none, some [⟨[], uintptr⟩]⟩
    Body := [
      DeclareVar "o" goType,
      IncrementRefCall target,
      Return [some (UintPtr (UnsafePointerToTarget [target]))]] }

/-- `StringAst`: the declaration giving a string representation of the slice. -/
def StringAst (functionName : String) (goType : Expr) : FuncDecl :=
  let selfIdent := NewIdent "self"
  let stringIdent := NewIdent "string"
  let castExpression := CastUnsafePtr (DeRef goType) selfIdent
  let deRef := DeRef castExpression
  let sprintf := FormatSprintf "%#v" deRef
  { Doc := ExportComments functionName
    Name := functionName
    Type_ := ⟨some [⟨["self"], unsafePointer⟩], some [⟨[], stringIdent⟩]⟩
    Body := [Return [some sprintf]] }

/-- `DestroyAst`: the destructor declaration of a slice type. -/
def DestroyAst (functionName : String) : FuncDecl :=
  { Doc := ExportComments functionName
    Name := functionName
    Type_ := ⟨some (InstanceMethodParams []), none⟩
    Body := [DecrementRefCall (NewIdent "self")] }

/-- The `Slice` wrapper of `cgo/slice.go`: the element type. -/
structure Slice where
  elem : GoType

/-- `Slice.GoName`. -/
def Slice.GoName (s : Slice) : String := "[]" ++ typeString s.elem

/-- `Slice.CGoName`. -/
def Slice.CGoName (s : Slice) : String := "slice_of_" ++ typeString s.elem

/-- `Slice.NewAst`. -/
def Slice.NewAst (s : Slice) : FuncDecl :=
  Veil.NewAst (s.CGoName ++ "_new") (.ArrayType (NewIdent (typeString s.elem)))

/-- `Slice.StringAst`. -/
def Slice.StringAst (s : Slice) : FuncDecl :=
  Veil.StringAst (s.CGoName ++ "_str") (NewIdent s.GoName)

/-- `Slice.DestroyAst`. -/
def Slice.DestroyAst (s : Slice) : FuncDecl := Veil.DestroyAst (s.CGoName ++ "_destroy")

/-- The expression `(*items)[i]` of the item functions. -/
def itemsAt (itemsIdent indexIdent : Expr) : Expr :=
  .IndexExpr (.ParenExpr (.StarExpr itemsIdent)) indexIdent

/-- `Slice.ItemAst`. -/
def Slice.ItemAst (s : Slice) : FuncDecl :=
  let functionName := s.CGoName ++ "_item"
  let selfIdent := NewIdent "self"
  let indexIdent := NewIdent "i"
  let indexTypeIdent := NewIdent "int"
  let goTypeIdent := NewIdent s.GoName
  let elementTypeIdent := NewIdent (typeString s.elem)
  let itemsIdent := NewIdent "items"
  let castExpression := CastUnsafePtr (DeRef goTypeIdent) selfIdent
  { Doc := ExportComments functionName
    Name := functionName
    Type_ := ⟨some (InstanceMethodParams [⟨["i"], indexTypeIdent⟩]),
      some [⟨[], elementTypeIdent⟩]⟩
    Body := [
      .AssignStmt [itemsIdent] .DEFINE [castExpression],
      Return [some (itemsAt itemsIdent indexIdent)]] }

/-- `Slice.ItemSetAst`. -/
def Slice.ItemSetAst (s : Slice) : FuncDecl :=
  let functionName := s.CGoName ++ "_item_set"
  let selfIdent := NewIdent "self"
  let indexIdent := NewIdent "i"
  let indexTypeIdent := NewIdent "int"
  let goTypeIdent := NewIdent s.GoName
  let elementTypeIdent := NewIdent (typeString s.elem)
  let itemsIdent := NewIdent "items"
  let itemIdent := NewIdent "item"
  let castExpression := CastUnsafePtr (DeRef goTypeIdent) selfIdent
  { Doc := ExportComments functionName
    Name := functionName
    Type_ := ⟨some (InstanceMethodParams
      [⟨["i"], indexTypeIdent⟩, ⟨["item"], elementTypeIdent⟩]), none⟩
    Body := [
      .AssignStmt [itemsIdent] .DEFINE [castExpression],
      .AssignStmt [itemsAt itemsIdent indexIdent] .ASSIGN [itemIdent]] }

/-- `Slice.ItemAppendAst`. -/
def Slice.ItemAppendAst (s : Slice) : FuncDecl :=
  let functionName := s.CGoName ++ "_item_append"
  let selfIdent := NewIdent "self"
  let goTypeIdent := NewIdent s.GoName
  let elementTypeIdent := NewIdent (typeString s.elem)
  let itemsIdent := NewIdent "items"
  let itemIdent := NewIdent "item"
  let castExpression := CastUnsafePtr (DeRef goTypeIdent) selfIdent
  { Doc := ExportComments functionName
    Name := functionName
    Type_ := ⟨some (InstanceMethodParams [⟨["item"], elementTypeIdent⟩]), none⟩
    Body := [
      .AssignStmt [itemsIdent] .DEFINE [castExpression],
      .AssignStmt [DeRef itemsIdent] .ASSIGN
        [.CallExpr (NewIdent "append") [DeRef itemsIdent, itemIdent]]] }

/-- `Slice.ToAst`: the six declarations of the bundle. -/
def Slice.ToAst (s : Slice) : List FuncDecl :=
  [s.NewAst, s.StringAst, s.ItemAst, s.ItemSetAst, s.ItemAppendAst, s.DestroyAst]

/-! ## The second slice bundle, `golang/cgo/slice.go` -/

/-- The helpers of package `golang/cgo` that its `slice.go` calls; they are
declared outside these sources and are taken as given.  (`NewIdent` is the
identifier of the given name, as in `cgo/ast_helpers.go`.) -/
structure GolangHelpers where
  ExportComments : String → List String
  DeclareVar : String → Expr → Stmt
  IncrementRef : Expr → Stmt
  CastReturn : Expr → Expr → Stmt
  CastUnsafePtr : Expr → Expr → Expr
  DeRef : Expr → Expr
  FormatSprintf : String → Expr → Expr
  Return : List (Option Expr) → Stmt
  InstanceMethodParams : Expr → List Field → List Field

/-- The `SliceWrapper` of `golang/cgo/slice.go`: the element type. -/
structure SliceWrapper where
  elem : GoType

/-- `SliceWrapper.GoName`. -/
def SliceWrapper.GoName (s : SliceWrapper) : String := "[]" ++ typeString s.elem

/-- `SliceWrapper.CGoName`. -/
def SliceWrapper.CGoName (s : SliceWrapper) : String := "slice_of_" ++ typeString s.elem

/-- `SliceWrapper.NewAst`. -/
def SliceWrapper.NewAst (H : GolangHelpers) (s : SliceWrapper) : List FuncDecl :=
  let functionName := s.CGoName ++ "_new"
  let localVarIdent := NewIdent "o"
  let goTypeIdent := NewIdent s.GoName
  let target : Expr := .UnaryExpr .AND localVarIdent
  let goType : Expr := .ArrayType (NewIdent (typeString s.elem))
  [{ Doc := H.ExportComments functionName
     Name := functionName
     Type_ := ⟨none, some [⟨[], goTypeIdent⟩]⟩
     Body := [
       H.DeclareVar "o" goType,
       H.IncrementRef target,
       H.CastReturn goTypeIdent target] }]

/-- `SliceWrapper.StringAst`. -/
def SliceWrapper.StringAst (H : GolangHelpers) (s : SliceWrapper) : List FuncDecl :=
  let functionName := s.CGoName ++ "_str"
  let selfIdent := NewIdent "self"
  let goTypeIdent := NewIdent s.GoName
  let stringIdent := NewIdent "string"
  let castExpression := H.CastUnsafePtr (H.DeRef goTypeIdent) selfIdent
  let deRef := H.DeRef castExpression
  let sprintf := H.FormatSprintf "%#v" deRef
  [{ Doc := H.ExportComments functionName
     Name := functionName
     Type_ := ⟨some [⟨["self"], goTypeIdent⟩], some [⟨[], stringIdent⟩]⟩
     Body := [H.Return [some sprintf]] }]

/-- `SliceWrapper.ItemAst`. -/
def SliceWrapper.ItemAst (H : GolangHelpers) (s : SliceWrapper) : List FuncDecl :=
  let functionName := s.CGoName ++ "_item"
  let selfIdent := NewIdent "self"
  let indexIdent := NewIdent "i"
  let indexTypeIdent := NewIdent "int"
  let goTypeIdent := NewIdent s.GoName
  let elementTypeIdent := NewIdent (typeString s.elem)
  let itemsIdent := NewIdent "items"
  let itemIdent := NewIdent "item"
  let castExpression := H.CastUnsafePtr (H.DeRef goTypeIdent) selfIdent
  [{ Doc := H.ExportComments functionName
     Name := functionName
     Type_ := ⟨some (H.InstanceMethodParams goTypeIdent [⟨["i"], indexTypeIdent⟩]),
       some [⟨[], elementTypeIdent⟩]⟩
     Body := [
       .AssignStmt [itemsIdent] .DEFINE [castExpression],
       .AssignStmt [itemIdent] .DEFINE [itemsAt itemsIdent indexIdent],
       H.Return [some itemIdent]] }]

/-- `SliceWrapper.ItemSetAst`. -/
def SliceWrapper.ItemSetAst (H : GolangHelpers) (s : SliceWrapper) : List FuncDecl :=
  let functionName := s.CGoName ++ "_item_set"
  let selfIdent := NewIdent "self"
  let indexIdent := NewIdent "i"
  let indexTypeIdent := NewIdent "int"
  let goTypeIdent := NewIdent s.GoName
  let elementTypeIdent := NewIdent (typeString s.elem)
  let itemsIdent := NewIdent "items"
  let itemIdent := NewIdent "item"
  let castExpression := H.CastUnsafePtr (H.DeRef goTypeIdent) selfIdent
  [{ Doc := H.ExportComments functionName
     Name := functionName
     Type_ := ⟨some (H.InstanceMethodParams goTypeIdent
       [⟨["i"], indexTypeIdent⟩, ⟨["item"], elementTypeIdent⟩]), none⟩
     Body := [
       .AssignStmt [itemsIdent] .DEFINE [castExpression],
       .AssignStmt [itemsAt itemsIdent indexIdent] .ASSIGN [itemIdent]] }]

/-- `SliceWrapper.ToCgoAst`: the declarations of the bundle. -/
def SliceWrapper.ToCgoAst (H : GolangHelpers) (s : SliceWrapper) : List FuncDecl :=
  let decls := s.NewAst H
  let decls := decls ++ s.StringAst H
  let decls := decls ++ s.ItemAst H
  let decls := decls ++ s.ItemSetAst H
  decls

/-- One choice of the outside helpers: those of `cgo/ast_helpers.go` where a
helper of that name exists there, and for the three others a reference
increment of the target, a return of the target cast to the type, and a `self`
field of the given type before the other fields. -/
def sampleHelpers : GolangHelpers :=
  { ExportComments := ExportComments
    DeclareVar := DeclareVar
    IncrementRef := IncrementRefCall
    CastReturn := fun t target => Return [some (CastUnsafePtr t target)]
    CastUnsafePtr := CastUnsafePtr
    DeRef := DeRef
    FormatSprintf := FormatSprintf
    Return := Return
    InstanceMethodParams := fun t fields => [⟨["self"], t⟩] ++ fields }

/-! ## Observations on declarations -/

/-- The parameter and result types a declaration declares, in order. -/
def FuncDecl.declaredTypes (d : FuncDecl) : List Expr :=
  ((d.Type_.Params.getD []) ++ (d.Type_.Results.getD [])).map (fun fld => fld.Type_)

/-- The names of Go's primitive scalar types. -/
def primitiveNames : List String :=
  ["bool", "string", "int", "int8", "int16", "int32", "int64", "uint", "uint8", "uint16",
    "uint32", "uint64", "uintptr", "byte", "rune", "float32", "float64", "complex64",
    "complex128"]

/-- A boundary type in the sense of the ABI contract: `uintptr` or the name of
a primitive scalar. -/
def isBoundaryType (e : Expr) : Prop := e = uintptr ∨ ∃ n ∈ primitiveNames, e = .Ident n

/-- The statement invokes `call`: it is the expression statement of the call or
binds its results with `:=`. -/
def invokes (call : Expr) (s : Stmt) : Prop :=
  s = .ExprStmt call ∨ ∃ lhs, s = .AssignStmt lhs .DEFINE [call]

/-- The number a string of decimal digits stands for, continuing from `acc`. -/
def digitsVal (acc : Nat) (cs : List Char) : Nat :=
  cs.foldl (fun a c => a * 10 + (c.toNat - 48)) acc

/-! ## Meaning of the emitted constructor; the result statements of a wrapper

The emitted slice functions work on `[]T` variables through their addresses.
The state is the registry together with the slice variables in memory; the
address the Go runtime gives a new variable is an argument. -/

/-- The registry and the `[]T` variables in memory, by address. -/
structure Machine (α : Type) where
  reg : Refs
  mem : Ptr → Option (List α)

/-- Result of running an emitted function: normal return with a value, or a
panic. -/
inductive Run (α β : Type) where
  | ok (m : Machine α) (v : β)
  | panic (msg : String) (m : Machine α)

/-- The emitted `slice_of_T_new` (`NewAst`): `var o []T`,
`cgo_incref(unsafe.Pointer(&o))`, `return uintptr(unsafe.Pointer(&o))`; `o` is
the address of the variable `o`. -/
def slice_new {α : Type} (m : Machine α) (o : Ptr) : Run α Nat :=
  let mem1 := Function.update m.mem o (some [])
  match cgo_incref m.reg o with
  | .ok r => .ok ⟨r, mem1⟩ o
  | .panic msg r => .panic msg ⟨r, mem1⟩

/-- The acquire statements of a wrapper, in the order the result loop of
`FuncAst` appends them. -/
def acquireStmts (results : List Var) : List Stmt :=
  results.enum.flatMap (fun ir => resultStmts ir.1 ir.2.Type_)

/-- The expressions the result loop of `FuncAst` leaves in `resultExprs`. -/
def returnExprs (results : List Var) : List (Option Expr) :=
  results.enum.map (fun ir => resultExpr ir.1 ir.2.Type_)

/-- An exported function `G(p *int, t pkg.T) (*pkg.T, pkg.T, int)` of package
`pkg`. -/
def mixedFunc : Func :=
  { CGoName := "cgo_pkg_G"
    AliasedGoName := .SelectorExpr (NewIdent "pkg") "G"
    Params := [⟨"p", .Pointer (.Basic "int"), none⟩,
      ⟨"t", .Named (some "pkg") "T" [] (.Struct []), none⟩]
    Results := [⟨"", .Pointer (.Named (some "pkg") "T" [] (.Struct [])), none⟩,
      ⟨"", .Named (some "pkg") "T" [] (.Struct []), none⟩,
      ⟨"", .Basic "int", none⟩] }

/-- The slice of a named struct type `pkg.T`. -/
def namedSlice : Slice := ⟨.Named (some "pkg") "T" [] (.Struct [])⟩

/-! ## `ImplementsError` and the binder factory -/

/-- `t.Underlying()`: the underlying type of a named type, the type itself
otherwise. -/
def Underlying : GoType → GoType
  | .Named _ _ _ underlying => underlying
  | t => t

/-- The closure `isError` of `ImplementsError`, on a method given by its name
and type: the type is a signature, the name is `Error`, there is no parameter
and the single result is the basic type of kind `String`. -/
def isError (fn : String × GoType) : Bool :=
  match fn.2 with
  | .Signature params results _ =>
    if fn.1 ≠ "Error" then false
    else if params.length ≠ 0 then false
    else
      match results with
      | [(_, .Basic name)] => name == "string"
      | _ => false
  | _ => false

/-- The closure `hasErrorMethod` of `ImplementsError`, on the methods
`obj.Method(0) .. obj.Method(obj.NumMethods() - 1)`. -/
def hasErrorMethod (methods : List (String × GoType)) : Bool := methods.any isError

/-- `ImplementsError`: the method test on `t.Underlying()` when that value has
`NumMethods` and `Method` (an interface type, or a named type), `false`
otherwise. -/
def ImplementsError (t : GoType) : Bool :=
  match Underlying t with
  | .Interface methods => hasErrorMethod methods
  | .Named _ _ methods _ => hasErrorMethod methods
  | _ => false

/-- The method `Error() string`. -/
def errorMethod : String × GoType :=
  ("Error", .Signature [] [("", .Basic "string")] false)

/-- A named struct type `pkg.MyErr` declaring the method `Error() string`. -/
def namedStructError : GoType := .Named (some "pkg") "MyErr" [errorMethod] (.Struct [])

/-- What a call of `NewBinder` does: it returns its two results, having run
`cgoAst` or not, or it does not return because `cgoAst` did not. -/
inductive BinderOutcome (B : Type) where
  | returned (binder : Option B) (err : Option String) (ranCgoAst : Bool)
  | notReturned

/-- The package-level `registry` of `bind/binder.go`: the single entry `py3`,
whose constructor `NewPy3Binder` is declared outside these sources. -/
def registry {P B : Type} (NewPy3Binder : P → B) : List (String × (P → B)) :=
  [("py3", NewPy3Binder)]

/-- `NewBinder`, over a registry map and the outcome of `cgoAst(pkg)` (whose
callees are outside these sources; `none` when it does not return).  The
error of `core.NewSystemError` is given by its message. -/
def NewBinder {P B F : Type} (reg : List (String × (P → B))) (cgoAst : P → Option F)
    (pkg : P) (target : String) : BinderOutcome B :=
  match reg.lookup target with
  | none => .returned none (some ("I don't know how to create a binder for " ++ target)) false
  | some bindable =>
    match cgoAst pkg with
    | none => .notReturned
    | some _ => .returned (some (bindable pkg)) none true

/-- Go's static type of the two expression forms `CastExpr` builds, as a type
expression: a conversion `(T)(x)` has type `T`, and `*e` has type `T` when `e`
has the pointer type `*T`; `none` when the expression does not type-check
(a dereference of a non-pointer) or has another form. -/
def staticType : Expr → Option Expr
  | .CallExpr (.ParenExpr ty) [_] => some ty
  | .StarExpr e =>
    match staticType e with
    | some (.StarExpr ty) => some ty
    | _ => none
  | _ => none

/-- The named struct type `github.com/devigned/veil.T`. -/
def veilT : GoType := .Named (some "github.com/devigned/veil") "T" [] (.Struct [])

/-- The universe type `error`: a named type whose object has no package
(`Obj().Pkg()` is `nil`), over the interface with the method `Error() string`. -/
def errorType : GoType := .Named none "error" [errorMethod] (.Interface [errorMethod])

/-- An exported function `E(e error, n int) int` of package `pkg`. -/
def errorParamFunc : Func :=
  { CGoName := "cgo_pkg_E"
    AliasedGoName := .SelectorExpr (NewIdent "pkg") "E"
    Params := [⟨"e", errorType, some "pkg"⟩, ⟨"n", .Basic "int", some "pkg"⟩]
    Results := [⟨"", .Basic "int", some "pkg"⟩] }

/-- An exported function `P(e error) *pkg.T` of package `pkg`. -/
def errorParamPointerFunc : Func :=
  { CGoName := "cgo_pkg_P"
    AliasedGoName := .SelectorExpr (NewIdent "pkg") "P"
    Params := [⟨"e", errorType, some "pkg"⟩]
    Results := [⟨"", .Pointer (.Named (some "pkg") "T" [] (.Struct [])), some "pkg"⟩] }

/-- An exported function `K() (int, chan int, map[string]int)` of package
`pkg`. -/
def unsupportedResultsFunc : Func :=
  { CGoName := "cgo_pkg_K"
    AliasedGoName := .SelectorExpr (NewIdent "pkg") "K"
    Params := []
    Results := [⟨"", .Basic "int", some "pkg"⟩,
      ⟨"", .Chan .SendRecv (.Basic "int"), some "pkg"⟩,
      ⟨"", .Map (.Basic "string") (.Basic "int"), some "pkg"⟩] }

/-- Whether `CastExpr` on the type reaches `pkg.Path()` with a `nil` package:
the type is a `Named` type without a package, or a pointer to such a type. -/
def castPanics : GoType → Bool
  | .Pointer elem => castPanics elem
  | .Named none _ _ _ => true
  | _ => false

/-- Whether the result loop of `FuncAst` appends an acquire statement for a
result of the type: for `Pointer` and `Named` only. -/
def needsAcquire : GoType → Bool
  | .Pointer _ => true
  | .Named _ _ _ _ => true
  | _ => false

/-- Modelled from the spec: `Package.ToCgoAst`, which `cgoAst` calls and which is
declared outside these sources.  The generation pipeline "invokes Binding
Synthesizer once per function"; a package is given by its exported functions
and the wrappers are built in order, a panic of `FuncAst` ending the call. -/
def wrappersOf (pkg : List Func) : Option (List FuncDecl) := pkg.mapM FuncAst

/-! ## Runs of the emitted bodies

An evaluator for the expression and statement forms that occur in the bodies of
the slice functions and, after the call of the underlying function, in the
bodies of the wrappers.  It takes the emitted `FuncDecl` itself, so a statement
about a run is a statement about the text the generator builds. -/

/-- A run-time value of the emitted functions: a number (`int` and `uintptr`
values), an address (`unsafe.Pointer` and typed pointer values), an element,
or a slice of elements. -/
inductive Val (α : Type) where
  | num (n : Int)
  | ptr (a : Ptr)
  | elem (x : α)
  | slice (l : List α)

/-- A local variable: its value and its address, when it has one.  The value
is `none` for a slice variable declared with `var`, which lives in memory and
is read there. -/
structure Local (α : Type) where
  val : Option (Val α)
  loc : Option Ptr

/-- Result of evaluating an expression. -/
inductive Eval (α : Type) where
  | val (v : Val α)
  | panic (msg : String)
  | fault
  | undefined

/-- The dereference `*p` of a pointer to a slice variable: a panic for the `nil`
pointer, a fault for an address where no variable lives. -/
def loadSlice {α : Type} (mem : Ptr → Option (List α)) (a : Ptr) : Eval α :=
  if a = 0 then .panic "runtime error: invalid memory address or nil pointer dereference"
  else
    match mem a with
    | some l => .val (.slice l)
    | none => .fault

/-- The bounds check of `l[k]`: the message of the run-time panic when `k` is
out of range. -/
def boundsCheck {α : Type} (l : List α) (k : Int) : Option String :=
  if k < 0 then some ("runtime error: index out of range [" ++ toString k ++ "]")
  else if k.toNat < l.length then none
  else some ("runtime error: index out of range [" ++ toString k ++ "] with length " ++
    toString l.length)

/-- The value of an expression of the emitted bodies: an identifier, `&x`,
`(e)`, `*e` on a pointer to a slice variable, `e[i]`, the conversions
`unsafe.Pointer(e)`, `uintptr(e)` and `(*T)(e)`, and `append(e, x)`. -/
def evalExpr {α : Type} (mem : Ptr → Option (List α)) (env : List (String × Local α)) :
    Expr → Eval α
  | .Ident x =>
    match env.lookup x with
    | some ⟨some v, _⟩ => .val v
    | some ⟨none, some a⟩ =>
      match mem a with
      | some l => .val (.slice l)
      | none => .undefined
    | _ => .undefined
  | .UnaryExpr .AND (.Ident x) =>
    match env.lookup x with
    | some ⟨_, some a⟩ => .val (.ptr a)
    | _ => .undefined
  | .ParenExpr e => evalExpr mem env e
  | .StarExpr e =>
    match evalExpr mem env e with
    | .val (.ptr a) => loadSlice mem a
    | .val _ => .undefined
    | r => r
  | .IndexExpr e i =>
    match evalExpr mem env e with
    | .val (.slice l) =>
      match evalExpr mem env i with
      | .val (.num k) =>
        match boundsCheck l k with
        | some msg => .panic msg
        | none =>
          match l[k.toNat]? with
          | some x => .val (.elem x)
          | none => .undefined
      | .val _ => .undefined
      | r => r
    | .val _ => .undefined
    | r => r
  | .CallExpr (.SelectorExpr (.Ident "unsafe") "Pointer") [e] =>
    match evalExpr mem env e with
    | .val (.ptr a) => .val (.ptr a)
    | .val _ => .undefined
    | r => r
  | .CallExpr (.Ident "uintptr") [e] =>
    match evalExpr mem env e with
    | .val (.ptr a) => .val (.num a)
    | .val _ => .undefined
    | r => r
  | .CallExpr (.ParenExpr (.StarExpr _)) [e] =>
    match evalExpr mem env e with
    | .val (.ptr a) => .val (.ptr a)
    | .val _ => .undefined
    | r => r
  | .CallExpr (.Ident "append") [e, x] =>
    match evalExpr mem env e with
    | .val (.slice l) =>
      match evalExpr mem env x with
      | .val (.elem v) => .val (.slice (l ++ [v]))
      | .val _ => .undefined
      | r => r
    | .val _ => .undefined
    | r => r
  | _ => .undefined


/-- Result of running emitted statements: normal return with the returned
values, a Go panic, a fault of the process (an access to memory that is not
mapped), or no run at all (the text is not Go, or lies outside the forms
above). -/
inductive Exec (α : Type) where
  | ok (m : Machine α) (vs : List (Val α))
  | panic (msg : String) (m : Machine α)
  | fault (m : Machine α)
  | undefined

/-- The values of the expressions of a return statement, left to right. -/
def evalReturn {α : Type} (m : Machine α) (env : List (String × Local α)) :
    List (Option Expr) → Exec α
  | [] => .ok m []
  | none :: _ => .undefined
  | some e :: es =>
    match evalExpr m.mem env e with
    | .val v =>
      match evalReturn m env es with
      | .ok m1 vs => .ok m1 (v :: vs)
      | r => r
    | .panic msg => .panic msg m
    | .fault => .fault m
    | .undefined => .undefined

/-- Running a list of emitted statements.  `fresh` lists the addresses the
runtime gives to the variables declared with `var`, in order. -/
def execStmts {α : Type} : List Ptr → Machine α → List (String × Local α) → List Stmt → Exec α
  | _, m, _, [] => .ok m []
  | fresh, m, env, .DeclStmt name (.ArrayType _) :: rest =>
    match fresh with
    | [] => .undefined
    | a :: fresh1 =>
      execStmts fresh1 ⟨m.reg, Function.update m.mem a (some [])⟩
        ((name, ⟨none, some a⟩) :: env) rest
  | fresh, m, env, .ExprStmt (.CallExpr (.Ident "cgo_incref") [e]) :: rest =>
    match evalExpr m.mem env e with
    | .val (.ptr a) =>
      match cgo_incref m.reg a with
      | .ok r => execStmts fresh ⟨r, m.mem⟩ env rest
      | .panic msg r => .panic msg ⟨r, m.mem⟩
    | .val _ => .undefined
    | .panic msg => .panic msg m
    | .fault => .fault m
    | .undefined => .undefined
  | fresh, m, env, .ExprStmt (.CallExpr (.Ident "cgo_decref") [e]) :: rest =>
    match evalExpr m.mem env e with
    | .val (.ptr a) =>
      match cgo_decref m.reg a with
      | .ok r => execStmts fresh ⟨r, m.mem⟩ env rest
      | .panic msg r => .panic msg ⟨r, m.mem⟩
    | .val _ => .undefined
    | .panic msg => .panic msg m
    | .fault => .fault m
    | .undefined => .undefined
  | fresh, m, env, .AssignStmt [.Ident x] .DEFINE [e] :: rest =>
    match evalExpr m.mem env e with
    | .val v => execStmts fresh m ((x, ⟨some v, none⟩) :: env) rest
    | .panic msg => .panic msg m
    | .fault => .fault m
    | .undefined => .undefined
  | fresh, m, env, .AssignStmt [.StarExpr p] .ASSIGN [e] :: rest =>
    match evalExpr m.mem env p with
    | .val (.ptr a) =>
      match evalExpr m.mem env e with
      | .val (.slice l) =>
        match loadSlice m.mem a with
        | .val _ => execStmts fresh ⟨m.reg, Function.update m.mem a (some l)⟩ env rest
        | .panic msg => .panic msg m
        | .fault => .fault m
        | .undefined => .undefined
      | .val _ => .undefined
      | .panic msg => .panic msg m
      | .fault => .fault m
      | .undefined => .undefined
    | .val _ => .undefined
    | .panic msg => .panic msg m
    | .fault => .fault m
    | .undefined => .undefined
  | fresh, m, env, .AssignStmt [.IndexExpr (.ParenExpr (.StarExpr p)) i] .ASSIGN [e] :: rest =>
    match evalExpr m.mem env p with
    | .val (.ptr a) =>
      match loadSlice m.mem a with
      | .val (.slice l) =>
        match evalExpr m.mem env i with
        | .val (.num k) =>
          match evalExpr m.mem env e with
          | .val (.elem v) =>
            match boundsCheck l k with
            | some msg => .panic msg m
            | none =>
              execStmts fresh ⟨m.reg, Function.update m.mem a (some (l.set k.toNat v))⟩ env rest
          | .val _ => .undefined
          | .panic msg => .panic msg m
          | .fault => .fault m
          | .undefined => .undefined
        | .val _ => .undefined
        | .panic msg => .panic msg m
        | .fault => .fault m
        | .undefined => .undefined
      | .val _ => .undefined
      | .panic msg => .panic msg m
      | .fault => .fault m
      | .undefined => .undefined
    | .val _ => .undefined
    | .panic msg => .panic msg m
    | .fault => .fault m
    | .undefined => .undefined
  | _, m, env, .ReturnStmt es :: _ => evalReturn m env es
  | _, _, _, _ => .undefined

/-- Whether the string is a Go identifier written with ASCII letters, digits
and `_`: not empty, and not starting with a digit (keywords are not told
apart). -/
def isGoIdent (s : String) : Bool :=
  match s.data with
  | [] => false
  | c :: cs => (c.isAlpha || c == '_') && cs.all (fun d => d.isAlphanum || d == '_')

/-- A call of an emitted function from the boundary: the parameters are bound
to the arguments and the body is run.  There is no run when the name of the
function is not an identifier, the file holding it being no Go program, or when
the number of arguments differs from the number of parameters. -/
def callDecl {α : Type} (d : FuncDecl) (fresh : List Ptr) (m : Machine α)
    (args : List (Val α)) : Exec α :=
  let names := (d.Type_.Params.getD []).flatMap (fun fld => fld.Names)
  if isGoIdent d.Name ∧ names.length = args.length then
    execStmts fresh m (names.zip (args.map (fun v => ⟨some v, none⟩))) d.Body
  else .undefined

/-- The slice of the primitive type `int`. -/
def intSlice : Slice := ⟨.Basic "int"⟩

/-- The variables a `:=` statement declares, bound to the given locals, in
order. -/
def bindNames {α : Type} : List Expr → List (Local α) → Option (List (String × Local α))
  | [], [] => some []
  | .Ident x :: es, l :: ls => (bindNames es ls).map (fun env => (x, l) :: env)
  | _, _ => none

/-- Whether a returned expression has the declared result type, as far as the
syntax shows: a conversion `uintptr(..)` needs the declared type `uintptr`, and
a `nil` slot is no expression. -/
def returnsDeclared : Field → Option Expr → Bool
  | ⟨_, .Ident t⟩, some (.CallExpr (.Ident "uintptr") _) => t == "uintptr"
  | _, some (.CallExpr (.Ident "uintptr") _) => false
  | _, some _ => true
  | _, none => false

/-- Whether the statement is a return statement whose expressions, one per
declared result, have the declared types. -/
def returnTypeChecks (results : List Field) : Stmt → Bool
  | .ReturnStmt es =>
    es.length == results.length && (results.zip es).all (fun fe => returnsDeclared fe.1 fe.2)
  | _ => false

/-- A run of a wrapper emitted by `FuncAst` from the return of the underlying
function on.  The call itself belongs to the wrapped package: `results` are the
variables `r0, r1, ..` as it leaves them, each with its value and its address.
There is no run when the name of the wrapper is not an identifier, when the
wrapper binds another number of results, when its last statement does not
return the declared types, or when its body has another form. -/
def callWrapper {α : Type} (d : FuncDecl) (m : Machine α) (results : List (Local α)) :
    Exec α :=
  if isGoIdent d.Name then
    match d.Body with
    | [.ExprStmt (.CallExpr _ _)] =>
      match results with
      | [] => .ok m []
      | _ => .undefined
    | .AssignStmt lhs .DEFINE [.CallExpr _ _] :: rest =>
      match bindNames lhs results, rest.getLast? with
      | some env, some last =>
        if returnTypeChecks (d.Type_.Results.getD []) last then execStmts [] m env rest
        else .undefined
      | _, _ => .undefined
    | _ => .undefined
  else .undefined

/-- Whether the variable `r_i` of a result of the type is as the type says: it
holds a value, which for a pointer result is an address, and the variable of a
result of a named type has an address of its own. -/
def localFits {α : Type} : GoType → Local α → Bool
  | .Pointer _, ⟨some (.ptr _), _⟩ => true
  | .Pointer _, _ => false
  | .Named _ _ _ _, ⟨some _, some _⟩ => true
  | .Named _ _ _ _, _ => false
  | _, ⟨some _, _⟩ => true
  | _, _ => false

/-- The address a result of `Pointer` or `Named` type stands for: the address
a pointer holds, the address of the variable of a named type. -/
def resultAddr {α : Type} : GoType → Local α → Option Ptr
  | .Pointer _, ⟨some (.ptr a), _⟩ => some a
  | .Named _ _ _ _, ⟨_, some a⟩ => some a
  | _, _ => none

/-- Whether the wrapper's return expression for a result of the type has the
boundary type `Fields` declares for it: so for `Basic` and `Named` results and
for pointers to a type that is not `Basic`; a pointer to a `Basic` type is
declared with its own type while `uintptr(..)` is returned, and for the other
types nothing is returned. -/
def resultTypeChecks : GoType → Bool
  | .Basic _ => true
  | .Named _ _ _ _ => true
  | .Pointer (.Basic _) => false
  | .Pointer _ => true
  | _ => false

/-- An exported function `N() *pkg.T` of package `pkg`. -/
def pointerResultFunc : Func :=
  { CGoName := "cgo_pkg_N"
    AliasedGoName := .SelectorExpr (NewIdent "pkg") "N"
    Params := []
    Results := [⟨"", .Pointer (.Named (some "pkg") "T" [] (.Struct [])), some "pkg"⟩] }

/-- An exported function `Q() *int` of package `pkg`. -/
def pointerToBasicResultFunc : Func :=
  { CGoName := "cgo_pkg_Q"
    AliasedGoName := .SelectorExpr (NewIdent "pkg") "Q"
    Params := []
    Results := [⟨"", .Pointer (.Basic "int"), some "pkg"⟩] }

/-- The variables `r<k>, r<k+1>, ..` bound to the locals, in order. -/
def resultEnv {α : Type} (k : Nat) (xs : List (Local α)) : List (String × Local α) :=
  (xs.enumFrom k).map (fun jx => ("r" ++ toString jx.1, jx.2))

/-- The addresses a wrapper passes to `cgo_incref`, in order: one for each
result of `Pointer` or `Named` type. -/
def acquiredAddrs {α : Type} (results : List Var) (xs : List (Local α)) : List Ptr :=
  (results.zip xs).flatMap (fun vx => (resultAddr vx.1.Type_ vx.2).toList)

/-- The value a wrapper returns for a result: the address as a number for a
result of `Pointer` or `Named` type, the value of the variable otherwise (`0`
standing in for a variable without a value). -/
def returnedVal {α : Type} (t : GoType) (x : Local α) : Val α :=
  match resultAddr t x with
  | some a => .num a
  | none => x.val.getD (.num 0)

/-- The values a wrapper returns, in order. -/
def returnedVals {α : Type} (results : List Var) (xs : List (Local α)) : List (Val α) :=
  (results.zip xs).map (fun vx => returnedVal vx.1.Type_ vx.2)

/-- The wrapper `FuncAst` emits for `G(p *int, t pkg.T) (*pkg.T, pkg.T, int)`:
`func cgo_pkg_G(p *int, t uintptr) (uintptr, uintptr, int)` with the body
`r0, r1, r2 := pkg.G(*unsafe.Pointer(p), *(*pkg.T)(unsafe.Pointer(t)))`,
`cgo_incref(unsafe.Pointer(r0))`, `cgo_incref(unsafe.Pointer(&r1))`,
`return uintptr(unsafe.Pointer(r0)), uintptr(unsafe.Pointer(&r1)), r2`. -/
def mixedFuncWrapper : FuncDecl :=
  { Doc := ["//export cgo_pkg_G"]
    Name := "cgo_pkg_G"
    Type_ := ⟨some [⟨["p"], .Ident "*int"⟩, ⟨["t"], .Ident "uintptr"⟩],
      some [⟨[""], .Ident "uintptr"⟩, ⟨[""], .Ident "uintptr"⟩, ⟨[""], .Ident "int"⟩]⟩
    Body := [
      .AssignStmt [.Ident "r0", .Ident "r1", .Ident "r2"] .DEFINE
        [.CallExpr (.SelectorExpr (.Ident "pkg") "G")
          [.StarExpr (.CallExpr (.SelectorExpr (.Ident "unsafe") "Pointer") [.Ident "p"]),
            .StarExpr (.CallExpr (.ParenExpr (.StarExpr (.SelectorExpr (.Ident "pkg") "T")))
              [.CallExpr (.SelectorExpr (.Ident "unsafe") "Pointer") [.Ident "t"]])]],
      .ExprStmt (.CallExpr (.Ident "cgo_incref")
        [.CallExpr (.SelectorExpr (.Ident "unsafe") "Pointer") [.Ident "r0"]]),
      .ExprStmt (.CallExpr (.Ident "cgo_incref")
        [.CallExpr (.SelectorExpr (.Ident "unsafe") "Pointer")
          [.UnaryExpr .AND (.Ident "r1")]]),
      .ReturnStmt [
        some (.CallExpr (.Ident "uintptr")
          [.CallExpr (.SelectorExpr (.Ident "unsafe") "Pointer") [.Ident "r0"]]),
        some (.CallExpr (.Ident "uintptr")
          [.CallExpr (.SelectorExpr (.Ident "unsafe") "Pointer")
            [.UnaryExpr .AND (.Ident "r1")]]),
        some (.Ident "r2")]] }

/-- The wrapper `FuncAst` emits for `N() *pkg.T`:
`func cgo_pkg_N() uintptr`, with the body `r0 := pkg.N()`,
`cgo_incref(unsafe.Pointer(r0))`, `return uintptr(unsafe.Pointer(r0))`. -/
def pointerResultWrapper : FuncDecl :=
  { Doc := ["//export cgo_pkg_N"]
    Name := "cgo_pkg_N"
    Type_ := ⟨some [], some [⟨[""], .Ident "uintptr"⟩]⟩
    Body := [
      .AssignStmt [.Ident "r0"] .DEFINE [.CallExpr (.SelectorExpr (.Ident "pkg") "N") []],
      .ExprStmt (.CallExpr (.Ident "cgo_incref")
        [.CallExpr (.SelectorExpr (.Ident "unsafe") "Pointer") [.Ident "r0"]]),
      .ReturnStmt [some (.CallExpr (.Ident "uintptr")
        [.CallExpr (.SelectorExpr (.Ident "unsafe") "Pointer") [.Ident "r0"]])]] }

/-- Consistency of the two indices together with the range of the generator:
the invariant carried along every reachable state. -/
structure Inv (r : Refs) : Prop where
  next_lo : -2147483648 ≤ r.next
  next_hi : r.next ≤ -1
  fwd : ∀ p h, r.refs p = some h → r.next < h ∧ h ≤ -1 ∧ ∃ c, r.ptrs h = some ⟨p, c⟩
  bwd : ∀ h o, r.ptrs h = some o → r.refs o.ptr = some h

/-- Every stored refcount is an `int32` value. -/
def CntRange (r : Refs) : Prop :=
  ∀ h o, r.ptrs h = some o → -2147483648 ≤ o.cnt ∧ o.cnt ≤ 2147483647

/-! ## Unfolding lemmas for the emitted functions -/

theorem wrap32_id {x : Int} (h1 : -2147483648 ≤ x) (h2 : x ≤ 2147483647) : wrap32 x = x := by
  unfold wrap32; omega

theorem incref_tracked {r : Refs} {p : Ptr} {num : Int} (h : r.refs p = some num) :
    cgo_incref r p = .ok ⟨r.next, r.refs, Function.update r.ptrs num
      (some ⟨(ptrsAt r num).ptr, wrap32 ((ptrsAt r num).cnt + 1)⟩)⟩ := by
  simp [cgo_incref, h]

theorem incref_fresh_ok {r : Refs} {p : Ptr} (h : r.refs p = none)
    (hn : ¬ wrap32 (r.next - 1) > 0) :
    cgo_incref r p = .ok ⟨wrap32 (r.next - 1), Function.update r.refs p (some r.next),
      Function.update r.ptrs r.next (some ⟨p, 1⟩)⟩ := by
  simp only [cgo_incref, h]
  rw [if_neg hn]

theorem incref_fresh_panic {r : Refs} {p : Ptr} (h : r.refs p = none)
    (hn : wrap32 (r.next - 1) > 0) :
    cgo_incref r p = .panic "refs.next underflow" ⟨wrap32 (r.next - 1), r.refs, r.ptrs⟩ := by
  simp only [cgo_incref, h]
  rw [if_pos hn]

theorem decref_untracked {r : Refs} {p : Ptr} (h : r.refs p = none) :
    cgo_decref r p = .panic "decref untracked object!" r := by
  simp [cgo_decref, h]

theorem decref_drop {r : Refs} {p : Ptr} {num : Int} (h : r.refs p = some num)
    (hc : wrap32 ((ptrsAt r num).cnt - 1) ≤ 0) :
    cgo_decref r p = .ok ⟨r.next, Function.update r.refs p none,
      Function.update r.ptrs num none⟩ := by
  simp only [cgo_decref, h]
  rw [if_pos hc]

theorem decref_keep {r : Refs} {p : Ptr} {num : Int} (h : r.refs p = some num)
    (hc : ¬ wrap32 ((ptrsAt r num).cnt - 1) ≤ 0) :
    cgo_decref r p = .ok ⟨r.next, r.refs, Function.update r.ptrs num
      (some ⟨(ptrsAt r num).ptr, wrap32 ((ptrsAt r num).cnt - 1)⟩)⟩ := by
  simp only [cgo_decref, h]
  rw [if_neg hc]

theorem ptrsAt_of_some {r : Refs} {num : Int} {o : cobject} (h : r.ptrs num = some o) :
    ptrsAt r num = o := by
  simp [ptrsAt, h]

/-! ## The invariant holds in every reachable state -/

theorem inv_init (r : Refs) : Inv (init r) := by
  refine ⟨by simp [init], by simp [init], ?_, ?_⟩ <;> intro a b h <;> simp [init] at h

theorem inv_incref {r r1 : Refs} {p : Ptr} (hi : Inv r) (h : cgo_incref r p = .ok r1) :
    Inv r1 := by
  cases hp : r.refs p with
  | some num =>
    rw [incref_tracked hp] at h
    injection h with h; subst h
    obtain ⟨_, _, c, hc⟩ := hi.fwd p num hp
    rw [ptrsAt_of_some hc]
    refine ⟨hi.next_lo, hi.next_hi, ?_, ?_⟩
    · intro q k hq
      obtain ⟨a, b, d, hd⟩ := hi.fwd q k hq
      refine ⟨a, b, ?_⟩
      by_cases e : k = num
      · subst e
        rw [hc] at hd
        injection hd with hd
        injection hd with hd1 hd2
        subst hd1
        exact ⟨wrap32 (c + 1), by simp⟩
      · exact ⟨d, by simp [Function.update_apply, e, hd]⟩
    · intro k o ho
      by_cases e : k = num
      · subst e
        simp at ho
        subst ho
        exact hp
      · simp [Function.update_apply, e] at ho
        exact hi.bwd k o ho
  | none =>
    by_cases hn : wrap32 (r.next - 1) > 0
    · rw [incref_fresh_panic hp hn] at h
      cases h
    · rw [incref_fresh_ok hp hn] at h
      injection h with h; subst h
      have hlo := hi.next_lo
      have hhi := hi.next_hi
      have hne : r.next ≠ -2147483648 := by
        intro e
        apply hn
        rw [e]
        decide
      have hw : wrap32 (r.next - 1) = r.next - 1 := wrap32_id (by omega) (by omega)
      have hfree : r.ptrs r.next = none := by
        cases hq : r.ptrs r.next with
        | none => rfl
        | some o =>
          have := (hi.fwd _ _ (hi.bwd _ _ hq)).1
          omega
      refine ⟨by simp only [hw]; omega, by simp only [hw]; omega, ?_, ?_⟩
      · intro q k hq
        simp only [hw]
        by_cases e : q = p
        · subst e
          simp at hq
          subst hq
          exact ⟨by omega, by omega, 1, by simp⟩
        · simp [Function.update_apply, e] at hq
          obtain ⟨a, b, d, hd⟩ := hi.fwd q k hq
          refine ⟨by omega, b, d, ?_⟩
          have : k ≠ r.next := by omega
          simp [Function.update_apply, this, hd]
      · intro k o ho
        by_cases e : k = r.next
        · subst e
          simp at ho
          subst ho
          simp
        · simp [Function.update_apply, e] at ho
          have hb := hi.bwd k o ho
          have : o.ptr ≠ p := by
            intro e2
            rw [e2, hp] at hb
            cases hb
          simp [Function.update_apply, this, hb]

theorem inv_decref {r r1 : Refs} {p : Ptr} (hi : Inv r) (h : cgo_decref r p = .ok r1) :
    Inv r1 := by
  cases hp : r.refs p with
  | none =>
    rw [decref_untracked hp] at h
    cases h
  | some num =>
    obtain ⟨_, _, c, hc⟩ := hi.fwd p num hp
    by_cases hw : wrap32 ((ptrsAt r num).cnt - 1) ≤ 0
    · rw [decref_drop hp hw] at h
      injection h with h; subst h
      refine ⟨hi.next_lo, hi.next_hi, ?_, ?_⟩
      · intro q k hq
        by_cases e : q = p
        · subst e
          simp at hq
        · simp [Function.update_apply, e] at hq
          obtain ⟨a, b, d, hd⟩ := hi.fwd q k hq
          refine ⟨a, b, d, ?_⟩
          have : k ≠ num := by
            intro e2
            subst e2
            rw [hc] at hd
            injection hd with hd
            injection hd with hd1 hd2
            exact e hd1.symm
          simp [Function.update_apply, this, hd]
      · intro k o ho
        by_cases e : k = num
        · subst e
          simp at ho
        · simp [Function.update_apply, e] at ho
          have hb := hi.bwd k o ho
          have : o.ptr ≠ p := by
            intro e2
            rw [e2, hp] at hb
            injection hb with hb
            exact e hb.symm
          simp [Function.update_apply, this, hb]
    · rw [decref_keep hp hw] at h
      injection h with h; subst h
      rw [ptrsAt_of_some hc]
      refine ⟨hi.next_lo, hi.next_hi, ?_, ?_⟩
      · intro q k hq
        obtain ⟨a, b, d, hd⟩ := hi.fwd q k hq
        refine ⟨a, b, ?_⟩
        by_cases e : k = num
        · subst e
          rw [hc] at hd
          injection hd with hd
          injection hd with hd1 hd2
          subst hd1
          exact ⟨wrap32 (c - 1), by simp⟩
        · exact ⟨d, by simp [Function.update_apply, e, hd]⟩
      · intro k o ho
        by_cases e : k = num
        · subst e
          simp at ho
          subst ho
          exact hp
        · simp [Function.update_apply, e] at ho
          exact hi.bwd k o ho

theorem inv_of_reachable {r : Refs} (h : Reachable r) : Inv r := by
  induction h with
  | init r => exact inv_init r
  | incref p _ h ih => exact inv_incref ih h
  | decref p _ h ih => exact inv_decref ih h

theorem wrap32_range (x : Int) : -2147483648 ≤ wrap32 x ∧ wrap32 x ≤ 2147483647 := by
  unfold wrap32; omega

theorem cntRange_incref {r r1 : Refs} {p : Ptr} (hi : CntRange r)
    (h : cgo_incref r p = .ok r1) : CntRange r1 := by
  cases hp : r.refs p with
  | some num =>
    rw [incref_tracked hp] at h
    injection h with h; subst h
    intro k o ho
    by_cases e : k = num
    · subst e
      simp at ho
      subst ho
      exact wrap32_range _
    · simp [Function.update_apply, e] at ho
      exact hi k o ho
  | none =>
    by_cases hn : wrap32 (r.next - 1) > 0
    · rw [incref_fresh_panic hp hn] at h
      cases h
    · rw [incref_fresh_ok hp hn] at h
      injection h with h; subst h
      intro k o ho
      by_cases e : k = r.next
      · subst e
        simp at ho
        subst ho
        simp
      · simp [Function.update_apply, e] at ho
        exact hi k o ho

theorem cntRange_decref {r r1 : Refs} {p : Ptr} (hi : CntRange r)
    (h : cgo_decref r p = .ok r1) : CntRange r1 := by
  cases hp : r.refs p with
  | none =>
    rw [decref_untracked hp] at h
    cases h
  | some num =>
    by_cases hw : wrap32 ((ptrsAt r num).cnt - 1) ≤ 0
    · rw [decref_drop hp hw] at h
      injection h with h; subst h
      intro k o ho
      by_cases e : k = num
      · subst e
        simp at ho
      · simp [Function.update_apply, e] at ho
        exact hi k o ho
    · rw [decref_keep hp hw] at h
      injection h with h; subst h
      intro k o ho
      by_cases e : k = num
      · subst e
        simp at ho
        subst ho
        exact wrap32_range _
      · simp [Function.update_apply, e] at ho
        exact hi k o ho

theorem cntRange_of_reachable {r : Refs} (h : Reachable r) : CntRange r := by
  induction h with
  | init r => intro k o ho; simp [init] at ho
  | incref p _ h ih => exact cntRange_incref ih h
  | decref p _ h ih => exact cntRange_decref ih h

/-! ## Particular reachable states -/

theorem incref_single (p : Ptr) (c : Int) :
    cgo_incref (single p c) p = .ok (single p (wrap32 (c + 1))) := by
  have hp : (single p c).refs p = some (-1) := by simp [single]
  rw [incref_tracked hp]
  simp [single, ptrsAt]

theorem reachable_single_succ (p : Ptr) (k : Nat) :
    Reachable (single p (wrap32 (k + 1))) := by
  induction k with
  | zero =>
    have h : cgo_incref (init (emptyAt 0)) p = .ok (single p (wrap32 (0 + 1))) := by
      have hp : (init (emptyAt 0)).refs p = none := rfl
      rw [incref_fresh_ok hp (by decide)]
      rfl
    exact Reachable.incref p (Reachable.init _) (by exact_mod_cast h)
  | succ k ih =>
    have h := incref_single p (wrap32 (k + 1))
    have e : wrap32 (wrap32 ((k : Int) + 1) + 1) = wrap32 (((k + 1 : Nat) : Int) + 1) := by
      unfold wrap32; push_cast; omega
    rw [e] at h
    exact Reachable.incref p ih h

theorem reachable_emptyAt (k : Nat) (hk : k ≤ 2147483647) :
    Reachable (emptyAt (-((k : Int) + 1))) := by
  induction k with
  | zero => exact Reachable.init (emptyAt 0)
  | succ k ih =>
    have ih := ih (by omega)
    have hw : wrap32 (-((k : Int) + 1) - 1) = -(((k + 1 : Nat) : Int) + 1) := by
      rw [wrap32_id (by omega) (by omega)]; push_cast; ring
    have hp : (emptyAt (-((k : Int) + 1))).refs 0 = none := rfl
    have h1 := incref_fresh_ok hp (by
      show ¬ wrap32 (-((k : Int) + 1) - 1) > 0
      rw [hw]; push_cast; omega)
    have r1 := Reachable.incref 0 ih h1
    refine Reachable.decref 0 r1 ?_
    rw [@decref_drop _ 0 (-((k : Int) + 1)) (by simp [emptyAt]) (by simp [ptrsAt, emptyAt]; decide)]
    refine congrArg Outcome.ok ?_
    apply Refs.ext
    · exact hw
    · funext x; simp [emptyAt, Function.update_apply]
    · funext x; simp [emptyAt, Function.update_apply]

theorem incref_fresh_inv {r r1 : Refs} {p : Ptr} (h : r.refs p = none)
    (h1 : cgo_incref r p = .ok r1) :
    ¬ wrap32 (r.next - 1) > 0 ∧
    r1 = ⟨wrap32 (r.next - 1), Function.update r.refs p (some r.next),
      Function.update r.ptrs r.next (some ⟨p, 1⟩)⟩ := by
  by_cases hn : wrap32 (r.next - 1) > 0
  · rw [incref_fresh_panic h hn] at h1
    cases h1
  · rw [incref_fresh_ok h hn] at h1
    injection h1 with h1
    exact ⟨hn, h1.symm⟩

theorem ptrs_next_free {r : Refs} (hi : Inv r) : r.ptrs r.next = none := by
  cases hq : r.ptrs r.next with
  | none => rfl
  | some o =>
    have := (hi.fwd _ _ (hi.bwd _ _ hq)).1
    omega

theorem incref_tracked_effect {r : Refs} {p q : Ptr} {num c : Int}
    (h : r.refs p = some num) (hc : r.ptrs num = some ⟨q, c⟩) :
    ∃ r1, cgo_incref r p = .ok r1 ∧ r1.next = r.next ∧ r1.refs = r.refs ∧
      r1.ptrs = Function.update r.ptrs num (some ⟨q, wrap32 (c + 1)⟩) := by
  refine ⟨_, incref_tracked h, rfl, rfl, ?_⟩
  simp [ptrsAt_of_some hc]

theorem decref_keep_effect {r : Refs} {p q : Ptr} {num c : Int}
    (h : r.refs p = some num) (hc : r.ptrs num = some ⟨q, c⟩)
    (hw : ¬ wrap32 (c - 1) ≤ 0) :
    ∃ r1, cgo_decref r p = .ok r1 ∧ r1.next = r.next ∧ r1.refs = r.refs ∧
      r1.ptrs = Function.update r.ptrs num (some ⟨q, wrap32 (c - 1)⟩) := by
  refine ⟨_, decref_keep h (by rw [ptrsAt_of_some hc]; exact hw), rfl, rfl, ?_⟩
  simp [ptrsAt_of_some hc]

theorem decref_drop_effect {r : Refs} {p q : Ptr} {num c : Int}
    (h : r.refs p = some num) (hc : r.ptrs num = some ⟨q, c⟩)
    (hw : wrap32 (c - 1) ≤ 0) :
    ∃ r1, cgo_decref r p = .ok r1 ∧ r1.next = r.next ∧
      r1.refs = Function.update r.refs p none ∧
      r1.ptrs = Function.update r.ptrs num none :=
  ⟨_, decref_drop h (by rw [ptrsAt_of_some hc]; exact hw), rfl, rfl, rfl⟩

theorem incref_ok_tracked {r r1 : Refs} {p : Ptr} (h : cgo_incref r p = .ok r1) :
    ∃ k, r1.refs p = some k := by
  cases hp : r.refs p with
  | some num =>
    rw [incref_tracked hp] at h
    injection h with h; subst h
    exact ⟨num, hp⟩
  | none =>
    rw [(incref_fresh_inv hp h).2]
    exact ⟨r.next, by simp⟩

theorem incref_refs_mono {r r1 : Refs} {p q : Ptr} {k : Int} (h : cgo_incref r p = .ok r1)
    (hq : r.refs q = some k) : r1.refs q = some k := by
  cases hp : r.refs p with
  | some num =>
    rw [incref_tracked hp] at h
    injection h with h; subst h
    exact hq
  | none =>
    rw [(incref_fresh_inv hp h).2]
    have : q ≠ p := by
      intro e
      rw [e, hp] at hq
      cases hq
    simp [Function.update_apply, this, hq]

theorem handles_injective {r : Refs} (hi : Inv r) {v1 v2 : Ptr} {h : Int}
    (h1 : r.refs v1 = some h) (h2 : r.refs v2 = some h) : v1 = v2 := by
  obtain ⟨_, _, c1, e1⟩ := hi.fwd v1 h h1
  obtain ⟨_, _, c2, e2⟩ := hi.fwd v2 h h2
  rw [e1] at e2
  injection e2 with e2
  injection e2

theorem incref_fresh_next {r r1 : Refs} {p : Ptr} (hi : Inv r) (h : r.refs p = none)
    (h1 : cgo_incref r p = .ok r1) : r1.next = r.next - 1 := by
  obtain ⟨hn, e⟩ := incref_fresh_inv h h1
  have hlo := hi.next_lo
  have hhi := hi.next_hi
  rw [e]
  show wrap32 (r.next - 1) = r.next - 1
  unfold wrap32 at hn ⊢
  omega

theorem incref_tracked_next {r r1 : Refs} {p : Ptr} (h : r.refs p ≠ none)
    (h1 : cgo_incref r p = .ok r1) : r1.next = r.next := by
  cases hp : r.refs p with
  | none => exact absurd hp h
  | some num =>
    rw [incref_tracked hp] at h1
    injection h1 with h1; subst h1
    rfl

theorem decref_next {r r1 : Refs} {p : Ptr} (h1 : cgo_decref r p = .ok r1) :
    r1.next = r.next := by
  cases hp : r.refs p with
  | none =>
    rw [decref_untracked hp] at h1
    cases h1
  | some num =>
    by_cases hw : wrap32 ((ptrsAt r num).cnt - 1) ≤ 0
    · rw [decref_drop hp hw] at h1
      injection h1 with h1; subst h1
      rfl
    · rw [decref_keep hp hw] at h1
      injection h1 with h1; subst h1
      rfl

theorem run_next {r : Refs} (ops : List Op) : ∀ {r1 : Refs}, Inv r → run r ops = .ok r1 →
    Inv r1 ∧ r1.next = r.next - (freshAcquires r ops : Int) := by
  induction ops generalizing r with
  | nil =>
    intro r1 hi h
    simp only [run] at h
    injection h with h; subst h
    exact ⟨hi, by simp [freshAcquires]⟩
  | cons op ops ih =>
    intro r1 hi h
    cases hs : step r op with
    | panic msg r2 =>
      simp only [run, hs] at h
      cases h
    | ok r2 =>
      simp only [run, hs] at h
      cases op with
      | incref p =>
        have hs2 : cgo_incref r p = .ok r2 := hs
        obtain ⟨hi1, e1⟩ := ih (inv_incref hi hs2) h
        refine ⟨hi1, ?_⟩
        by_cases hp : r.refs p = none
        · have := incref_fresh_next hi hp hs2
          simp only [freshAcquires, hs, hp, if_true]
          push_cast
          omega
        · have := incref_tracked_next hp hs2
          simp only [freshAcquires, hs, hp, if_false]
          push_cast
          omega
      | decref p =>
        have hs2 : cgo_decref r p = .ok r2 := hs
        obtain ⟨hi1, e1⟩ := ih (inv_decref hi hs2) h
        refine ⟨hi1, ?_⟩
        have := decref_next hs2
        simp only [freshAcquires, hs]
        push_cast
        omega

/-! ## The registry claims -/

/-- C1: in every registry state reachable from `init` through `cgo_incref` and
`cgo_decref` calls, `refs` maps identity `p` to handle `h` exactly when `ptrs`
has an entry under `h` whose `ptr` field is `p`; so an identity is present in
`refs` exactly when it is present in `ptrs`, a handle is a key of `ptrs` exactly
when it is a value of `refs`, and an identity has at most one live handle. -/
theorem indices_agree (r : Refs) (hr : Reachable r) :
    (∀ p h, r.refs p = some h ↔ ∃ c, r.ptrs h = some ⟨p, c⟩) ∧
    (∀ p, (∃ h, r.refs p = some h) ↔ ∃ h c, r.ptrs h = some ⟨p, c⟩) ∧
    (∀ h, (∃ o, r.ptrs h = some o) ↔ ∃ p, r.refs p = some h) ∧
    (∀ p h1 h2 c1 c2, r.ptrs h1 = some ⟨p, c1⟩ → r.ptrs h2 = some ⟨p, c2⟩ → h1 = h2) := by
  have hi := inv_of_reachable hr
  have key : ∀ p h, r.refs p = some h ↔ ∃ c, r.ptrs h = some ⟨p, c⟩ := by
    intro p h
    constructor
    · intro hp
      exact (hi.fwd p h hp).2.2
    · rintro ⟨c, hc⟩
      exact hi.bwd h _ hc
  refine ⟨key, ?_, ?_, ?_⟩
  · intro p
    constructor
    · rintro ⟨h, hp⟩
      exact ⟨h, (key p h).1 hp⟩
    · rintro ⟨h, c, hc⟩
      exact ⟨h, (key p h).2 ⟨c, hc⟩⟩
  · intro h
    constructor
    · rintro ⟨o, ho⟩
      exact ⟨o.ptr, hi.bwd h o ho⟩
    · rintro ⟨p, hp⟩
      obtain ⟨c, hc⟩ := (key p h).1 hp
      exact ⟨_, hc⟩
  · intro p h1 h2 c1 c2 e1 e2
    have a := hi.bwd h1 _ e1
    have b := hi.bwd h2 _ e2
    simp only at a b
    rw [a] at b
    injection b

/-- Witness of C1 on the registry that tracks identity `7` once. -/
theorem indices_agree_witness :
    Reachable (single 7 1) ∧
    ((single 7 1).refs 7 = some (-1) ↔ ∃ c, (single 7 1).ptrs (-1) = some ⟨7, c⟩) :=
  ⟨Reachable.incref 7 (Reachable.init (emptyAt 0)) rfl,
    (indices_agree (single 7 1)
      (Reachable.incref 7 (Reachable.init (emptyAt 0)) rfl)).1 7 (-1)⟩

/-- C2 (amended): for every reachable registry state and every identity `v`
for which `cgo_incref v` returns normally and which is either untracked or
tracked with a refcount of at least 1, `cgo_incref v` followed by one
`cgo_decref v` returns normally and leaves both index maps `refs` and `ptrs`
exactly as they were. -/
theorem acquire_release_restores (r : Refs) (hr : Reachable r) (v : Ptr) (r1 : Refs)
    (h1 : cgo_incref r v = .ok r1)
    (hc : ∀ h, r.refs v = some h → 1 ≤ (ptrsAt r h).cnt) :
    ∃ r2, cgo_decref r1 v = .ok r2 ∧ r2.refs = r.refs ∧ r2.ptrs = r.ptrs := by
  have hi := inv_of_reachable hr
  cases hp : r.refs v with
  | some num =>
    obtain ⟨_, _, c, hptr⟩ := hi.fwd v num hp
    have hrng := cntRange_of_reachable hr num _ hptr
    have hpos := hc num hp
    rw [ptrsAt_of_some hptr] at hpos
    simp only at hrng hpos
    rw [incref_tracked hp, ptrsAt_of_some hptr] at h1
    injection h1 with h1; subst h1
    have hback : wrap32 (wrap32 (c + 1) - 1) = c := by
      unfold wrap32; omega
    have hkeep := @decref_keep ⟨r.next, r.refs,
        Function.update r.ptrs num (some ⟨v, wrap32 (c + 1)⟩)⟩ v num hp
      (by simp only [ptrsAt, Function.update_same, Option.getD_some]; rw [hback]; omega)
    refine ⟨_, hkeep, rfl, ?_⟩
    simp only [ptrsAt, Function.update_same, Option.getD_some, Function.update_idem, hback]
    rw [← hptr]
    exact Function.update_eq_self num r.ptrs
  | none =>
    obtain ⟨_, e⟩ := incref_fresh_inv hp h1
    subst e
    have hfree := ptrs_next_free hi
    have hdrop := @decref_drop ⟨wrap32 (r.next - 1), Function.update r.refs v (some r.next),
        Function.update r.ptrs r.next (some ⟨v, 1⟩)⟩ v r.next (by simp)
      (by simp only [ptrsAt, Function.update_same, Option.getD_some]; decide)
    refine ⟨_, hdrop, ?_, ?_⟩
    · simp only [Function.update_idem]
      rw [← hp]
      exact Function.update_eq_self v r.refs
    · simp only [Function.update_idem]
      rw [← hfree]
      exact Function.update_eq_self r.next r.ptrs

/-- Witness of C2 (amended) on the registry that tracks identity `7` once. -/
theorem acquire_release_restores_witness :
    Reachable (single 7 1) ∧ cgo_incref (single 7 1) 7 = .ok (single 7 2) ∧
    ∃ r2, cgo_decref (single 7 2) 7 = .ok r2 ∧
      r2.refs = (single 7 1).refs ∧ r2.ptrs = (single 7 1).ptrs :=
  ⟨Reachable.incref 7 (Reachable.init (emptyAt 0)) rfl, incref_single 7 1,
    acquire_release_restores (single 7 1)
      (Reachable.incref 7 (Reachable.init (emptyAt 0)) rfl) 7 (single 7 2) (incref_single 7 1)
      (by intro h hh; simp [single] at hh; subst hh; simp [ptrsAt, single])⟩

/-- C2 as stated fails once the `int32` refcount has wrapped: the registry in
which identity `1` has been acquired `2^31` times is reachable and holds the
refcount `-2^31`; one more `cgo_incref 1` followed by `cgo_decref 1` deletes the
entry from both maps instead of restoring them. -/
theorem acquire_release_overflow_counterexample :
    Reachable (single 1 (-2147483648)) ∧
    cgo_incref (single 1 (-2147483648)) 1 = .ok (single 1 (-2147483647)) ∧
    ∃ r2, cgo_decref (single 1 (-2147483647)) 1 = .ok r2 ∧
      r2.refs 1 = none ∧ (single 1 (-2147483648)).refs 1 = some (-1) ∧
      r2.ptrs (-1) = none ∧
      (single 1 (-2147483648)).ptrs (-1) = some ⟨1, -2147483648⟩ := by
  refine ⟨?_, incref_single 1 (-2147483648), _, rfl, ?_, ?_, ?_, ?_⟩
  · have h := reachable_single_succ 1 2147483647
    have e : wrap32 (((2147483647 : Nat) : Int) + 1) = -2147483648 := by decide
    rw [e] at h
    exact h
  · simp [single]
  · simp [single]
  · simp [single]
  · simp [single]

/-- C3 (amended): for every reachable registry state and every untracked
identity `v` whose first `cgo_incref` returns normally, that call and a second
`cgo_incref v` associate `v` with the same handle (the generator value before
the first call), the refcount being 1 and then 2; one `cgo_decref v` leaves the
entry present with refcount 1; the second `cgo_decref v` leaves `v` absent from
both indices; a third `cgo_decref v` panics with `decref untracked object!`. -/
theorem acquire_twice_release_thrice (r : Refs) (hr : Reachable r) (v : Ptr)
    (hv : r.refs v = none) (r1 : Refs) (h1 : cgo_incref r v = .ok r1) :
    ∃ r2 r3 r4,
      r1.refs v = some r.next ∧ r1.ptrs r.next = some ⟨v, 1⟩ ∧
      cgo_incref r1 v = .ok r2 ∧ r2.refs v = some r.next ∧ r2.ptrs r.next = some ⟨v, 2⟩ ∧
      cgo_decref r2 v = .ok r3 ∧ r3.refs v = some r.next ∧ r3.ptrs r.next = some ⟨v, 1⟩ ∧
      cgo_decref r3 v = .ok r4 ∧ r4.refs v = none ∧ r4.ptrs r.next = none ∧
      (∀ h o, r4.ptrs h = some o → o.ptr ≠ v) ∧
      cgo_decref r4 v = .panic "decref untracked object!" r4 := by
  have e := (incref_fresh_inv hv h1).2
  have a1 : r1.refs v = some r.next := by rw [e]; simp
  have b1 : r1.ptrs r.next = some ⟨v, 1⟩ := by rw [e]; simp
  obtain ⟨r2, s2, _, f2, p2⟩ := incref_tracked_effect a1 b1
  have a2 : r2.refs v = some r.next := by rw [f2]; exact a1
  have b2 : r2.ptrs r.next = some ⟨v, 2⟩ := by rw [p2]; simp; decide
  obtain ⟨r3, s3, _, f3, p3⟩ := decref_keep_effect a2 b2 (by decide)
  have a3 : r3.refs v = some r.next := by rw [f3]; exact a2
  have b3 : r3.ptrs r.next = some ⟨v, 1⟩ := by rw [p3]; simp; decide
  obtain ⟨r4, s4, _, f4, p4⟩ := decref_drop_effect a3 b3 (by decide)
  have a4 : r4.refs v = none := by rw [f4]; simp
  have b4 : r4.ptrs r.next = none := by rw [p4]; simp
  have hr4 : Reachable r4 :=
    Reachable.decref v (Reachable.decref v (Reachable.incref v (Reachable.incref v hr h1) s2) s3) s4
  refine ⟨r2, r3, r4, a1, b1, s2, a2, b2, s3, a3, b3, s4, a4, b4, ?_, decref_untracked a4⟩
  intro h o ho e2
  have := (inv_of_reachable hr4).bwd h o ho
  rw [e2, a4] at this
  cases this

/-- Witness of C3 (amended): on a freshly initialised registry the handle of
identity `7` is `-1` throughout. -/
theorem acquire_twice_release_thrice_witness :
    (init (emptyAt 0)).refs 7 = none ∧
    cgo_incref (init (emptyAt 0)) 7 = .ok (single 7 1) ∧
    ∃ r2 r3 r4,
      (single 7 1).refs 7 = some (-1) ∧ (single 7 1).ptrs (-1) = some ⟨7, 1⟩ ∧
      cgo_incref (single 7 1) 7 = .ok r2 ∧ r2.refs 7 = some (-1) ∧
      r2.ptrs (-1) = some ⟨7, 2⟩ ∧
      cgo_decref r2 7 = .ok r3 ∧ r3.refs 7 = some (-1) ∧ r3.ptrs (-1) = some ⟨7, 1⟩ ∧
      cgo_decref r3 7 = .ok r4 ∧ r4.refs 7 = none ∧ r4.ptrs (-1) = none ∧
      (∀ h o, r4.ptrs h = some o → o.ptr ≠ 7) ∧
      cgo_decref r4 7 = .panic "decref untracked object!" r4 :=
  ⟨rfl, rfl,
    acquire_twice_release_thrice (init (emptyAt 0)) (Reachable.init (emptyAt 0)) 7 rfl
      (single 7 1) rfl⟩

/-- C3 as stated fails on a reachable registry whose generator is exhausted:
with `next = -2^31` and identity `7` untracked, the first `cgo_incref 7` panics
with `refs.next underflow` (the decrement wraps to `2^31 - 1`) and `7` is
associated with no handle. -/
theorem acquire_exhausted_counterexample :
    Reachable (emptyAt (-2147483648)) ∧ (emptyAt (-2147483648)).refs 7 = none ∧
    cgo_incref (emptyAt (-2147483648)) 7 =
      .panic "refs.next underflow" (emptyAt 2147483647) ∧
    (emptyAt 2147483647).refs 7 = none :=
  ⟨reachable_emptyAt 2147483647 (by decide), rfl, rfl, rfl⟩

/-- C4: in every registry state, reachable or not, `cgo_decref` of an identity
without an entry in `refs` panics with `decref untracked object!`, does not
return normally, and the state at the panic is the state before the call (no
write to `refs`, `ptrs` or `next`). -/
theorem release_untracked_fatal (r : Refs) (p : Ptr) (h : r.refs p = none) :
    cgo_decref r p = .panic "decref untracked object!" r ∧
    ∀ r1, cgo_decref r p ≠ .ok r1 := by
  refine ⟨decref_untracked h, ?_⟩
  intro r1 e
  rw [decref_untracked h] at e
  cases e

/-- Witness of C4: releasing identity `3` while only identity `7` is tracked. -/
theorem release_untracked_fatal_witness :
    (single 7 1).refs 3 = none ∧
    cgo_decref (single 7 1) 3 = .panic "decref untracked object!" (single 7 1) ∧
    ∀ r1, cgo_decref (single 7 1) 3 ≠ .ok r1 :=
  ⟨by decide, release_untracked_fatal (single 7 1) 3 (by decide)⟩

/-- C5: in every reachable registry state two distinct identities that are
both tracked have distinct handles; in particular after `cgo_incref v1` and
`cgo_incref v2` have both returned normally, `v1` and `v2` are both tracked and
their handles differ. -/
theorem distinct_identities_distinct_handles (r : Refs) (hr : Reachable r) (v1 v2 : Ptr)
    (hne : v1 ≠ v2) :
    (∀ h1 h2, r.refs v1 = some h1 → r.refs v2 = some h2 → h1 ≠ h2) ∧
    (∀ r1 r2, cgo_incref r v1 = .ok r1 → cgo_incref r1 v2 = .ok r2 →
      ∃ h1 h2, r2.refs v1 = some h1 ∧ r2.refs v2 = some h2 ∧ h1 ≠ h2) := by
  constructor
  · intro h1 h2 e1 e2 e
    subst e
    exact hne (handles_injective (inv_of_reachable hr) e1 e2)
  · intro r1 r2 s1 s2
    obtain ⟨h1, a1⟩ := incref_ok_tracked s1
    obtain ⟨h2, a2⟩ := incref_ok_tracked s2
    have a1' := incref_refs_mono s2 a1
    have hr2 : Reachable r2 := Reachable.incref v2 (Reachable.incref v1 hr s1) s2
    refine ⟨h1, h2, a1', a2, ?_⟩
    intro e
    subst e
    exact hne (handles_injective (inv_of_reachable hr2) a1' a2)

/-- Witness of C5: identities `7` and `8` acquired on a fresh registry. -/
theorem distinct_identities_distinct_handles_witness :
    Reachable (init (emptyAt 0)) ∧ (7 : Ptr) ≠ 8 ∧
    ∃ r1 r2, cgo_incref (init (emptyAt 0)) 7 = .ok r1 ∧ cgo_incref r1 8 = .ok r2 ∧
      ∃ h1 h2, r2.refs 7 = some h1 ∧ r2.refs 8 = some h2 ∧ h1 ≠ h2 :=
  ⟨Reachable.init (emptyAt 0), by decide, _, _, rfl, rfl,
    (distinct_identities_distinct_handles (init (emptyAt 0)) (Reachable.init (emptyAt 0))
      7 8 (by decide)).2 _ _ rfl rfl⟩

/-- C6: after any sequence of registry calls run without panic from a freshly
initialised registry, of which `k - 1` were acquires of a then-untracked
identity, the generator stands at `-k`; the next acquire of an untracked
identity (the `k`-th), if it returns normally, assigns handle `-k` and leaves
the generator at `-(k + 1)`; an acquire of a tracked identity and a release
leave the generator unchanged. -/
theorem handles_assigned_in_sequence (r0 : Refs) (ops : List Op) (r : Refs)
    (h : run (init r0) ops = .ok r) :
    r.next = -((freshAcquires (init r0) ops : Int) + 1) ∧
    (∀ v r1, r.refs v = none → cgo_incref r v = .ok r1 →
      r1.refs v = some (-((freshAcquires (init r0) ops : Int) + 1)) ∧
      r1.next = -((freshAcquires (init r0) ops : Int) + 1 + 1)) ∧
    (∀ v r1, r.refs v ≠ none → cgo_incref r v = .ok r1 → r1.next = r.next) ∧
    (∀ v r1, cgo_decref r v = .ok r1 → r1.next = r.next) := by
  obtain ⟨hi, e⟩ := run_next ops (inv_init r0) h
  have e0 : (init r0).next = -1 := rfl
  have en : r.next = -((freshAcquires (init r0) ops : Int) + 1) := by
    rw [e, e0]; ring
  refine ⟨en, ?_, ?_, ?_⟩
  · intro v r1 hv s1
    have a := incref_fresh_next hi hv s1
    have b := (incref_fresh_inv hv s1).2
    constructor
    · rw [b, ← en]; simp
    · rw [a, en]; ring
  · intro v r1 hv s1
    exact incref_tracked_next hv s1
  · intro v r1 s1
    exact decref_next s1

/-- Witness of C6: two fresh acquires (`7`, `8`) interleaved with a repeated
acquire and two releases; the third fresh acquire (`9`) gets handle `-3`. -/
theorem handles_assigned_in_sequence_witness :
    ∃ r, run (init (emptyAt 0))
        [Op.incref 7, Op.incref 7, Op.decref 7, Op.incref 8, Op.decref 7] = .ok r ∧
      r.next = -3 ∧
      (∀ v r1, r.refs v = none → cgo_incref r v = .ok r1 →
        r1.refs v = some (-3) ∧ r1.next = -4) :=
  ⟨_, rfl,
    (handles_assigned_in_sequence (emptyAt 0)
      [Op.incref 7, Op.incref 7, Op.decref 7, Op.incref 8, Op.decref 7] _ rfl).1,
    (handles_assigned_in_sequence (emptyAt 0)
      [Op.incref 7, Op.incref 7, Op.decref 7, Op.incref 8, Op.decref 7] _ rfl).2.1⟩

/-- C7 as stated fails at the wrapped refcount: the registry in which identity
`1` has been acquired `2^31` times is reachable and holds the entry
`(1, -2^31)` under handle `-1`; there `c - 1 ≤ 0`, yet `cgo_decref 1` keeps the
entry in both maps and stores the refcount `2^31 - 1`, because the `int32`
difference wraps around. -/
theorem release_wrapped_counterexample :
    Reachable (single 1 (-2147483648)) ∧
    (single 1 (-2147483648)).refs 1 = some (-1) ∧
    (single 1 (-2147483648)).ptrs (-1) = some ⟨1, -2147483648⟩ ∧
    (-2147483648 : Int) - 1 ≤ 0 ∧
    ∃ r1, cgo_decref (single 1 (-2147483648)) 1 = .ok r1 ∧
      r1.refs 1 = some (-1) ∧ r1.ptrs (-1) = some ⟨1, 2147483647⟩ := by
  have hp : (single 1 (-2147483648)).refs 1 = some (-1) := by simp [single]
  have hc : (single 1 (-2147483648)).ptrs (-1) = some ⟨1, -2147483648⟩ := by simp [single]
  refine ⟨?_, hp, hc, by decide, ?_⟩
  · have h := reachable_single_succ 1 2147483647
    have e : wrap32 (((2147483647 : Nat) : Int) + 1) = -2147483648 := by decide
    rw [e] at h
    exact h
  · obtain ⟨r1, s1, _, f1, p1⟩ := decref_keep_effect hp hc (by decide)
    refine ⟨r1, s1, by rw [f1]; exact hp, ?_⟩
    rw [p1]
    simp
    decide

/-- C7 (amended): in every registry state in which identity `p` is tracked under
handle `h` with entry `(ptr, c)`, `c` being an `int32` value other than `-2^31`,
`cgo_decref p` returns normally and leaves the generator unchanged; when
`c - 1 ≤ 0` it deletes `p` from `refs` and `h` from `ptrs`, otherwise it leaves
`refs` unchanged and stores `(ptr, c - 1)` under `h`, every other key of either
map being untouched. -/
theorem release_tracked (r : Refs) (p : Ptr) (h : Int) (ptr : Ptr) (c : Int)
    (hp : r.refs p = some h) (hc : r.ptrs h = some ⟨ptr, c⟩)
    (hlo : -2147483648 < c) (hhi : c ≤ 2147483647) :
    ∃ r1, cgo_decref r p = .ok r1 ∧ r1.next = r.next ∧
      (c - 1 ≤ 0 →
        r1.refs = Function.update r.refs p none ∧ r1.ptrs = Function.update r.ptrs h none ∧
        r1.refs p = none ∧ r1.ptrs h = none) ∧
      (¬ c - 1 ≤ 0 →
        r1.refs = r.refs ∧
        r1.ptrs = Function.update r.ptrs h (some ⟨ptr, c - 1⟩) ∧
        r1.ptrs h = some ⟨ptr, c - 1⟩) := by
  have e : wrap32 (c - 1) = c - 1 := wrap32_id (by omega) (by omega)
  by_cases hw : c - 1 ≤ 0
  · obtain ⟨r1, s1, n1, f1, p1⟩ := decref_drop_effect hp hc (by rw [e]; exact hw)
    refine ⟨r1, s1, n1, ?_, fun hn => absurd hw hn⟩
    intro _
    exact ⟨f1, p1, by rw [f1]; simp, by rw [p1]; simp⟩
  · obtain ⟨r1, s1, n1, f1, p1⟩ := decref_keep_effect hp hc (by rw [e]; exact hw)
    rw [e] at p1
    refine ⟨r1, s1, n1, fun hn => absurd hn hw, ?_⟩
    intro _
    exact ⟨f1, p1, by rw [p1]; simp⟩

/-- Witness of C7: releasing identity `7` held twice keeps it with refcount 1. -/
theorem release_tracked_witness :
    (single 7 2).refs 7 = some (-1) ∧ (single 7 2).ptrs (-1) = some ⟨7, 2⟩ ∧
    ∃ r1, cgo_decref (single 7 2) 7 = .ok r1 ∧ r1.next = (single 7 2).next ∧
      ((2 : Int) - 1 ≤ 0 →
        r1.refs = Function.update (single 7 2).refs 7 none ∧
        r1.ptrs = Function.update (single 7 2).ptrs (-1) none ∧
        r1.refs 7 = none ∧ r1.ptrs (-1) = none) ∧
      (¬ (2 : Int) - 1 ≤ 0 →
        r1.refs = (single 7 2).refs ∧
        r1.ptrs = Function.update (single 7 2).ptrs (-1) (some ⟨7, 2 - 1⟩) ∧
        r1.ptrs (-1) = some ⟨7, 2 - 1⟩) :=
  ⟨by decide, by decide,
    release_tracked (single 7 2) 7 (-1) 7 2 (by decide) (by decide) (by decide) (by decide)⟩

/-- C8: whatever the prior registry state, `init` yields the state with `refs`
empty, `ptrs` empty and the generator `next` equal to `-1`. -/
theorem init_resets (r : Refs) :
    (init r).next = -1 ∧ (∀ p, (init r).refs p = none) ∧ (∀ h, (init r).ptrs h = none) ∧
    init r = emptyAt (-1) :=
  ⟨rfl, fun _ => rfl, fun _ => rfl, rfl⟩

/-- C9: `cgo_incref` of an untracked identity panics with `refs.next underflow`
exactly when the `int32` generator, after its decrement with wraparound, is
greater than 0, and it raises no other panic; `cgo_incref` of a tracked identity
never panics; no `cgo_incref` panics in a state with `next` in
`[-2^31 + 1, -1]`. -/
theorem underflow_fault_iff (r : Refs) (p : Ptr) :
    (r.refs p = none →
      (cgo_incref r p = .panic "refs.next underflow" ⟨wrap32 (r.next - 1), r.refs, r.ptrs⟩
        ↔ wrap32 (r.next - 1) > 0) ∧
      ((∃ msg r1, cgo_incref r p = .panic msg r1) ↔ wrap32 (r.next - 1) > 0)) ∧
    (r.refs p ≠ none → ∀ msg r1, cgo_incref r p ≠ .panic msg r1) ∧
    (-2147483647 ≤ r.next → r.next ≤ -1 → ∀ msg r1, cgo_incref r p ≠ .panic msg r1) := by
  have tracked : r.refs p ≠ none → ∀ msg r1, cgo_incref r p ≠ .panic msg r1 := by
    intro hp msg r1 e
    cases hq : r.refs p with
    | none => exact hp hq
    | some num =>
      rw [incref_tracked hq] at e
      cases e
  have fresh : r.refs p = none →
      ((∃ msg r1, cgo_incref r p = .panic msg r1) ↔ wrap32 (r.next - 1) > 0) := by
    intro hp
    constructor
    · rintro ⟨msg, r1, e⟩
      by_contra hn
      rw [incref_fresh_ok hp hn] at e
      cases e
    · intro hn
      exact ⟨_, _, incref_fresh_panic hp hn⟩
  refine ⟨?_, tracked, ?_⟩
  · intro hp
    refine ⟨?_, fresh hp⟩
    constructor
    · intro e
      exact (fresh hp).1 ⟨_, _, e⟩
    · intro hn
      exact incref_fresh_panic hp hn
  · intro hlo hhi msg r1 e
    by_cases hp : r.refs p = none
    · have hn := (fresh hp).1 ⟨msg, r1, e⟩
      unfold wrap32 at hn
      omega
    · exact tracked hp msg r1 e

/-- Witness of C9: with the generator at `-2^31` an acquire of the untracked
identity `7` panics, the decrement wrapping to `2^31 - 1`. -/
theorem underflow_fault_iff_witness :
    (emptyAt (-2147483648)).refs 7 = none ∧ wrap32 (-2147483648 - 1) > 0 ∧
    cgo_incref (emptyAt (-2147483648)) 7 =
      .panic "refs.next underflow" (emptyAt 2147483647) :=
  ⟨rfl, by decide,
    ((underflow_fault_iff (emptyAt (-2147483648)) 7).1 rfl).1.2 (by decide)⟩

/-! ## The binding synthesizer claims -/

/-- C10 (amended): `FuncAst` has no error result.  For every exported function
with a result whose type is not `Basic`, `Pointer` or `Named`, and whose
argument casts do not panic, `FuncAst` returns a wrapper declaration: it is
named `CGoName` and exported under that name, the result has the boundary type
`uintptr` in the wrapper's result list, the body is the call bound to the
result names, the acquire statements of the results and a return, and no
acquire statement is appended for that result. -/
theorem FuncAst_emits_for_unsupported_result (f : Func) (i : Nat) (v : Var)
    (hv : f.Results[i]? = some v) (hc : hasResultCase v.Type_ = false)
    (args : List Expr) (ha : ParamIdents f.Params = some args) :
    ∃ d, FuncAst f = some d ∧ d.Name = f.CGoName ∧ d.Doc = ["//export " ++ f.CGoName] ∧
      d.Type_.Params = some (Fields f.Params) ∧
      (∃ fs, d.Type_.Results = some fs ∧ fs[i]? = some ⟨[v.Name], uintptr⟩) ∧
      d.Body =
        [Stmt.AssignStmt ((List.range f.Results.length).map resultName) .DEFINE
          [.CallExpr f.AliasedGoName args]] ++
        f.Results.enum.flatMap (fun ir => resultStmts ir.1 ir.2.Type_) ++
        [Return (f.Results.enum.map (fun ir => resultExpr ir.1 ir.2.Type_))] ∧
      resultStmts i v.Type_ = [] := by
  have hlen : f.Results.length > 0 := by
    cases hr : f.Results with
    | nil => rw [hr] at hv; simp at hv
    | cons a l => simp
  have hfield : (Fields f.Results)[i]? = some ⟨[v.Name], uintptr⟩ := by
    simp only [Fields, List.getElem?_map, hv, Option.map_some']
    cases ht : v.Type_ <;> simp_all [hasResultCase, UintPtrOrBasic]
  have hstmts : resultStmts i v.Type_ = [] := by
    cases ht : v.Type_ <;> simp_all [hasResultCase, resultStmts]
  have hF : FuncAst f = some
      { Doc := ExportComments f.CGoName
        Name := f.CGoName
        Type_ := ⟨some (Fields f.Params), some (Fields f.Results)⟩
        Body :=
          [Stmt.AssignStmt ((List.range f.Results.length).map resultName) .DEFINE
            [.CallExpr f.AliasedGoName args]] ++
          f.Results.enum.flatMap (fun ir => resultStmts ir.1 ir.2.Type_) ++
          [Return (f.Results.enum.map (fun ir => resultExpr ir.1 ir.2.Type_))] } := by
    simp only [FuncAst, ha, Option.map_some', if_pos hlen]
  exact ⟨_, hF, rfl, rfl, rfl, ⟨_, rfl, hfield⟩, rfl, hstmts⟩

/-- Witness of C10 (amended): the wrapper emitted for `F() []int`. -/
theorem FuncAst_emits_for_unsupported_result_witness :
    sliceResultFunc.Results[0]? = some ⟨"", .Slice (.Basic "int"), none⟩ ∧
    hasResultCase (.Slice (.Basic "int")) = false ∧
    ParamIdents sliceResultFunc.Params = some [] ∧
    ∃ d, FuncAst sliceResultFunc = some d ∧ d.Name = "cgo_pkg_F" ∧
      (∃ fs, d.Type_.Results = some fs ∧ fs[0]? = some ⟨[""], uintptr⟩) ∧
      resultStmts 0 (.Slice (.Basic "int")) = [] :=
  ⟨rfl, rfl, rfl,
    (FuncAst_emits_for_unsupported_result sliceResultFunc 0 ⟨"", .Slice (.Basic "int"), none⟩
      rfl rfl [] rfl).elim
      (fun d h => ⟨d, h.1, h.2.1, h.2.2.2.2.1, h.2.2.2.2.2.2⟩)⟩

/-- C10 as stated fails: for `F() []int`, whose only result is a slice,
`FuncAst` signals nothing and returns a wrapper declaration; its return
statement carries an unassigned (`nil`) expression. -/
theorem FuncAst_slice_result_counterexample :
    hasResultCase (.Slice (.Basic "int")) = false ∧
    FuncAst sliceResultFunc = some
      { Doc := ["//export cgo_pkg_F"]
        Name := "cgo_pkg_F"
        Type_ := ⟨some [], some [⟨[""], .Ident "uintptr"⟩]⟩
        Body := [.AssignStmt [.Ident "r0"] .DEFINE
            [.CallExpr (.SelectorExpr (.Ident "pkg") "F") []],
          .ReturnStmt [none]] } :=
  ⟨rfl, rfl⟩

/-! ## Result names are pairwise distinct -/

theorem digitChar_val (k : Nat) (hk : k < 10) : (Nat.digitChar k).toNat - 48 = k := by
  interval_cases k <;> rfl

theorem toDigitsCore_val (fuel : Nat) : ∀ (n : Nat) (ds : List Char), n < fuel →
    digitsVal 0 (Nat.toDigitsCore 10 fuel n ds) = digitsVal n ds := by
  induction fuel with
  | zero => intro n ds h; omega
  | succ fuel ih =>
    intro n ds h
    simp only [Nat.toDigitsCore]
    split
    · rename_i h0
      have hn : n < 10 := by omega
      have hd := digitChar_val (n % 10) (Nat.mod_lt _ (by decide))
      simp only [digitsVal, List.foldl_cons, hd]
      rw [Nat.mod_eq_of_lt hn]
      simp
    · rename_i h0
      have hlt : n / 10 < fuel := by omega
      rw [ih (n / 10) _ hlt]
      have hd := digitChar_val (n % 10) (Nat.mod_lt _ (by decide))
      simp only [digitsVal, List.foldl_cons, hd]
      congr 1
      omega

theorem toString_val (n : Nat) : digitsVal 0 (toString n).data = n := by
  show digitsVal 0 (Nat.toDigitsCore 10 (n + 1) n []) = n
  rw [toDigitsCore_val (n + 1) n [] (by omega)]
  rfl

theorem resultName_injective {i j : Nat} (h : resultName i = resultName j) : i = j := by
  simp only [resultName, NewIdent, Expr.Ident.injEq] at h
  have h2 : (toString i).data = (toString j).data := by
    have := congrArg String.data h
    simpa using this
  rw [← toString_val i, ← toString_val j, h2]

/-! ## The shape of the wrapper `FuncAst` emits -/

theorem FuncAst_of_args {f : Func} {args : List Expr} (ha : ParamIdents f.Params = some args) :
    FuncAst f = some
      (if f.Results.length > 0 then
        { Doc := ExportComments f.CGoName
          Name := f.CGoName
          Type_ := ⟨some (Fields f.Params), some (Fields f.Results)⟩
          Body := [Stmt.AssignStmt ((List.range f.Results.length).map resultName) .DEFINE
              [.CallExpr f.AliasedGoName args]] ++ acquireStmts f.Results ++
            [Return (returnExprs f.Results)] }
      else
        { Doc := ExportComments f.CGoName
          Name := f.CGoName
          Type_ := ⟨some (Fields f.Params), none⟩
          Body := [.ExprStmt (.CallExpr f.AliasedGoName args)] }) := by
  simp only [FuncAst, ha, Option.map_some', acquireStmts, returnExprs]

theorem FuncAst_some_args {f : Func} {d : FuncDecl} (h : FuncAst f = some d) :
    ∃ args, ParamIdents f.Params = some args := by
  cases ha : ParamIdents f.Params with
  | none => simp [FuncAst, ha] at h
  | some args => exact ⟨args, rfl⟩

theorem mem_acquireStmts {rs : List Var} {s : Stmt} :
    s ∈ acquireStmts rs ↔ ∃ i v, rs[i]? = some v ∧ s ∈ resultStmts i v.Type_ := by
  simp only [acquireStmts, List.mem_flatMap]
  constructor
  · rintro ⟨⟨i, v⟩, hm, hs⟩
    exact ⟨i, v, List.mk_mem_enum_iff_getElem?.1 hm, hs⟩
  · rintro ⟨i, v, hm, hs⟩
    exact ⟨(i, v), List.mk_mem_enum_iff_getElem?.2 hm, hs⟩

theorem mem_resultStmts {i : Nat} {t : GoType} {s : Stmt} (h : s ∈ resultStmts i t) :
    ((∃ e, t = .Pointer e) ∧ s = IncrementRefCall (resultName i)) ∨
    ((∃ a b c d, t = .Named a b c d) ∧ s = IncrementRefCall (Ref (resultName i))) := by
  cases t <;> simp [resultStmts] at h
  · exact Or.inl ⟨⟨_, rfl⟩, h⟩
  · exact Or.inr ⟨⟨_, _, _, _, rfl⟩, h⟩

theorem resultStmts_index {i j : Nat} {t u : GoType} {s : Stmt}
    (h1 : s ∈ resultStmts i t) (h2 : s ∈ resultStmts j u) : i = j := by
  rcases mem_resultStmts h1 with ⟨_, e1⟩ | ⟨_, e1⟩ <;>
    rcases mem_resultStmts h2 with ⟨_, e2⟩ | ⟨_, e2⟩ <;>
    rw [e1] at e2 <;>
    simp only [IncrementRefCall, UnsafePointerToTarget, Ref, Stmt.ExprStmt.injEq,
      Expr.CallExpr.injEq, List.cons.injEq, and_true, true_and, Expr.UnaryExpr.injEq] at e2
  · exact resultName_injective e2
  · simp [resultName, NewIdent] at e2
  · simp [resultName, NewIdent] at e2
  · exact resultName_injective e2

theorem nodup_resultStmts (i : Nat) (t : GoType) : (resultStmts i t).Nodup := by
  cases t <;> simp [resultStmts]

theorem nodup_acquireStmts (rs : List Var) : (acquireStmts rs).Nodup := by
  rw [acquireStmts, List.nodup_flatMap]
  refine ⟨fun x _ => nodup_resultStmts _ _, ?_⟩
  have h1 : List.Pairwise (fun a b : Nat × Var => a.1 ≠ b.1) rs.enum := by
    have := List.nodup_range rs.length
    rw [← List.enum_map_fst rs, List.Nodup, List.pairwise_map] at this
    exact this
  refine h1.imp ?_
  intro a b hab s hs1 hs2
  exact hab (resultStmts_index hs1 hs2)

theorem returnExprs_getElem? {rs : List Var} {i : Nat} {v : Var} (h : rs[i]? = some v) :
    (returnExprs rs)[i]? = some (resultExpr i v.Type_) := by
  simp [returnExprs, List.getElem?_enum, h]

theorem returnExprs_length (rs : List Var) : (returnExprs rs).length = rs.length := by
  simp [returnExprs]

theorem Fields_getElem? {vs : List Var} {i : Nat} {v : Var} (h : vs[i]? = some v) :
    (Fields vs)[i]? = some (match v.Type_ with
      | .Pointer elem => UintPtrOrBasic v elem
      | t => UintPtrOrBasic v t) := by
  simp only [Fields, List.getElem?_map, h, Option.map_some']

theorem ParamIdents_eq_mapM' (vs : List Var) :
    ParamIdents vs = vs.mapM' (fun param => ParamExpr param param.Type_) :=
  (List.mapM'_eq_mapM _ _).symm

theorem mapM'_ParamExpr_getElem? : ∀ {vs : List Var} {args : List Expr},
    vs.mapM' (fun param => ParamExpr param param.Type_) = some args →
    args.length = vs.length ∧
    ∀ (i : Nat) (v : Var), vs[i]? = some v →
      (args[i]?).map some = some (CastExpr v.Type_ (NewIdent v.Name))
  | [], args, h => by
    simp only [List.mapM', Option.pure_def, Option.some.injEq] at h
    subst h
    simp
  | v :: vs, args, h => by
    simp only [List.mapM', Option.bind_eq_bind, Option.pure_def] at h
    cases h1 : ParamExpr v v.Type_ with
    | none => simp [h1] at h
    | some e =>
      cases h2 : List.mapM' (fun param => ParamExpr param param.Type_) vs with
      | none => simp [h1, h2] at h
      | some es =>
        simp only [h1, h2, Option.some_bind, Option.some.injEq] at h
        subst h
        obtain ⟨hl, hg⟩ := @mapM'_ParamExpr_getElem? vs es h2
        refine ⟨by simp [hl], ?_⟩
        intro i w hw
        cases i with
        | zero =>
          simp only [List.getElem?_cons_zero, Option.some.injEq] at hw
          subst hw
          simpa [ParamExpr] using h1.symm
        | succ i =>
          simp only [List.getElem?_cons_succ] at hw
          simpa using hg i w hw

theorem ParamIdents_getElem? {vs : List Var} {args : List Expr}
    (h : ParamIdents vs = some args) : args.length = vs.length ∧
    ∀ (i : Nat) (v : Var), vs[i]? = some v →
      (args[i]?).map some = some (CastExpr v.Type_ (NewIdent v.Name)) := by
  rw [ParamIdents_eq_mapM'] at h
  exact mapM'_ParamExpr_getElem? h

theorem FuncAst_types {f : Func} {d : FuncDecl} (h : FuncAst f = some d) :
    d.Type_.Params = some (Fields f.Params) ∧
    d.Type_.Results = (if f.Results.length > 0 then some (Fields f.Results) else none) := by
  obtain ⟨args, ha⟩ := FuncAst_some_args h
  rw [FuncAst_of_args ha] at h
  injection h with h
  subst h
  by_cases hn : f.Results.length > 0 <;> simp [hn]

/-- C11 (amended): for every parameter or result whose type is a `Named` type,
a `Slice`, or a `Pointer` to a type that is not `Basic`, the field `Fields`
emits has type `uintptr` and keeps the variable's name; for a `Pointer` to a
`Basic` type the field keeps the name and its type is the identifier of the
pointer type's own rendering (`*` followed by the basic type's name).  These
fields are the wrapper's boundary signature. -/
theorem Fields_handle_types (vs : List Var) (i : Nat) (v : Var) (hv : vs[i]? = some v) :
    (((∃ a b c d, v.Type_ = .Named a b c d) ∨ (∃ e, v.Type_ = .Slice e) ∨
        (∃ e, v.Type_ = .Pointer e ∧ ∀ n, e ≠ .Basic n)) →
      (Fields vs)[i]? = some ⟨[v.Name], uintptr⟩) ∧
    (∀ n, v.Type_ = .Pointer (.Basic n) →
      (Fields vs)[i]? = some ⟨[v.Name], .Ident ("*" ++ n)⟩) ∧
    (∀ f d, FuncAst f = some d → d.Type_.Params = some (Fields f.Params) ∧
      (0 < f.Results.length → d.Type_.Results = some (Fields f.Results))) := by
  refine ⟨?_, ?_, ?_⟩
  · rintro (⟨a, b, c, d, e⟩ | ⟨e, he⟩ | ⟨e, he, hb⟩)
    · rw [Fields_getElem? hv, e]
      rfl
    · rw [Fields_getElem? hv, he]
      rfl
    · rw [Fields_getElem? hv, he]
      cases e <;> first | rfl | exact absurd rfl (hb _)
  · intro n hn
    rw [Fields_getElem? hv, hn]
    simp [UintPtrOrBasic, VarToField, hn, typeString, NewIdent]
  · intro f d h
    obtain ⟨h1, h2⟩ := FuncAst_types h
    refine ⟨h1, fun hn => ?_⟩
    rw [h2, if_pos hn]

/-- Witness of C11 (amended): the parameters `p *int` and `t pkg.T` of
`mixedFunc`. -/
theorem Fields_handle_types_witness :
    mixedFunc.Params[1]? = some ⟨"t", .Named (some "pkg") "T" [] (.Struct []), none⟩ ∧
    (Fields mixedFunc.Params)[1]? = some ⟨["t"], uintptr⟩ :=
  ⟨rfl, (Fields_handle_types mixedFunc.Params 1
    ⟨"t", .Named (some "pkg") "T" [] (.Struct []), none⟩ rfl).1
      (Or.inl ⟨_, _, _, _, rfl⟩)⟩

/-- C11 as stated fails for a pointer to a primitive: for the parameter
`p *int` the field `Fields` emits has the type `*int`, not `uintptr`. -/
theorem Fields_pointer_to_basic_counterexample :
    Fields [⟨"p", .Pointer (.Basic "int"), none⟩] = [⟨["p"], .Ident "*int"⟩] ∧
    Expr.Ident "*int" ≠ uintptr := by
  refine ⟨rfl, ?_⟩
  simp [uintptr, NewIdent]

theorem acquire_statements_of_result (f : Func) (args : List Expr)
    (ha : ParamIdents f.Params = some args) (i : Nat) (v : Var)
    (hv : f.Results[i]? = some v) :
    ∃ d mid rets, FuncAst f = some d ∧
      d.Body = Stmt.AssignStmt ((List.range f.Results.length).map resultName) .DEFINE
        [.CallExpr f.AliasedGoName args] :: mid ++ [Return rets] ∧
      mid.Nodup ∧
      (∀ s ∈ mid, ∃ j w, f.Results[j]? = some w ∧
        (((∃ e, w.Type_ = .Pointer e) ∧ s = IncrementRefCall (resultName j)) ∨
         ((∃ a b c d, w.Type_ = .Named a b c d) ∧
           s = IncrementRefCall (Ref (resultName j))))) ∧
      ((∃ e, v.Type_ = .Pointer e) →
        IncrementRefCall (resultName i) ∈ mid ∧
        IncrementRefCall (Ref (resultName i)) ∉ mid ∧
        rets[i]? = some (some (UintPtr (UnsafePointerToTarget [resultName i])))) ∧
      ((∃ a b c d, v.Type_ = .Named a b c d) →
        IncrementRefCall (Ref (resultName i)) ∈ mid ∧
        IncrementRefCall (resultName i) ∉ mid ∧
        rets[i]? = some (some (UintPtr (UnsafePointerToTarget [Ref (resultName i)])))) ∧
      ((∃ n, v.Type_ = .Basic n) →
        IncrementRefCall (resultName i) ∉ mid ∧
        IncrementRefCall (Ref (resultName i)) ∉ mid) := by
  have hlen : f.Results.length > 0 := by
    cases hr : f.Results with
    | nil => rw [hr] at hv; simp at hv
    | cons a l => simp
  have key : ∀ s, s ∈ resultStmts i v.Type_ ↔ s ∈ acquireStmts f.Results ∧
      (s = IncrementRefCall (resultName i) ∨ s = IncrementRefCall (Ref (resultName i))) := by
    intro s
    constructor
    · intro hs
      refine ⟨mem_acquireStmts.2 ⟨i, v, hv, hs⟩, ?_⟩
      rcases mem_resultStmts hs with ⟨_, e⟩ | ⟨_, e⟩
      · exact Or.inl e
      · exact Or.inr e
    · rintro ⟨hs, he⟩
      obtain ⟨j, w, hw, hsj⟩ := mem_acquireStmts.1 hs
      have hsi : ∃ t, s ∈ resultStmts i t := by
        rcases he with e | e
        · exact ⟨.Pointer (.Basic ""), by simp [resultStmts, e]⟩
        · exact ⟨.Named none "" [] (.Basic ""), by simp [resultStmts, e]⟩
      obtain ⟨t, ht⟩ := hsi
      have hij : j = i := resultStmts_index hsj ht
      subst hij
      rw [hv] at hw
      injection hw with hw
      subst hw
      exact hsj
  refine ⟨_, acquireStmts f.Results, returnExprs f.Results, FuncAst_of_args ha, ?_,
    nodup_acquireStmts _, ?_, ?_, ?_, ?_⟩
  · simp [if_pos hlen]
  · intro s hs
    obtain ⟨j, w, hw, hsj⟩ := mem_acquireStmts.1 hs
    exact ⟨j, w, hw, mem_resultStmts hsj⟩
  · rintro ⟨e, he⟩
    refine ⟨((key _).1 (by simp [he, resultStmts])).1, ?_, ?_⟩
    · intro hm
      have := (key _).2 ⟨hm, Or.inr rfl⟩
      simp [he, resultStmts, IncrementRefCall, UnsafePointerToTarget, Ref, resultName,
        NewIdent] at this
    · rw [returnExprs_getElem? hv, he]
      rfl
  · rintro ⟨a, b, c, d, he⟩
    refine ⟨((key _).1 (by simp [he, resultStmts])).1, ?_, ?_⟩
    · intro hm
      have := (key _).2 ⟨hm, Or.inl rfl⟩
      simp [he, resultStmts, IncrementRefCall, UnsafePointerToTarget, Ref, resultName,
        NewIdent] at this
    · rw [returnExprs_getElem? hv, he]
      rfl
  · rintro ⟨n, he⟩
    constructor
    · intro hm
      have := (key _).2 ⟨hm, Or.inl rfl⟩
      simp [he, resultStmts] at this
    · intro hm
      have := (key _).2 ⟨hm, Or.inr rfl⟩
      simp [he, resultStmts] at this

theorem CastExpr_none_iff : ∀ (t : GoType) (e : Expr),
    CastExpr t e = none ↔ castPanics t = true
  | .Pointer elem, e => by
    simp only [CastExpr, castPanics, Option.map_eq_none']
    exact CastExpr_none_iff elem _
  | .Named none _ _ _, e => by simp [CastExpr, castPanics]
  | .Named (some _) _ _ _, e => by simp [CastExpr, castPanics]
  | .Basic _, e => by simp [CastExpr, castPanics]
  | .Slice _, e => by simp [CastExpr, castPanics]
  | .Array _ _, e => by simp [CastExpr, castPanics]
  | .Map _ _, e => by simp [CastExpr, castPanics]
  | .Chan _ _, e => by simp [CastExpr, castPanics]
  | .Signature _ _ _, e => by simp [CastExpr, castPanics]
  | .Interface _, e => by simp [CastExpr, castPanics]
  | .Struct _, e => by simp [CastExpr, castPanics]

theorem mapM'_ParamExpr_none_iff : ∀ (vs : List Var),
    vs.mapM' (fun param => ParamExpr param param.Type_) = none ↔
      ∃ v ∈ vs, castPanics v.Type_ = true
  | [] => by simp [List.mapM']
  | v :: vs => by
    have ih := mapM'_ParamExpr_none_iff vs
    simp only [List.mapM', Option.bind_eq_bind, Option.pure_def, List.mem_cons,
      exists_eq_or_imp]
    cases h1 : ParamExpr v v.Type_ with
    | none =>
      have := (CastExpr_none_iff v.Type_ (NewIdent v.Name)).1 h1
      simp [this]
    | some e =>
      have h1' : ¬ castPanics v.Type_ = true := by
        intro hc
        have := (CastExpr_none_iff v.Type_ (NewIdent v.Name)).2 hc
        rw [ParamExpr] at h1
        rw [this] at h1
        cases h1
      cases h2 : List.mapM' (fun param => ParamExpr param param.Type_) vs with
      | none =>
        have := ih.1 h2
        simp [h1', this]
      | some es =>
        have : ¬ ∃ v ∈ vs, castPanics v.Type_ = true := by
          intro hc
          have := ih.2 hc
          rw [h2] at this
          cases this
        simp [h1']
        simpa using this

theorem ParamIdents_none_iff (vs : List Var) :
    ParamIdents vs = none ↔ ∃ v ∈ vs, castPanics v.Type_ = true := by
  rw [ParamIdents_eq_mapM']
  exact mapM'_ParamExpr_none_iff vs

theorem FuncAst_none_iff (f : Func) :
    FuncAst f = none ↔ ∃ v ∈ f.Params, castPanics v.Type_ = true := by
  rw [← ParamIdents_none_iff]
  simp [FuncAst]

theorem ParamIdents_of_casts {vs : List Var} (h : ∀ v ∈ vs, castPanics v.Type_ = false) :
    ∃ args, ParamIdents vs = some args := by
  cases ha : ParamIdents vs with
  | some args => exact ⟨args, rfl⟩
  | none =>
    obtain ⟨v, hv, hc⟩ := (ParamIdents_none_iff vs).1 ha
    rw [h v hv] at hc
    cases hc

theorem length_flatMap_resultStmts : ∀ (rs : List Var) (n : Nat),
    ((rs.enumFrom n).flatMap (fun ir => resultStmts ir.1 ir.2.Type_)).length =
      rs.countP (fun w => needsAcquire w.Type_)
  | [], n => by simp
  | v :: rs, n => by
    have ih := length_flatMap_resultStmts rs (n + 1)
    simp only [List.enumFrom_cons, List.flatMap_cons, List.length_append, ih, List.countP_cons]
    cases h : v.Type_ <;> simp [resultStmts, needsAcquire] <;> omega

theorem length_acquireStmts (rs : List Var) :
    (acquireStmts rs).length = rs.countP (fun w => needsAcquire w.Type_) :=
  length_flatMap_resultStmts rs 0

/-- The wrapper of a function whose arguments `CastExpr` can build, with the
acquire statements and return expressions of its results. -/
theorem acquire_statements_of_casts (f : Func)
    (hc : ∀ p ∈ f.Params, castPanics p.Type_ = false) (i : Nat) (v : Var)
    (hv : f.Results[i]? = some v) :
    ∃ d args, FuncAst f = some d ∧ ParamIdents f.Params = some args ∧
      d.Body = Stmt.AssignStmt ((List.range f.Results.length).map resultName) .DEFINE
        [.CallExpr f.AliasedGoName args] :: acquireStmts f.Results ++
          [Return (returnExprs f.Results)] ∧
      (acquireStmts f.Results).Nodup ∧
      (acquireStmts f.Results).length = f.Results.countP (fun w => needsAcquire w.Type_) ∧
      (returnExprs f.Results).length = f.Results.length ∧
      (∀ s ∈ acquireStmts f.Results, ∃ (j : Nat) (w : Var), f.Results[j]? = some w ∧
        (((∃ e, w.Type_ = .Pointer e) ∧ s = IncrementRefCall (resultName j)) ∨
         ((∃ a b c d, w.Type_ = .Named a b c d) ∧
            s = IncrementRefCall (Ref (resultName j))))) ∧
      ((∃ e, v.Type_ = .Pointer e) →
        IncrementRefCall (resultName i) ∈ acquireStmts f.Results ∧
        IncrementRefCall (Ref (resultName i)) ∉ acquireStmts f.Results) ∧
      ((∃ a b c d, v.Type_ = .Named a b c d) →
        IncrementRefCall (Ref (resultName i)) ∈ acquireStmts f.Results ∧
        IncrementRefCall (resultName i) ∉ acquireStmts f.Results) ∧
      ((∃ n, v.Type_ = .Basic n) →
        IncrementRefCall (resultName i) ∉ acquireStmts f.Results ∧
        IncrementRefCall (Ref (resultName i)) ∉ acquireStmts f.Results) ∧
      (returnExprs f.Results)[i]? = some (resultExpr i v.Type_) := by
  obtain ⟨args, ha⟩ := ParamIdents_of_casts hc
  have hlen : f.Results.length > 0 := by
    cases hr : f.Results with
    | nil => rw [hr] at hv; simp at hv
    | cons a l => simp
  obtain ⟨d, mid, rets, hd, hbody, hnd, hall, hp, hn, hb⟩ :=
    acquire_statements_of_result f args ha i v hv
  have hd2 := hd
  rw [FuncAst_of_args ha] at hd2
  injection hd2 with hd2
  subst hd2
  simp only [if_pos hlen, List.singleton_append, List.cons_append, List.cons.injEq,
    true_and] at hbody
  have h2 := List.append_inj' hbody (by simp)
  have hm : acquireStmts f.Results = mid := h2.1
  subst hm
  refine ⟨_, args, hd, ha, ?_, hnd, length_acquireStmts _, returnExprs_length _, hall,
    fun h => ⟨(hp h).1, (hp h).2.1⟩, fun h => ⟨(hn h).1, (hn h).2.1⟩, hb,
    returnExprs_getElem? hv⟩
  simp only [if_pos hlen]
  rfl

/-- C12 at its failing input, and where the generator returns: for the exported
function `P(e error) *pkg.T` `FuncAst` panics while casting the `error`
parameter and emits nothing; `FuncAst` panics exactly for the functions with a
parameter whose type is, or points to, a `Named` type without a package.  For
every other function the body of the wrapper is the call bound to the result
names, then the acquire statements, then the return statement; for a result
`i` of `Pointer` type the acquire statements contain
`cgo_incref(unsafe.Pointer(r_i))` and the return lists
`uintptr(unsafe.Pointer(r_i))` at position `i`; for a result of `Named` type
they contain `cgo_incref(unsafe.Pointer(&r_i))` and the return lists
`uintptr(unsafe.Pointer(&r_i))`; for a `Basic` result they contain neither
statement.  No acquire statement occurs twice, each belongs to a `Pointer` or
`Named` result, and there are as many as there are such results.  The wrapper
of `G(p *int, t pkg.T) (*pkg.T, pkg.T, int)` is written out in full. -/
theorem result_acquire_statements :
    FuncAst errorParamPointerFunc = none ∧
    (∀ f : Func, FuncAst f = none ↔ ∃ p ∈ f.Params, castPanics p.Type_ = true) ∧
    FuncAst mixedFunc = some mixedFuncWrapper ∧
    ∀ f : Func, (∀ p ∈ f.Params, castPanics p.Type_ = false) →
      ∀ (i : Nat) (v : Var), f.Results[i]? = some v →
      ∃ d args mid rets, FuncAst f = some d ∧
        d.Body = Stmt.AssignStmt ((List.range f.Results.length).map
            (fun j => Expr.Ident ("r" ++ toString j)))
            .DEFINE
          [.CallExpr f.AliasedGoName args] :: mid ++ [Stmt.ReturnStmt rets] ∧
        mid.Nodup ∧
        mid.length = f.Results.countP (fun w => needsAcquire w.Type_) ∧
        (∀ s ∈ mid, ∃ (j : Nat) (w : Var), f.Results[j]? = some w ∧
          (((∃ e, w.Type_ = .Pointer e) ∧
              s = Stmt.ExprStmt (.CallExpr (.Ident "cgo_incref")
                  [.CallExpr (.SelectorExpr (.Ident "unsafe") "Pointer")
                      [.Ident ("r" ++ toString j)]])) ∨
           ((∃ a b c d, w.Type_ = .Named a b c d) ∧
              s = Stmt.ExprStmt (.CallExpr (.Ident "cgo_incref")
                  [.CallExpr (.SelectorExpr (.Ident "unsafe") "Pointer")
                      [.UnaryExpr .AND (.Ident ("r" ++ toString j))]])))) ∧
        ((∃ e, v.Type_ = .Pointer e) →
          Stmt.ExprStmt (.CallExpr (.Ident "cgo_incref")
              [.CallExpr (.SelectorExpr (.Ident "unsafe") "Pointer")
                  [.Ident ("r" ++ toString i)]]) ∈ mid ∧
          Stmt.ExprStmt (.CallExpr (.Ident "cgo_incref")
              [.CallExpr (.SelectorExpr (.Ident "unsafe") "Pointer")
                  [.UnaryExpr .AND (.Ident ("r" ++ toString i))]]) ∉ mid ∧
          rets[i]? = some (some (Expr.CallExpr (.Ident "uintptr")
              [.CallExpr (.SelectorExpr (.Ident "unsafe") "Pointer")
                  [.Ident ("r" ++ toString i)]]))) ∧
        ((∃ a b c d, v.Type_ = .Named a b c d) →
          Stmt.ExprStmt (.CallExpr (.Ident "cgo_incref")
              [.CallExpr (.SelectorExpr (.Ident "unsafe") "Pointer")
                  [.UnaryExpr .AND (.Ident ("r" ++ toString i))]]) ∈ mid ∧
          Stmt.ExprStmt (.CallExpr (.Ident "cgo_incref")
              [.CallExpr (.SelectorExpr (.Ident "unsafe") "Pointer")
                  [.Ident ("r" ++ toString i)]]) ∉ mid ∧
          rets[i]? = some (some (Expr.CallExpr (.Ident "uintptr")
              [.CallExpr (.SelectorExpr (.Ident "unsafe") "Pointer")
                  [.UnaryExpr .AND (.Ident ("r" ++ toString i))]]))) ∧
        ((∃ n, v.Type_ = .Basic n) →
          Stmt.ExprStmt (.CallExpr (.Ident "cgo_incref")
              [.CallExpr (.SelectorExpr (.Ident "unsafe") "Pointer")
                  [.Ident ("r" ++ toString i)]]) ∉ mid ∧
          Stmt.ExprStmt (.CallExpr (.Ident "cgo_incref")
              [.CallExpr (.SelectorExpr (.Ident "unsafe") "Pointer")
                  [.UnaryExpr .AND (.Ident ("r" ++ toString i))]]) ∉ mid) := by
  refine ⟨rfl, FuncAst_none_iff, rfl, ?_⟩
  intro f hc i v hv
  obtain ⟨d, args, hd, _, hbody, hnd, hlen, _, hall, hp, hn, hb, hret⟩ :=
    acquire_statements_of_casts f hc i v hv
  refine ⟨d, args, acquireStmts f.Results, returnExprs f.Results, hd, hbody, hnd, hlen, hall,
    ?_, ?_, hb⟩
  · rintro ⟨e, he⟩
    refine ⟨mem_acquireStmts.2 ⟨i, v, hv, ?_⟩, (hp ⟨e, he⟩).2, ?_⟩
    · rw [he]
      exact List.mem_cons_self _ _
    · rw [hret, he]
      rfl
  · rintro ⟨a, b, c, u, he⟩
    refine ⟨mem_acquireStmts.2 ⟨i, v, hv, ?_⟩, (hn ⟨a, b, c, u, he⟩).2, ?_⟩
    · rw [he]
      exact List.mem_cons_self _ _
    · rw [hret, he]
      rfl

/-- Witness of C12: the wrapper of `mixedFunc`, whose results are a pointer, a
named type and a basic type. -/
theorem result_acquire_statements_witness :
    FuncAst mixedFunc = some mixedFuncWrapper ∧
    ∃ d args mid rets, FuncAst mixedFunc = some d ∧
      d.Body = Stmt.AssignStmt ((List.range 3).map (fun j => Expr.Ident ("r" ++ toString j)))
        .DEFINE [.CallExpr (.SelectorExpr (.Ident "pkg") "G") args] :: mid ++
          [Stmt.ReturnStmt rets] ∧
      mid.Nodup ∧ mid.length = 2 ∧
      Stmt.ExprStmt (.CallExpr (.Ident "cgo_incref")
          [.CallExpr (.SelectorExpr (.Ident "unsafe") "Pointer")
              [.Ident ("r" ++ toString 0)]]) ∈ mid ∧
      rets[0]? = some (some (Expr.CallExpr (.Ident "uintptr")
          [.CallExpr (.SelectorExpr (.Ident "unsafe") "Pointer") [.Ident ("r" ++ toString 0)]])) :=
  ⟨rfl,
    (result_acquire_statements.2.2.2 mixedFunc (by decide) 0
      ⟨"", .Pointer (.Named (some "pkg") "T" [] (.Struct [])), none⟩ rfl).elim
      (fun d h => h.elim (fun args h => h.elim (fun mid h => h.elim (fun rets h =>
        ⟨d, args, mid, rets, h.1, h.2.1, h.2.2.1, h.2.2.2.1,
          (h.2.2.2.2.2.1 ⟨_, rfl⟩).1, (h.2.2.2.2.2.1 ⟨_, rfl⟩).2.2⟩))))⟩

theorem CastExpr_ne_call {t : GoType} {x : String} {e : Expr}
    (h : CastExpr t (NewIdent x) = some e) (fn : Expr) (as : List Expr) :
    e ≠ .CallExpr fn as := by
  cases t with
  | Pointer elem =>
    simp only [CastExpr, Option.map_eq_some'] at h
    obtain ⟨a, _, rfl⟩ := h
    simp [DeRef]
  | Named pkg name ms u =>
    cases pkg with
    | none => simp [CastExpr] at h
    | some path =>
      simp only [CastExpr, Option.some.injEq] at h
      subst h
      simp [DeRef]
  | Slice elem =>
    simp only [CastExpr, Option.some.injEq] at h
    subst h
    simp [DeRef]
  | _ =>
    simp only [CastExpr, Option.some.injEq] at h
    subst h
    simp [NewIdent]

theorem incref_ne_call_of_args {f : Func} {args : List Expr}
    (ha : ParamIdents f.Params = some args) (fn target : Expr) :
    IncrementRefCall target ≠ .ExprStmt (.CallExpr fn args) := by
  intro h
  simp only [IncrementRefCall, Stmt.ExprStmt.injEq, Expr.CallExpr.injEq] at h
  obtain ⟨_, h2⟩ := h
  obtain ⟨hl, hg⟩ := ParamIdents_getElem? ha
  rw [← h2] at hl hg
  cases hp : f.Params with
  | nil => rw [hp] at hl; simp at hl
  | cons p ps =>
    have := hg 0 p (by rw [hp]; simp)
    simp only [List.getElem?_cons_zero, Option.map_some', Option.some.injEq] at this
    exact CastExpr_ne_call this.symm _ _ rfl

/-- C13 at its failing inputs, and on every other function: for
`K() (int, chan int, map[string]int)` the return statement of the wrapper lists
`r0` and two `nil` slots, and for `E(e error, n int) int` `FuncAst` panics.  For
every function whose arguments `CastExpr` can build, the wrapper has one
argument per parameter, the `i`-th being `CastExpr` of the `i`-th parameter's
type applied to its identifier, and one parameter field per parameter with the
same names in the same order; exactly one statement of the body invokes the
underlying function, the first.  With no result the body is just that call;
with `n > 0` results the call is bound to `r0 .. r(n-1)`, it is followed by
acquire statements only, and the return statement closing the body has `n`
slots: slot `i` is `r_i` for a `Basic` result, `uintptr(unsafe.Pointer(r_i))`
for a `Pointer` result, `uintptr(unsafe.Pointer(&r_i))` for a `Named` result,
and `nil` for a result of any other type.  The wrapper of
`G(p *int, t pkg.T) (*pkg.T, pkg.T, int)` is written out in full. -/
theorem wrapper_single_call :
    FuncAst unsupportedResultsFunc = some
      { Doc := ["//export cgo_pkg_K"]
        Name := "cgo_pkg_K"
        Type_ := ⟨some [],
          some [⟨[""], .Ident "int"⟩, ⟨[""], .Ident "uintptr"⟩, ⟨[""], .Ident "uintptr"⟩]⟩
        Body := [
          .AssignStmt [.Ident "r0", .Ident "r1", .Ident "r2"] .DEFINE
            [.CallExpr (.SelectorExpr (.Ident "pkg") "K") []],
          .ReturnStmt [some (.Ident "r0"), none, none]] } ∧
    FuncAst errorParamFunc = none ∧
    FuncAst mixedFunc = some mixedFuncWrapper ∧
    ∀ f : Func, (∀ p ∈ f.Params, castPanics p.Type_ = false) →
      ∃ d args, FuncAst f = some d ∧
        args.length = f.Params.length ∧
        (∀ (i : Nat) (p : Var), f.Params[i]? = some p →
          ∃ a, args[i]? = some a ∧ CastExpr p.Type_ (.Ident p.Name) = some a) ∧
        (∃ ps, d.Type_.Params = some ps ∧ ps.length = f.Params.length ∧
          ps.map (fun fld => fld.Names) = f.Params.map (fun p => [p.Name])) ∧
        (∀ (k : Nat) (s : Stmt), d.Body[k]? = some s →
          (invokes (.CallExpr f.AliasedGoName args) s ↔ k = 0)) ∧
        (f.Results.length = 0 → d.Body = [.ExprStmt (.CallExpr f.AliasedGoName args)]) ∧
        (0 < f.Results.length → ∃ mid rets,
          d.Body = Stmt.AssignStmt ((List.range f.Results.length).map
              (fun j => Expr.Ident ("r" ++ toString j)))
              .DEFINE
            [.CallExpr f.AliasedGoName args] :: mid ++ [Stmt.ReturnStmt rets] ∧
          ((List.range f.Results.length).map
              (fun j => Expr.Ident ("r" ++ toString j))).length = f.Results.length ∧
          (∀ (i : Nat), i < f.Results.length →
            ((List.range f.Results.length).map
                (fun j => Expr.Ident ("r" ++ toString j)))[i]? =
              some (.Ident ("r" ++ toString i))) ∧
          (∀ s ∈ mid, ∃ j : Nat,
            s = Stmt.ExprStmt (.CallExpr (.Ident "cgo_incref")
                [.CallExpr (.SelectorExpr (.Ident "unsafe") "Pointer")
                    [.Ident ("r" ++ toString j)]]) ∨
            s = Stmt.ExprStmt (.CallExpr (.Ident "cgo_incref")
                [.CallExpr (.SelectorExpr (.Ident "unsafe") "Pointer")
                    [.UnaryExpr .AND (.Ident ("r" ++ toString j))]])) ∧
          rets.length = f.Results.length ∧
          (∀ (i : Nat) (v : Var), f.Results[i]? = some v →
            ((∃ n, v.Type_ = .Basic n) → rets[i]? = some (some (.Ident ("r" ++ toString i)))) ∧
            ((∃ e, v.Type_ = .Pointer e) →
              rets[i]? = some (some (Expr.CallExpr (.Ident "uintptr")
                  [.CallExpr (.SelectorExpr (.Ident "unsafe") "Pointer")
                      [.Ident ("r" ++ toString i)]]))) ∧
            ((∃ a b c d, v.Type_ = .Named a b c d) →
              rets[i]? = some (some (Expr.CallExpr (.Ident "uintptr")
                  [.CallExpr (.SelectorExpr (.Ident "unsafe") "Pointer")
                      [.UnaryExpr .AND (.Ident ("r" ++ toString i))]]))) ∧
            (hasResultCase v.Type_ = false → rets[i]? = some none))) := by
  refine ⟨rfl, rfl, rfl, ?_⟩
  intro f hc
  obtain ⟨args, ha⟩ := ParamIdents_of_casts hc
  obtain ⟨hl, hg⟩ := ParamIdents_getElem? ha
  have hnames : (Fields f.Params).map (fun fld => fld.Names) =
      f.Params.map (fun p => [p.Name]) := by
    simp only [Fields, List.map_map]
    apply List.map_congr_left
    intro p _
    simp only [Function.comp]
    cases ht : p.Type_ with
    | Pointer e => cases e <;> simp [UintPtrOrBasic, VarToField]
    | _ => simp [UintPtrOrBasic, VarToField]
  have hmid : ∀ s ∈ acquireStmts f.Results, ∃ j, s = IncrementRefCall (resultName j) ∨
      s = IncrementRefCall (Ref (resultName j)) := by
    intro s hs
    obtain ⟨j, w, _, hsj⟩ := mem_acquireStmts.1 hs
    rcases mem_resultStmts hsj with ⟨_, e⟩ | ⟨_, e⟩
    · exact ⟨j, Or.inl e⟩
    · exact ⟨j, Or.inr e⟩
  refine ⟨_, args, FuncAst_of_args ha, hl, ?_, ?_, ?_, ?_, ?_⟩
  · intro i p hp
    have := hg i p hp
    cases h : args[i]? with
    | none => simp [h] at this
    | some a =>
      simp only [h, Option.map_some', Option.some.injEq] at this
      exact ⟨a, rfl, this.symm⟩
  · refine ⟨Fields f.Params, ?_, by simp [Fields], hnames⟩
    by_cases hn : f.Results.length > 0 <;> simp [hn]
  · intro k s hk
    by_cases hn : f.Results.length > 0
    · simp only [if_pos hn, List.singleton_append, List.cons_append] at hk
      cases k with
      | zero =>
        simp only [List.getElem?_cons_zero, Option.some.injEq] at hk
        subst hk
        exact ⟨fun _ => rfl, fun _ => Or.inr ⟨_, rfl⟩⟩
      | succ k =>
        simp only [List.getElem?_cons_succ] at hk
        have hm := List.getElem?_mem hk
        refine ⟨fun hi => ?_, fun h0 => by omega⟩
        exfalso
        rcases List.mem_append.1 hm with h1 | h1
        · obtain ⟨j, e | e⟩ := hmid s h1 <;> subst e <;>
            rcases hi with h2 | ⟨lhs, h2⟩
          · exact incref_ne_call_of_args ha _ _ h2
          · simp [IncrementRefCall] at h2
          · exact incref_ne_call_of_args ha _ _ h2
          · simp [IncrementRefCall] at h2
        · simp only [List.mem_singleton] at h1
          subst h1
          rcases hi with h2 | ⟨lhs, h2⟩ <;> simp [Return] at h2
    · simp only [if_neg hn] at hk
      cases k with
      | zero =>
        simp only [List.getElem?_cons_zero, Option.some.injEq] at hk
        subst hk
        exact ⟨fun _ => rfl, fun _ => Or.inl rfl⟩
      | succ k => simp at hk
  · intro h0
    have hn : ¬ f.Results.length > 0 := by omega
    simp [hn]
  · intro hn
    refine ⟨acquireStmts f.Results, returnExprs f.Results, ?_, by simp, ?_,
      hmid, returnExprs_length _, ?_⟩
    · simp only [if_pos hn, List.singleton_append, List.cons_append]
      rfl
    · intro i hi
      simp [List.getElem?_map, List.getElem?_range hi]
    · intro i v hv
      rw [returnExprs_getElem? hv]
      refine ⟨?_, ?_, ?_, ?_⟩
      · rintro ⟨n, he⟩
        rw [he]
        rfl
      · rintro ⟨e, he⟩
        rw [he]
        rfl
      · rintro ⟨a, b, c, d, he⟩
        rw [he]
        rfl
      · intro hu
        cases ht : v.Type_ <;> simp [ht, hasResultCase] at hu <;> rfl

/-- Witness of C13: the wrapper of `mixedFunc` has two arguments and two
parameters, and its first statement is the only one invoking `pkg.G`. -/
theorem wrapper_single_call_witness :
    ∃ d args, FuncAst mixedFunc = some d ∧ args.length = 2 ∧
      (∃ ps, d.Type_.Params = some ps ∧ ps.length = 2 ∧
        ps.map (fun fld => fld.Names) = [["p"], ["t"]]) ∧
      (∀ (k : Nat) (s : Stmt), d.Body[k]? = some s →
        (invokes (.CallExpr (.SelectorExpr (NewIdent "pkg") "G") args) s ↔ k = 0)) :=
  (wrapper_single_call.2.2.2 mixedFunc (by decide)).elim
    (fun d h => h.elim (fun args h => ⟨d, args, h.1, h.2.1, h.2.2.2.1, h.2.2.2.2.1⟩))

/-- C14 at its failing input, and on every other function: for
`E(e error, n int) int` `FuncAst` panics while casting `e`, so nothing is
emitted for the `Basic` parameter `n` and the `Basic` result.  For every
variable of `Basic` type, `Fields` gives a field of its own name whose type is
the basic type's name and `CastExpr` returns the identifier itself; in the
wrapper of every function whose arguments `CastExpr` can build, the argument of
the call for such a parameter is the bare parameter identifier, and for such a
result the return statement lists the bare `r_i` while no acquire statement
mentions `r_i` or `&r_i`.  The wrapper of
`G(p *int, t pkg.T) (*pkg.T, pkg.T, int)`, with its `Basic` result `r2`, is
written out in full. -/
theorem basic_crosses_unchanged :
    FuncAst errorParamFunc = none ∧
    errorParamFunc.Params[1]? = some ⟨"n", .Basic "int", some "pkg"⟩ ∧
    errorParamFunc.Results[0]? = some ⟨"", .Basic "int", some "pkg"⟩ ∧
    FuncAst mixedFunc = some mixedFuncWrapper ∧
    ∀ (n : String) (v : Var), v.Type_ = .Basic n →
      (∀ (vs : List Var) (i : Nat), vs[i]? = some v →
        (Fields vs)[i]? = some ⟨[v.Name], .Ident n⟩) ∧
      (∀ ident, CastExpr v.Type_ ident = some ident) ∧
      (∀ (f : Func) (i : Nat), (∀ p ∈ f.Params, castPanics p.Type_ = false) →
        f.Params[i]? = some v →
        ∃ d args s rest, FuncAst f = some d ∧ d.Body = s :: rest ∧
          invokes (.CallExpr f.AliasedGoName args) s ∧
          args[i]? = some (.Ident v.Name)) ∧
      (∀ (f : Func) (i : Nat), (∀ p ∈ f.Params, castPanics p.Type_ = false) →
        f.Results[i]? = some v →
        ∃ d args mid rets, FuncAst f = some d ∧
          d.Body = Stmt.AssignStmt ((List.range f.Results.length).map
              (fun j => Expr.Ident ("r" ++ toString j)))
              .DEFINE
            [.CallExpr f.AliasedGoName args] :: mid ++ [Stmt.ReturnStmt rets] ∧
          rets[i]? = some (some (.Ident ("r" ++ toString i))) ∧
          Stmt.ExprStmt (.CallExpr (.Ident "cgo_incref")
              [.CallExpr (.SelectorExpr (.Ident "unsafe") "Pointer")
                  [.Ident ("r" ++ toString i)]]) ∉ mid ∧
          Stmt.ExprStmt (.CallExpr (.Ident "cgo_incref")
              [.CallExpr (.SelectorExpr (.Ident "unsafe") "Pointer")
                  [.UnaryExpr .AND (.Ident ("r" ++ toString i))]]) ∉ mid ∧
          (∀ s ∈ mid, ∃ j : Nat, j ≠ i ∧
            (s = Stmt.ExprStmt (.CallExpr (.Ident "cgo_incref")
                [.CallExpr (.SelectorExpr (.Ident "unsafe") "Pointer")
                    [.Ident ("r" ++ toString j)]]) ∨
             s = Stmt.ExprStmt (.CallExpr (.Ident "cgo_incref")
                 [.CallExpr (.SelectorExpr (.Ident "unsafe") "Pointer")
                     [.UnaryExpr .AND (.Ident ("r" ++ toString j))]])))) := by
  refine ⟨rfl, rfl, rfl, rfl, ?_⟩
  intro n v hb
  refine ⟨?_, ?_, ?_, ?_⟩
  · intro vs i hv
    rw [Fields_getElem? hv, hb]
    simp [UintPtrOrBasic, VarToField, hb, typeString, NewIdent]
  · intro ident
    rw [hb]
    rfl
  · intro f i hc hv
    obtain ⟨args, ha⟩ := ParamIdents_of_casts hc
    have := (ParamIdents_getElem? ha).2 i v hv
    rw [hb] at this
    simp only [CastExpr, NewIdent, Option.some.injEq] at this
    have harg : args[i]? = some (.Ident v.Name) := by
      cases h : args[i]? with
      | none => simp [h] at this
      | some e =>
        simp only [h, Option.map_some', Option.some.injEq] at this
        rw [this]
    by_cases hn : f.Results.length > 0
    · exact ⟨_, args, _, _, FuncAst_of_args ha, by simp only [if_pos hn]; rfl,
        Or.inr ⟨_, rfl⟩, harg⟩
    · exact ⟨_, args, _, _, FuncAst_of_args ha, by simp only [if_neg hn]; rfl,
        Or.inl rfl, harg⟩
  · intro f i hc hv
    obtain ⟨d, args, hd, _, hbody, _, _, _, hall, _, _, hbasic, hret⟩ :=
      acquire_statements_of_casts f hc i v hv
    obtain ⟨h1, h2⟩ := hbasic ⟨n, hb⟩
    have h3 : (returnExprs f.Results)[i]? = some (some (.Ident ("r" ++ toString i))) := by
      rw [hret, hb]
      rfl
    refine ⟨d, args, acquireStmts f.Results, returnExprs f.Results, hd, hbody, h3, h1, h2, ?_⟩
    intro s hs
    obtain ⟨j, w, _, hw⟩ := hall s hs
    refine ⟨j, ?_, ?_⟩
    · intro e
      subst e
      rcases hw with ⟨_, e⟩ | ⟨_, e⟩
      · exact h1 (e ▸ hs)
      · exact h2 (e ▸ hs)
    · rcases hw with ⟨_, e⟩ | ⟨_, e⟩
      · exact Or.inl e
      · exact Or.inr e

/-- Witness of C14: the result `r2 int` of `mixedFunc`. -/
theorem basic_crosses_unchanged_witness :
    (Fields mixedFunc.Results)[2]? = some ⟨[""], .Ident "int"⟩ ∧
    CastExpr (.Basic "int") (.Ident "x") = some (.Ident "x") ∧
    ∃ d args mid rets, FuncAst mixedFunc = some d ∧
      d.Body = Stmt.AssignStmt ((List.range 3).map (fun j => Expr.Ident ("r" ++ toString j)))
        .DEFINE [.CallExpr (.SelectorExpr (.Ident "pkg") "G") args] :: mid ++
          [Stmt.ReturnStmt rets] ∧
      rets[2]? = some (some (.Ident ("r" ++ toString 2))) ∧
      Stmt.ExprStmt (.CallExpr (.Ident "cgo_incref")
          [.CallExpr (.SelectorExpr (.Ident "unsafe") "Pointer")
              [.Ident ("r" ++ toString 2)]]) ∉ mid :=
  ⟨(basic_crosses_unchanged.2.2.2.2 "int" ⟨"", .Basic "int", none⟩ rfl).1 mixedFunc.Results 2 rfl,
    (basic_crosses_unchanged.2.2.2.2 "int" ⟨"", .Basic "int", none⟩ rfl).2.1 (.Ident "x"),
    ((basic_crosses_unchanged.2.2.2.2 "int" ⟨"", .Basic "int", none⟩ rfl).2.2.2 mixedFunc 2
      (by decide) rfl).elim (fun d h => h.elim (fun args h => h.elim (fun mid h =>
        h.elim (fun rets h => ⟨d, args, mid, rets, h.1, h.2.1, h.2.2.1, h.2.2.2.1⟩))))⟩

/-! ## The slice bundle claims -/

theorem string_append_left_cancel {a b c : String} (h : a ++ b = a ++ c) : b = c := by
  have h2 := congrArg String.data h
  simp only [String.data_append, List.append_cancel_left_eq] at h2
  exact String.ext h2

theorem Slice_ToAst_names (s : Slice) :
    s.ToAst.map (fun d => d.Name) =
      [s.CGoName ++ "_new", s.CGoName ++ "_str", s.CGoName ++ "_item",
        s.CGoName ++ "_item_set", s.CGoName ++ "_item_append", s.CGoName ++ "_destroy"] :=
  rfl

theorem suffixed_ne {a b c : String} (h : b ≠ c) : a ++ b ≠ a ++ c :=
  fun e => h (string_append_left_cancel e)

/-- C15 (amended): every parameter and result type that an emitted
boundary-callable function declares is one of the following.  For `cgo_incref`
and `cgo_decref`: `unsafe.Pointer`.  For the six functions of `Slice.ToAst`:
`uintptr`, `unsafe.Pointer`, `int`, `string` or the identifier of the element
type's own rendering.  For a wrapper of `FuncAst`: `uintptr`, or the identifier
of the own rendering of a parameter or result whose type is `Basic` or a
`Pointer` to a `Basic` type. -/
theorem declared_types_of_emitted :
    IncrementRef.declaredTypes = [unsafePointer] ∧
    DecrementRef.declaredTypes = [unsafePointer] ∧
    (∀ (s : Slice) (d : FuncDecl), d ∈ s.ToAst → ∀ t ∈ d.declaredTypes,
      t = uintptr ∨ t = unsafePointer ∨ t = .Ident "int" ∨ t = .Ident "string" ∨
      t = .Ident (typeString s.elem)) ∧
    (∀ (f : Func) (d : FuncDecl), FuncAst f = some d → ∀ t ∈ d.declaredTypes,
      t = uintptr ∨ ∃ v ∈ f.Params ++ f.Results,
        ((∃ n, v.Type_ = .Basic n) ∨ (∃ n, v.Type_ = .Pointer (.Basic n))) ∧
        t = .Ident (typeString v.Type_)) := by
  refine ⟨rfl, rfl, ?_, ?_⟩
  · intro s d hd t ht
    simp only [Slice.ToAst, List.mem_cons, List.mem_singleton, List.not_mem_nil,
      or_false] at hd
    rcases hd with rfl | rfl | rfl | rfl | rfl | rfl <;>
      simp [FuncDecl.declaredTypes, Slice.NewAst, Slice.StringAst, Slice.ItemAst,
        Slice.ItemSetAst, Slice.ItemAppendAst, Slice.DestroyAst, NewAst, StringAst,
        DestroyAst, InstanceMethodParams] at ht <;>
      (try simp only [NewIdent] at ht) <;> tauto
  · intro f d hd t ht
    have key : ∀ vs : List Var, ∀ fld ∈ Fields vs, fld.Type_ = uintptr ∨ ∃ v ∈ vs,
        ((∃ n, v.Type_ = .Basic n) ∨ (∃ n, v.Type_ = .Pointer (.Basic n))) ∧
        fld.Type_ = .Ident (typeString v.Type_) := by
      intro vs fld hf
      simp only [Fields, List.mem_map] at hf
      obtain ⟨v, hv, rfl⟩ := hf
      cases ht : v.Type_ with
      | Pointer e =>
        cases e with
        | Basic n =>
          exact Or.inr ⟨v, hv, Or.inr ⟨n, ht⟩, by simp [UintPtrOrBasic, VarToField, ht, NewIdent]⟩
        | _ => exact Or.inl rfl
      | Basic n =>
        exact Or.inr ⟨v, hv, Or.inl ⟨n, ht⟩, by simp [UintPtrOrBasic, VarToField, ht, NewIdent]⟩
      | _ => exact Or.inl rfl
    obtain ⟨h1, h2⟩ := FuncAst_types hd
    simp only [FuncDecl.declaredTypes, h1, h2, Option.getD_some, List.mem_map,
      List.mem_append] at ht
    obtain ⟨fld, hf, rfl⟩ := ht
    rcases hf with hf | hf
    · rcases key _ fld hf with h | ⟨v, hv, h⟩
      · exact Or.inl h
      · exact Or.inr ⟨v, List.mem_append_left _ hv, h⟩
    · by_cases hn : f.Results.length > 0
      · simp only [if_pos hn, Option.getD_some] at hf
        rcases key _ fld hf with h | ⟨v, hv, h⟩
        · exact Or.inl h
        · exact Or.inr ⟨v, List.mem_append_right _ hv, h⟩
      · simp [if_neg hn] at hf

/-- Witness of C15 (amended): the types declared by the `_item` function of
the slice of `int` and by `cgo_decref`. -/
theorem declared_types_of_emitted_witness :
    (Slice.mk (.Basic "int")).ItemAst ∈ (Slice.mk (.Basic "int")).ToAst ∧
    (∀ t ∈ (Slice.mk (.Basic "int")).ItemAst.declaredTypes,
      t = uintptr ∨ t = unsafePointer ∨ t = .Ident "int" ∨ t = .Ident "string" ∨
      t = .Ident (typeString (.Basic "int"))) ∧
    DecrementRef.declaredTypes = [unsafePointer] :=
  ⟨by simp [Slice.ToAst],
    declared_types_of_emitted.2.2.1 (Slice.mk (.Basic "int")) _ (by simp [Slice.ToAst]),
    declared_types_of_emitted.2.1⟩

/-- C15 as stated fails: the `_item` function of the slice of the named struct
type `pkg.T` declares the result type `pkg.T`, which is neither `uintptr` nor a
primitive scalar; `cgo_incref` declares a parameter of type `unsafe.Pointer`;
and the wrapper of `mixedFunc` declares the parameter type `*int`. -/
theorem declared_types_counterexample :
    namedSlice.ItemAst ∈ namedSlice.ToAst ∧
    Expr.Ident "pkg.T" ∈ namedSlice.ItemAst.declaredTypes ∧
    ¬ isBoundaryType (.Ident "pkg.T") ∧
    unsafePointer ∈ IncrementRef.declaredTypes ∧ ¬ isBoundaryType unsafePointer ∧
    (∃ d, FuncAst mixedFunc = some d ∧ Expr.Ident "*int" ∈ d.declaredTypes) ∧
    ¬ isBoundaryType (.Ident "*int") := by
  refine ⟨by simp [Slice.ToAst], ?_, ?_, ?_, ?_, ?_, ?_⟩
  · simp [FuncDecl.declaredTypes, Slice.ItemAst, namedSlice, InstanceMethodParams, NewIdent,
      typeString]
  · rintro (h | ⟨n, hn, h⟩)
    · simp [uintptr, NewIdent] at h
    · simp only [Expr.Ident.injEq] at h
      subst h
      revert hn
      decide
  · simp [FuncDecl.declaredTypes, IncrementRef, unsafePointer]
  · rintro (h | ⟨n, hn, h⟩)
    · simp [uintptr, NewIdent, unsafePointer] at h
    · simp [unsafePointer] at h
  · exact ⟨_, rfl, List.mem_cons_self _ _⟩
  · rintro (h | ⟨n, hn, h⟩)
    · simp [uintptr, NewIdent] at h
    · simp only [Expr.Ident.injEq] at h
      subst h
      revert hn
      decide

/-- C16: for every element type `Slice.ToAst` returns exactly six
declarations, the constructor, stringifier, getter, setter, appender and
destructor in this order, named `CGoName()` followed by `_new`, `_str`,
`_item`, `_item_set`, `_item_append` and `_destroy`; the six names are pairwise
distinct and every declaration carries the single doc comment `//export `
followed by its own name. -/
theorem Slice_ToAst_six (s : Slice) :
    s.ToAst = [s.NewAst, s.StringAst, s.ItemAst, s.ItemSetAst, s.ItemAppendAst,
      s.DestroyAst] ∧
    s.ToAst.length = 6 ∧
    s.ToAst.map (fun d => d.Name) =
      [s.CGoName ++ "_new", s.CGoName ++ "_str", s.CGoName ++ "_item",
        s.CGoName ++ "_item_set", s.CGoName ++ "_item_append", s.CGoName ++ "_destroy"] ∧
    (s.ToAst.map (fun d => d.Name)).Nodup ∧
    (∀ d ∈ s.ToAst, d.Doc = ["//export " ++ d.Name]) := by
  refine ⟨rfl, rfl, rfl, ?_, ?_⟩
  · rw [Slice_ToAst_names]
    simp only [List.nodup_cons, List.mem_cons, List.mem_singleton, List.not_mem_nil,
      not_or, not_false_eq_true, List.nodup_nil, and_true]
    refine ⟨⟨?_, ?_, ?_, ?_, ?_⟩, ⟨?_, ?_, ?_, ?_⟩, ⟨?_, ?_, ?_⟩, ⟨?_, ?_⟩, ?_⟩ <;>
      exact suffixed_ne (by decide)
  · intro d hd
    simp only [Slice.ToAst, List.mem_cons, List.mem_singleton, List.not_mem_nil,
      or_false] at hd
    rcases hd with rfl | rfl | rfl | rfl | rfl | rfl <;> rfl

theorem SliceWrapper_ToCgoAst_names (H : GolangHelpers) (s : SliceWrapper) :
    (s.ToCgoAst H).map (fun d => d.Name) =
      [s.CGoName ++ "_new", s.CGoName ++ "_str", s.CGoName ++ "_item",
        s.CGoName ++ "_item_set"] :=
  rfl

/-- C17 (amended): for every element type and whatever the outside helpers,
the bundle of `SliceWrapper.ToCgoAst` has four functions, named like the first
four of the six functions of `Slice.ToAst` (the same `CGoName` followed by
`_new`, `_str`, `_item`, `_item_set`); it has no function named like
`_item_append` or `_destroy`.  The constructor returns the slice type itself
in the one bundle and `uintptr` in the other; the stringifier takes `self` as
the slice type in the one and as `unsafe.Pointer` in the other. -/
theorem bundles_compared (H : GolangHelpers) (e : GoType) :
    (SliceWrapper.mk e).CGoName = (Slice.mk e).CGoName ∧
    ((SliceWrapper.mk e).ToCgoAst H).length = 4 ∧ (Slice.mk e).ToAst.length = 6 ∧
    ((SliceWrapper.mk e).ToCgoAst H).map (fun d => d.Name) =
      ((Slice.mk e).ToAst.map (fun d => d.Name)).take 4 ∧
    (Slice.mk e).ToAst.map (fun d => d.Name) =
      ((SliceWrapper.mk e).ToCgoAst H).map (fun d => d.Name) ++
        [(Slice.mk e).CGoName ++ "_item_append", (Slice.mk e).CGoName ++ "_destroy"] ∧
    (Slice.mk e).CGoName ++ "_item_append" ∉
      ((SliceWrapper.mk e).ToCgoAst H).map (fun d => d.Name) ∧
    (Slice.mk e).CGoName ++ "_destroy" ∉
      ((SliceWrapper.mk e).ToCgoAst H).map (fun d => d.Name) ∧
    (((SliceWrapper.mk e).ToCgoAst H)[0]?.map (fun d => d.Type_.Results) =
        some (some [⟨[], .Ident ("[]" ++ typeString e)⟩]) ∧
      (Slice.mk e).ToAst[0]?.map (fun d => d.Type_.Results) = some (some [⟨[], uintptr⟩])) ∧
    (((SliceWrapper.mk e).ToCgoAst H)[1]?.map (fun d => d.Type_.Params) =
        some (some [⟨["self"], .Ident ("[]" ++ typeString e)⟩]) ∧
      (Slice.mk e).ToAst[1]?.map (fun d => d.Type_.Params) =
        some (some [⟨["self"], unsafePointer⟩])) := by
  refine ⟨rfl, rfl, rfl, rfl, rfl, ?_, ?_, ⟨rfl, rfl⟩, ⟨rfl, rfl⟩⟩
  · rw [SliceWrapper_ToCgoAst_names]
    simp only [List.mem_cons, List.mem_singleton, List.not_mem_nil, or_false, not_or]
    refine ⟨?_, ?_, ?_, ?_⟩ <;> exact suffixed_ne (by decide)
  · rw [SliceWrapper_ToCgoAst_names]
    simp only [List.mem_cons, List.mem_singleton, List.not_mem_nil, or_false, not_or]
    refine ⟨?_, ?_, ?_, ?_⟩ <;> exact suffixed_ne (by decide)

/-- C17 as stated fails: for the element type `int` the bundle of
`SliceWrapper.ToCgoAst` has four functions and that of `Slice.ToAst` six; the
names `slice_of_int_item_append` and `slice_of_int_destroy` occur in the second
bundle only. -/
theorem bundles_differ_counterexample :
    ((SliceWrapper.mk (.Basic "int")).ToCgoAst sampleHelpers).map (fun d => d.Name) =
      ["slice_of_int_new", "slice_of_int_str", "slice_of_int_item",
        "slice_of_int_item_set"] ∧
    (Slice.mk (.Basic "int")).ToAst.map (fun d => d.Name) =
      ["slice_of_int_new", "slice_of_int_str", "slice_of_int_item",
        "slice_of_int_item_set", "slice_of_int_item_append", "slice_of_int_destroy"] ∧
    "slice_of_int_destroy" ∉
      ((SliceWrapper.mk (.Basic "int")).ToCgoAst sampleHelpers).map (fun d => d.Name) ∧
    "slice_of_int_item_append" ∉
      ((SliceWrapper.mk (.Basic "int")).ToCgoAst sampleHelpers).map (fun d => d.Name) := by
  refine ⟨by decide, by decide, ?_, ?_⟩
  · have h : ((SliceWrapper.mk (.Basic "int")).ToCgoAst sampleHelpers).map (fun d => d.Name) =
      ["slice_of_int_new", "slice_of_int_str", "slice_of_int_item",
        "slice_of_int_item_set"] := by decide
    rw [h]
    decide
  · have h : ((SliceWrapper.mk (.Basic "int")).ToCgoAst sampleHelpers).map (fun d => d.Name) =
      ["slice_of_int_new", "slice_of_int_str", "slice_of_int_item",
        "slice_of_int_item_set"] := by decide
    rw [h]
    decide

/-! ## Running the emitted slice functions and a wrapper's result handling -/

theorem run_reachable : ∀ (ops : List Op) {r r1 : Refs}, Reachable r → run r ops = .ok r1 →
    Reachable r1
  | [], r, r1, hr, h => by
    simp only [run] at h
    injection h with h
    subst h
    exact hr
  | op :: ops, r, r1, hr, h => by
    cases hs : step r op with
    | panic msg r2 =>
      simp only [run, hs] at h
      cases h
    | ok r2 =>
      simp only [run, hs] at h
      cases op with
      | incref p => exact run_reachable ops (Reachable.incref p hr hs) h
      | decref p => exact run_reachable ops (Reachable.decref p hr hs) h

theorem run_incref_mono : ∀ (ts : List Ptr) {r r1 : Refs} {q : Ptr} {k : Int},
    run r (ts.map Op.incref) = .ok r1 → r.refs q = some k → r1.refs q = some k
  | [], r, r1, q, k, h, hq => by
    simp only [List.map_nil, run] at h
    injection h with h
    subst h
    exact hq
  | t :: ts, r, r1, q, k, h, hq => by
    cases hs : cgo_incref r t with
    | panic msg r2 =>
      simp only [List.map_cons, run, step, hs] at h
      cases h
    | ok r2 =>
      simp only [List.map_cons, run, step, hs] at h
      exact run_incref_mono ts h (incref_refs_mono hs hq)

theorem run_incref_tracked : ∀ (ts : List Ptr) {r r1 : Refs} {a : Ptr},
    run r (ts.map Op.incref) = .ok r1 → a ∈ ts → ∃ k, r1.refs a = some k
  | [], r, r1, a, h, ha => by simp at ha
  | t :: ts, r, r1, a, h, ha => by
    cases hs : cgo_incref r t with
    | panic msg r2 =>
      simp only [List.map_cons, run, step, hs] at h
      cases h
    | ok r2 =>
      simp only [List.map_cons, run, step, hs] at h
      rcases List.mem_cons.1 ha with e | hm
      · subst e
        obtain ⟨k, hk⟩ := incref_ok_tracked hs
        exact ⟨k, run_incref_mono ts h hk⟩
      · exact run_incref_tracked ts h hm

theorem live_handle_negative {r : Refs} (hr : Reachable r) {p : Ptr} {h : Int}
    (hp : r.refs p = some h) : h < 0 := by
  have := (inv_of_reachable hr).fwd p h hp
  omega

theorem ptrs_at_address_none {r : Refs} (hr : Reachable r) (a : Ptr) :
    r.ptrs (a : Int) = none := by
  cases hq : r.ptrs (a : Int) with
  | none => rfl
  | some o =>
    have hi := inv_of_reachable hr
    have := (hi.fwd _ _ (hi.bwd _ _ hq)).2.1
    omega

/-- C19 (amended): for every element type the emitted constructor declares an
empty `[]T` variable `o`, registers its address with exactly one acquire call
`cgo_incref(unsafe.Pointer(&o))`, and returns `uintptr(unsafe.Pointer(&o))`:
the value the caller receives is the address of `o` itself.  Run on any state,
it returns normally exactly when that acquire does, with `o` holding the empty
sequence; on a reachable registry the address is then tracked under a negative
handle, which differs from the returned value. -/
theorem constructor_returns_address (α : Type) (s : Slice) :
    s.NewAst.Body = [DeclareVar "o" (.ArrayType (.Ident (typeString s.elem))),
      IncrementRefCall (.UnaryExpr .AND (.Ident "o")),
      Return [some (UintPtr (UnsafePointerToTarget [.UnaryExpr .AND (.Ident "o")]))]] ∧
    s.NewAst.Type_.Results = some [⟨[], uintptr⟩] ∧
    (∀ (m : Machine α) (o : Ptr) (r1 : Refs), cgo_incref m.reg o = .ok r1 →
      slice_new m o = .ok ⟨r1, Function.update m.mem o (some [])⟩ o) ∧
    (∀ (m m1 : Machine α) (o : Ptr) (v : Nat), slice_new m o = .ok m1 v →
      v = o ∧ m1.mem o = some [] ∧ cgo_incref m.reg o = .ok m1.reg ∧
      (Reachable m.reg → ∃ h, m1.reg.refs o = some h ∧ h < 0 ∧ (v : Int) ≠ h ∧
        m1.reg.ptrs (v : Int) = none)) := by
  refine ⟨rfl, rfl, ?_, ?_⟩
  · intro m o r1 h
    simp only [slice_new, h]
  · intro m m1 o v h
    cases hs : cgo_incref m.reg o with
    | panic msg r2 =>
      simp only [slice_new, hs] at h
      cases h
    | ok r2 =>
      simp only [slice_new, hs, Run.ok.injEq] at h
      obtain ⟨h1, h2⟩ := h
      subst h1 h2
      refine ⟨rfl, by simp, rfl, ?_⟩
      intro hr
      have hr2 := Reachable.incref o hr hs
      obtain ⟨k, hk⟩ := incref_ok_tracked hs
      have hneg := live_handle_negative hr2 hk
      exact ⟨k, hk, hneg, by omega, ptrs_at_address_none hr2 o⟩

/-- Witness of C19 (amended): the constructor run at address `4096` on a fresh
registry. -/
theorem constructor_returns_address_witness :
    cgo_incref (init (emptyAt 0)) 4096 = .ok (single 4096 1) ∧
    slice_new (⟨init (emptyAt 0), fun _ => none⟩ : Machine Nat) 4096 =
      .ok ⟨single 4096 1, Function.update (fun _ => none) 4096 (some [])⟩ 4096 :=
  ⟨rfl, (constructor_returns_address Nat ⟨.Basic "int"⟩).2.2.1
    ⟨init (emptyAt 0), fun _ => none⟩ 4096 (single 4096 1) rfl⟩

/-- C19 as stated fails: run at address `4096` on a fresh registry, the
constructor returns `4096`, the address itself, while the handle the acquire
associated with that address is `-1`. -/
theorem constructor_handle_counterexample :
    slice_new (⟨init (emptyAt 0), fun _ => none⟩ : Machine Nat) 4096 =
      .ok ⟨single 4096 1, Function.update (fun _ => none) 4096 (some [])⟩ 4096 ∧
    (single 4096 1).refs 4096 = some (-1) ∧
    (single 4096 1).ptrs (-1) = some ⟨4096, 1⟩ ∧
    ((4096 : Nat) : Int) ≠ -1 :=
  ⟨rfl, by decide, by decide, by decide⟩

/-! ## Runs of the emitted slice functions and wrappers -/

theorem isGoIdent_affixed {p t q : String}
    (hp : isGoIdent p = true) (hq : q.data.all (fun d => d.isAlphanum || d == '_') = true)
    (ht : isGoIdent t = true) : isGoIdent (p ++ t ++ q) = true := by
  unfold isGoIdent at hp ht ⊢
  simp only [String.data_append]
  cases hpd : p.data with
  | nil => simp [hpd] at hp
  | cons c cs =>
    cases htd : t.data with
    | nil => simp [htd] at ht
    | cons e es =>
      simp only [hpd, htd, List.cons_append, Bool.and_eq_true, List.all_append, List.all_cons,
        Bool.or_eq_true] at hp ht ⊢
      have he : e.isAlphanum = true ∨ (e == '_') = true := by
        rcases ht.1 with h | h
        · left
          simp only [Char.isAlphanum, Bool.or_eq_true]
          exact Or.inl h
        · exact Or.inr h
      exact ⟨hp.1, ⟨hp.2, he, ht.2⟩, hq⟩

theorem isGoIdent_slice_name (s : Slice) (q : String)
    (hq : q.data.all (fun d => d.isAlphanum || d == '_') = true)
    (ht : isGoIdent (typeString s.elem) = true) :
    isGoIdent (s.CGoName ++ q) = true :=
  isGoIdent_affixed (by decide) hq ht

/-- The run of the emitted constructor body is the run `slice_new` describes. -/
theorem constructor_run_eq {α : Type} (s : Slice) (hid : isGoIdent (typeString s.elem) = true)
    (m : Machine α) (o : Ptr) :
    callDecl s.NewAst [o] m [] =
      match slice_new m o with
      | .ok m1 v => .ok m1 [.num v]
      | .panic msg m1 => .panic msg m1 := by
  have n1 : isGoIdent (s.CGoName ++ "_new") = true := isGoIdent_slice_name s _ (by decide) hid
  cases hs : cgo_incref m.reg o with
  | ok r =>
    simp [callDecl, Slice.NewAst, NewAst, n1, execStmts, DeclareVar, IncrementRefCall,
      UnsafePointerToTarget, unsafePointer, NewIdent, INCREMENT_REF_FUNC_NAME, evalExpr,
      List.lookup, hs, Return, evalReturn, UintPtr, slice_new]
  | panic msg r =>
    simp [callDecl, Slice.NewAst, NewAst, n1, execStmts, DeclareVar, IncrementRefCall,
      UnsafePointerToTarget, unsafePointer, NewIdent, INCREMENT_REF_FUNC_NAME, evalExpr,
      List.lookup, hs, slice_new]

/-- C18 as stated fails for an element type whose rendering is not an
identifier: for the slice of the named type `pkg.T` the six names `Slice.ToAst`
declares contain a `.`, none is a Go identifier, and the constructor has no
run. -/
theorem slice_named_element_counterexample :
    namedSlice.ToAst.map (fun d => d.Name) =
      ["slice_of_pkg.T_new", "slice_of_pkg.T_str", "slice_of_pkg.T_item",
        "slice_of_pkg.T_item_set", "slice_of_pkg.T_item_append", "slice_of_pkg.T_destroy"] ∧
    namedSlice.ToAst.map (fun d => isGoIdent d.Name) =
      [false, false, false, false, false, false] ∧
    callDecl namedSlice.NewAst [4096] (⟨init (emptyAt 0), fun _ => none⟩ : Machine Nat) [] =
      .undefined ∧
    ∀ (fresh : List Ptr) (m : Machine Nat) (args : List (Val Nat)),
      callDecl namedSlice.NewAst fresh m args = .undefined := by
  refine ⟨rfl, by decide, rfl, ?_⟩
  intro fresh m args
  have h : isGoIdent namedSlice.NewAst.Name = false := by decide
  simp [callDecl, h]

/-- C18 (amended): for every element type whose rendering is an identifier,
every address `h` other than `nil` given to the new slice variable and all
element values `x`, `y`, the six functions of `Slice.ToAst` run as follows on a
freshly initialised registry, whatever the memory: `new` returns `h`;
`item_append(h, x)` returns; `item(h, 0)` gives `x`; `item_set(h, 0, y)`
returns; `item(h, 0)` gives `y`; `destroy(h)` returns and leaves no entry for
`h` in `refs` nor in `ptrs`.  The same holds on every reachable registry in
which `h` is not tracked and the generator is not exhausted. -/
theorem slice_round_trip {α : Type} (s : Slice) (hid : isGoIdent (typeString s.elem) = true)
    (h : Ptr) (hh : h ≠ 0) (x y : α) :
    s.ToAst = [s.NewAst, s.StringAst, s.ItemAst, s.ItemSetAst, s.ItemAppendAst, s.DestroyAst] ∧
    (∀ (r0 : Refs) (mem : Ptr → Option (List α)),
      ∃ m1 m2 m3 m4 : Machine α,
        callDecl s.NewAst [h] ⟨init r0, mem⟩ [] = .ok m1 [.num h] ∧
        callDecl s.ItemAppendAst [] m1 [.ptr h, .elem x] = .ok m2 [] ∧
        callDecl s.ItemAst [] m2 [.ptr h, .num 0] = .ok m2 [.elem x] ∧
        callDecl s.ItemSetAst [] m2 [.ptr h, .num 0, .elem y] = .ok m3 [] ∧
        callDecl s.ItemAst [] m3 [.ptr h, .num 0] = .ok m3 [.elem y] ∧
        callDecl s.DestroyAst [] m3 [.ptr h] = .ok m4 [] ∧
        m4.reg.refs h = none ∧ (∀ k o, m4.reg.ptrs k = some o → o.ptr ≠ h)) ∧
    (∀ m : Machine α, Reachable m.reg → m.reg.refs h = none →
      m.reg.next ≠ -2147483648 →
      ∃ m1 m2 m3 m4 : Machine α,
        callDecl s.NewAst [h] m [] = .ok m1 [.num h] ∧
        callDecl s.ItemAppendAst [] m1 [.ptr h, .elem x] = .ok m2 [] ∧
        callDecl s.ItemAst [] m2 [.ptr h, .num 0] = .ok m2 [.elem x] ∧
        callDecl s.ItemSetAst [] m2 [.ptr h, .num 0, .elem y] = .ok m3 [] ∧
        callDecl s.ItemAst [] m3 [.ptr h, .num 0] = .ok m3 [.elem y] ∧
        callDecl s.DestroyAst [] m3 [.ptr h] = .ok m4 [] ∧
        m4.reg.refs h = none ∧ (∀ k o, m4.reg.ptrs k = some o → o.ptr ≠ h)) := by
  have key : ∀ m : Machine α, Reachable m.reg → m.reg.refs h = none →
      m.reg.next ≠ -2147483648 →
      ∃ m1 m2 m3 m4 : Machine α,
        callDecl s.NewAst [h] m [] = .ok m1 [.num h] ∧
        callDecl s.ItemAppendAst [] m1 [.ptr h, .elem x] = .ok m2 [] ∧
        callDecl s.ItemAst [] m2 [.ptr h, .num 0] = .ok m2 [.elem x] ∧
        callDecl s.ItemSetAst [] m2 [.ptr h, .num 0, .elem y] = .ok m3 [] ∧
        callDecl s.ItemAst [] m3 [.ptr h, .num 0] = .ok m3 [.elem y] ∧
        callDecl s.DestroyAst [] m3 [.ptr h] = .ok m4 [] ∧
        m4.reg.refs h = none ∧ (∀ k o, m4.reg.ptrs k = some o → o.ptr ≠ h) := by
    intro m hr hfresh hn
    have hi := inv_of_reachable hr
    have hlo := hi.next_lo
    have hhi := hi.next_hi
    have hnp : ¬ wrap32 (m.reg.next - 1) > 0 := by
      unfold wrap32
      omega
    obtain ⟨r1, s1, a1, b1⟩ : ∃ r1, cgo_incref m.reg h = .ok r1 ∧
        r1.refs h = some m.reg.next ∧ r1.ptrs m.reg.next = some ⟨h, 1⟩ :=
      ⟨_, incref_fresh_ok hfresh hnp, by simp, by simp⟩
    have hr1 := Reachable.incref h hr s1
    obtain ⟨r4, s4, _, f4, p4⟩ := decref_drop_effect a1 b1 (by decide)
    have hr4 := Reachable.decref h hr1 s4
    have hnone : r4.refs h = none := by rw [f4]; simp
    have n1 : isGoIdent (s.CGoName ++ "_new") = true := isGoIdent_slice_name s _ (by decide) hid
    have n2 : isGoIdent (s.CGoName ++ "_item_append") = true :=
      isGoIdent_slice_name s _ (by decide) hid
    have n3 : isGoIdent (s.CGoName ++ "_item") = true := isGoIdent_slice_name s _ (by decide) hid
    have n4 : isGoIdent (s.CGoName ++ "_item_set") = true :=
      isGoIdent_slice_name s _ (by decide) hid
    have n5 : isGoIdent (s.CGoName ++ "_destroy") = true :=
      isGoIdent_slice_name s _ (by decide) hid
    refine ⟨⟨r1, Function.update m.mem h (some [])⟩,
      ⟨r1, Function.update (Function.update m.mem h (some [])) h (some ([] ++ [x]))⟩,
      ⟨r1, Function.update (Function.update (Function.update m.mem h (some [])) h
        (some ([] ++ [x]))) h (some (([] ++ [x]).set (Int.toNat 0) y))⟩,
      ⟨r4, Function.update (Function.update (Function.update m.mem h (some [])) h
        (some ([] ++ [x]))) h (some (([] ++ [x]).set (Int.toNat 0) y))⟩,
      ?_, ?_, ?_, ?_, ?_, ?_, hnone, ?_⟩
    · simp [callDecl, Slice.NewAst, NewAst, n1, execStmts, DeclareVar, IncrementRefCall,
        UnsafePointerToTarget, unsafePointer, NewIdent, INCREMENT_REF_FUNC_NAME, evalExpr,
        List.lookup, s1, Return, evalReturn, UintPtr]
    · simp [callDecl, Slice.ItemAppendAst, n2, execStmts, InstanceMethodParams, NewIdent,
        CastUnsafePtr, DeRef, evalExpr, List.lookup, loadSlice, hh]
    · simp [callDecl, Slice.ItemAst, n3, execStmts, InstanceMethodParams, NewIdent,
        CastUnsafePtr, DeRef, evalExpr, List.lookup, loadSlice, hh, itemsAt, Return, evalReturn,
        boundsCheck]
    · simp [callDecl, Slice.ItemSetAst, n4, execStmts, InstanceMethodParams, NewIdent,
        CastUnsafePtr, DeRef, evalExpr, List.lookup, loadSlice, hh, itemsAt, boundsCheck]
    · simp [callDecl, Slice.ItemAst, n3, execStmts, InstanceMethodParams, NewIdent,
        CastUnsafePtr, DeRef, evalExpr, List.lookup, loadSlice, hh, itemsAt, Return, evalReturn,
        boundsCheck]
    · simp [callDecl, Slice.DestroyAst, DestroyAst, n5, execStmts, InstanceMethodParams, NewIdent,
        DecrementRefCall, DECREMENT_REF_FUNC_NAME, evalExpr, List.lookup, s4]
    · intro k o ho e
      have hb := (inv_of_reachable hr4).bwd k o ho
      rw [e, hnone] at hb
      cases hb
  exact ⟨rfl,
    fun r0 mem => key ⟨init r0, mem⟩ (Reachable.init r0) rfl
      (by show (-1 : Int) ≠ -2147483648; decide),
    key⟩

/-- Witness of C18 (amended): the slice of `int` created at address `4096`
while initialising an empty registry, with the values `5` and `6`. -/
theorem slice_round_trip_witness :
    isGoIdent (typeString intSlice.elem) = true ∧
    ∃ m1 m2 m3 m4 : Machine Nat,
      callDecl intSlice.NewAst [4096] ⟨init (emptyAt 0), fun _ => none⟩ [] =
        .ok m1 [.num ((4096 : Nat) : Int)] ∧
      callDecl intSlice.ItemAppendAst [] m1 [.ptr 4096, .elem 5] = .ok m2 [] ∧
      callDecl intSlice.ItemAst [] m2 [.ptr 4096, .num 0] = .ok m2 [.elem 5] ∧
      callDecl intSlice.ItemSetAst [] m2 [.ptr 4096, .num 0, .elem 6] = .ok m3 [] ∧
      callDecl intSlice.ItemAst [] m3 [.ptr 4096, .num 0] = .ok m3 [.elem 6] ∧
      callDecl intSlice.DestroyAst [] m3 [.ptr 4096] = .ok m4 [] ∧
      m4.reg.refs 4096 = none ∧ (∀ k o, m4.reg.ptrs k = some o → o.ptr ≠ 4096) :=
  ⟨by decide,
    (slice_round_trip intSlice (by decide) 4096 (by decide) 5 6).2.1 (emptyAt 0)
      (fun _ => none)⟩

theorem resultName_string_injective {a b : Nat} (h : "r" ++ toString a = "r" ++ toString b) :
    a = b :=
  resultName_injective (congrArg Expr.Ident h)

theorem bindNames_resultEnv {α : Type} : ∀ (xs : List (Local α)) (k : Nat),
    bindNames ((List.range' k xs.length).map resultName) xs = some (resultEnv k xs)
  | [], k => rfl
  | x :: xs, k => by
    simp only [List.length_cons, List.range'_succ, List.map_cons, resultName, NewIdent,
      bindNames, resultEnv, List.enumFrom_cons]
    have ih := bindNames_resultEnv xs (k + 1)
    simp only [resultName, NewIdent, resultEnv] at ih
    rw [ih]
    rfl

theorem lookup_resultEnv {α : Type} : ∀ (xs : List (Local α)) (k j : Nat),
    (resultEnv k xs).lookup ("r" ++ toString (k + j)) = xs[j]?
  | [], k, j => by simp [resultEnv]
  | x :: xs, k, j => by
    cases j with
    | zero =>
      simp [resultEnv, List.enumFrom_cons, List.lookup]
    | succ j =>
      have hne : ("r" ++ toString (k + (j + 1)) == "r" ++ toString k) = false := by
        rw [beq_eq_false_iff_ne]
        intro h
        have e : k + (j + 1) = k := resultName_string_injective h
        omega
      have ih := lookup_resultEnv xs (k + 1) j
      have e3 : k + (j + 1) = k + 1 + j := by omega
      simp only [resultEnv, List.enumFrom_cons, List.map_cons, List.lookup, hne,
        List.getElem?_cons_succ] at ih ⊢
      rw [← ih, e3]

theorem acquiredAddrs_cons {α : Type} (v : Var) (rs : List Var) (x : Local α)
    (xs : List (Local α)) :
    acquiredAddrs (v :: rs) (x :: xs) = (resultAddr v.Type_ x).toList ++ acquiredAddrs rs xs := by
  simp [acquiredAddrs]

theorem exec_acquire_ident {α : Type} (m : Machine α) (env : List (String × Local α))
    (rest : List Stmt) (x : String) (l : Local α) (a : Ptr)
    (h : env.lookup x = some l) (hv : l.val = some (.ptr a)) :
    execStmts [] m env (IncrementRefCall (.Ident x) :: rest) =
      match cgo_incref m.reg a with
      | .ok r => execStmts [] ⟨r, m.mem⟩ env rest
      | .panic msg r => .panic msg ⟨r, m.mem⟩ := by
  obtain ⟨lv, ll⟩ := l
  simp only at hv
  subst hv
  simp only [IncrementRefCall, INCREMENT_REF_FUNC_NAME, NewIdent, UnsafePointerToTarget,
    unsafePointer, execStmts, evalExpr, h]
  try rfl

theorem exec_acquire_ref {α : Type} (m : Machine α) (env : List (String × Local α))
    (rest : List Stmt) (x : String) (l : Local α) (a : Ptr)
    (h : env.lookup x = some l) (hl : l.loc = some a) :
    execStmts [] m env (IncrementRefCall (Ref (.Ident x)) :: rest) =
      match cgo_incref m.reg a with
      | .ok r => execStmts [] ⟨r, m.mem⟩ env rest
      | .panic msg r => .panic msg ⟨r, m.mem⟩ := by
  obtain ⟨lv, ll⟩ := l
  simp only at hl
  subst hl
  simp only [IncrementRefCall, INCREMENT_REF_FUNC_NAME, NewIdent, UnsafePointerToTarget,
    unsafePointer, execStmts, evalExpr, h, Ref]
  try rfl

theorem exec_acquireStmts {α : Type} (env : List (String × Local α)) (rest : List Stmt) :
    ∀ (rs : List Var) (xs : List (Local α)) (k : Nat) (m : Machine α),
      rs.length = xs.length →
      (∀ (j : Nat) (x : Local α), xs[j]? = some x → env.lookup ("r" ++ toString (k + j)) = some x) →
      (∀ (j : Nat) (w : Var) (x : Local α), rs[j]? = some w → xs[j]? = some x →
        localFits w.Type_ x = true) →
      execStmts [] m env ((rs.enumFrom k).flatMap (fun ir => resultStmts ir.1 ir.2.Type_) ++ rest) =
        match run m.reg ((acquiredAddrs rs xs).map Op.incref) with
        | .ok r => execStmts [] ⟨r, m.mem⟩ env rest
        | .panic msg r => .panic msg ⟨r, m.mem⟩
  | [], xs, k, m, hlen, hlook, hfit => by
    simp [acquiredAddrs, run]
  | v :: rs, [], k, m, hlen, hlook, hfit => by simp at hlen
  | v :: rs, x :: xs, k, m, hlen, hlook, hfit => by
    have hlen' : rs.length = xs.length := by simpa using hlen
    have hlook' : ∀ (j : Nat) (y : Local α), xs[j]? = some y →
        env.lookup ("r" ++ toString (k + 1 + j)) = some y := by
      intro j y hy
      have := hlook (j + 1) y (by simpa using hy)
      rw [← this]
      congr 3
      omega
    have hfit' : ∀ (j : Nat) (w : Var) (y : Local α), rs[j]? = some w → xs[j]? = some y →
        localFits w.Type_ y = true := by
      intro j w y hw hy
      exact hfit (j + 1) w y (by simpa using hw) (by simpa using hy)
    have h0 : env.lookup ("r" ++ toString k) = some x := by
      have := hlook 0 x (by simp)
      simpa using this
    have hf0 : localFits v.Type_ x = true := hfit 0 v x (by simp) (by simp)
    have ih := fun m' => exec_acquireStmts env rest rs xs (k + 1) m' hlen' hlook' hfit'
    rw [List.enumFrom_cons, List.flatMap_cons, List.append_assoc, acquiredAddrs_cons]
    cases ht : v.Type_ with
    | Pointer e =>
      obtain ⟨xv, xl⟩ := x
      have hxv : ∃ a, xv = some (.ptr a) := by
        rw [ht] at hf0
        cases xv with
        | none => simp [localFits] at hf0
        | some w => cases w <;> first | exact ⟨_, rfl⟩ | simp [localFits] at hf0
      obtain ⟨a, rfl⟩ := hxv
      have e1 : resultStmts k (GoType.Pointer e) =
          [IncrementRefCall (.Ident ("r" ++ toString k))] := rfl
      have e2 : resultAddr (GoType.Pointer e) (⟨some (.ptr a), xl⟩ : Local α) = some a := rfl
      simp only [ht] at *
      rw [e1, e2, List.singleton_append, exec_acquire_ident m env _ _ _ a h0 rfl]
      simp only [Option.toList, List.singleton_append, List.map_cons, run, step]
      cases hs : cgo_incref m.reg a with
      | ok r =>
        simp only []
        rw [ih]
        rfl
      | panic msg r => rfl
    | Named p n ms u =>
      obtain ⟨xv, xl⟩ := x
      cases xl with
      | some a =>
        have e1 : resultStmts k (GoType.Named p n ms u) =
            [IncrementRefCall (Ref (.Ident ("r" ++ toString k)))] := rfl
        have e2 : resultAddr (GoType.Named p n ms u) (⟨xv, some a⟩ : Local α) = some a := by
          rcases xv with _ | w
          · rfl
          · cases w <;> rfl
        simp only [ht] at *
        rw [e1, e2, List.singleton_append, exec_acquire_ref m env _ _ _ a h0 rfl]
        simp only [Option.toList, List.singleton_append, List.map_cons, run, step]
        cases hs : cgo_incref m.reg a with
        | ok r =>
          simp only []
          rw [ih]
          rfl
        | panic msg r => rfl
      | none => simp [ht, localFits] at hf0
    | _ =>
      have e1 : resultStmts k v.Type_ = [] := by rw [ht]; rfl
      have e2 : resultAddr v.Type_ x = none := by rw [ht]; rfl
      simp only [ht] at e1 e2
      simp only [e1, e2, Option.toList, List.nil_append]
      rw [ih]


theorem exec_returnExprs {α : Type} (env : List (String × Local α)) (m : Machine α) :
    ∀ (rs : List Var) (xs : List (Local α)) (k : Nat),
      rs.length = xs.length →
      (∀ (j : Nat) (x : Local α), xs[j]? = some x → env.lookup ("r" ++ toString (k + j)) = some x) →
      (∀ (j : Nat) (w : Var) (x : Local α), rs[j]? = some w → xs[j]? = some x →
        localFits w.Type_ x = true) →
      (∀ w ∈ rs, hasResultCase w.Type_ = true) →
      evalReturn m env ((rs.enumFrom k).map (fun ir => resultExpr ir.1 ir.2.Type_)) =
        .ok m (returnedVals rs xs)
  | [], xs, k, hlen, hlook, hfit, hcase => by
    simp [returnedVals, evalReturn]
  | v :: rs, [], k, hlen, hlook, hfit, hcase => by simp at hlen
  | v :: rs, x :: xs, k, hlen, hlook, hfit, hcase => by
    have hlen' : rs.length = xs.length := by simpa using hlen
    have hlook' : ∀ (j : Nat) (y : Local α), xs[j]? = some y →
        env.lookup ("r" ++ toString (k + 1 + j)) = some y := by
      intro j y hy
      have := hlook (j + 1) y (by simpa using hy)
      rw [← this]
      congr 3
      omega
    have hfit' : ∀ (j : Nat) (w : Var) (y : Local α), rs[j]? = some w → xs[j]? = some y →
        localFits w.Type_ y = true := by
      intro j w y hw hy
      exact hfit (j + 1) w y (by simpa using hw) (by simpa using hy)
    have h0 : env.lookup ("r" ++ toString k) = some x := by
      have := hlook 0 x (by simp)
      simpa using this
    have hf0 : localFits v.Type_ x = true := hfit 0 v x (by simp) (by simp)
    have hc0 : hasResultCase v.Type_ = true := hcase v (by simp)
    have ih := exec_returnExprs env m rs xs (k + 1) hlen' hlook' hfit'
      (fun w hw => hcase w (by simp [hw]))
    have hhead : evalExpr m.mem env ((resultExpr k v.Type_).getD (.Ident "")) =
        .val (returnedVal v.Type_ x) ∧ (resultExpr k v.Type_).isSome = true := by
      obtain ⟨xv, xl⟩ := x
      cases ht : v.Type_ with
      | Basic n =>
        rcases xv with _ | w
        · simp [ht, localFits] at hf0
        · simp [resultExpr, resultName, NewIdent, evalExpr, h0, returnedVal, resultAddr]
      | Pointer e =>
        have hxv : ∃ a, xv = some (.ptr a) := by
          rw [ht] at hf0
          cases xv with
          | none => simp [localFits] at hf0
          | some w => cases w <;> first | exact ⟨_, rfl⟩ | simp [localFits] at hf0
        obtain ⟨a, rfl⟩ := hxv
        simp [resultExpr, resultName, NewIdent, evalExpr, h0, returnedVal, resultAddr, UintPtr,
          UnsafePointerToTarget, unsafePointer]
      | Named p n ms u =>
        cases xl with
        | some a =>
          simp [resultExpr, resultName, NewIdent, evalExpr, h0, returnedVal, resultAddr, UintPtr,
            UnsafePointerToTarget, unsafePointer, Ref]
        | none =>
          rw [ht] at hf0
          rcases xv with _ | w <;> simp [localFits] at hf0
      | _ => simp [ht, hasResultCase] at hc0
    obtain ⟨hev, hsome⟩ := hhead
    obtain ⟨e, he⟩ := Option.isSome_iff_exists.1 hsome
    rw [he] at hev
    simp only [Option.getD_some] at hev
    simp only [List.enumFrom_cons, List.map_cons, he, evalReturn, hev, ih, returnedVals,
      List.zip_cons_cons]

theorem returnTypeChecks_returnExprs : ∀ (rs : List Var) (k : Nat),
    (∀ w ∈ rs, resultTypeChecks w.Type_ = true) →
    ((Fields rs).zip ((rs.enumFrom k).map (fun ir => resultExpr ir.1 ir.2.Type_))).all
      (fun fe => returnsDeclared fe.1 fe.2) = true
  | [], k, h => by simp [Fields]
  | v :: rs, k, h => by
    have ih := returnTypeChecks_returnExprs rs (k + 1) (fun w hw => h w (by simp [hw]))
    have h0 := h v (by simp)
    simp only [Fields, List.map_cons, List.enumFrom_cons, List.zip_cons_cons, List.all_cons,
      Bool.and_eq_true] at ih ⊢
    refine ⟨?_, ih⟩
    cases ht : v.Type_ with
    | Basic n =>
      simp [UintPtrOrBasic, VarToField, ht, typeString, NewIdent, resultExpr, resultName,
        returnsDeclared]
    | Pointer e =>
      cases e <;> simp [ht, resultTypeChecks] at h0 <;>
        simp [UintPtrOrBasic, uintptr, NewIdent, resultExpr, UintPtr, returnsDeclared]
    | Named p n ms u =>
      simp [UintPtrOrBasic, uintptr, NewIdent, resultExpr, UintPtr, returnsDeclared]
    | _ => simp [ht, resultTypeChecks] at h0

theorem resultTypeChecks_hasCase {t : GoType} (h : resultTypeChecks t = true) :
    hasResultCase t = true := by
  cases t <;> simp_all [resultTypeChecks, hasResultCase]

theorem run_incref_panic_msg : ∀ (ts : List Ptr) {r r1 : Refs} {msg : String},
    run r (ts.map Op.incref) = .panic msg r1 → msg = "refs.next underflow"
  | [], r, r1, msg, h => by simp [run] at h
  | t :: ts, r, r1, msg, h => by
    cases hs : cgo_incref r t with
    | ok r2 =>
      simp only [List.map_cons, run, step, hs] at h
      exact run_incref_panic_msg ts h
    | panic msg2 r2 =>
      simp only [List.map_cons, run, step, hs, Outcome.panic.injEq] at h
      obtain ⟨h1, _⟩ := h
      subst h1
      cases hp : r.refs t with
      | some num =>
        rw [incref_tracked hp] at hs
        cases hs
      | none =>
        by_cases hw : wrap32 (r.next - 1) > 0
        · rw [incref_fresh_panic hp hw] at hs
          injection hs with h1 _
          exact h1.symm
        · rw [incref_fresh_ok hp hw] at hs
          cases hs

theorem callWrapper_of_body {α : Type} {d : FuncDecl} {lhs : List Expr}
    {rest : List Stmt} {last : Stmt} {env : List (String × Local α)}
    {xs : List (Local α)} (m : Machine α) (fn : Expr) (args : List Expr)
    (hname : isGoIdent d.Name = true)
    (hbody : d.Body = .AssignStmt lhs .DEFINE [.CallExpr fn args] :: rest)
    (hb : bindNames lhs xs = some env) (hl : rest.getLast? = some last)
    (hc : returnTypeChecks (d.Type_.Results.getD []) last = true) :
    callWrapper d m xs = execStmts [] m env rest := by
  simp only [callWrapper, hname, hbody, hb, hl, hc, if_true]

/-- The run of a wrapper whose results are as their types say: the acquire
calls of the results in order, then the return of the result values. -/
theorem callWrapper_eq {α : Type} (f : Func) (args : List Expr)
    (ha : ParamIdents f.Params = some args) (hname : isGoIdent f.CGoName = true)
    (ht : ∀ w ∈ f.Results, resultTypeChecks w.Type_ = true) (hpos : 0 < f.Results.length)
    (m : Machine α) (xs : List (Local α)) (hlen : f.Results.length = xs.length)
    (hfit : ∀ (j : Nat) (w : Var) (x : Local α), f.Results[j]? = some w → xs[j]? = some x →
      localFits w.Type_ x = true) :
    ∃ d, FuncAst f = some d ∧
      callWrapper d m xs =
        match run m.reg ((acquiredAddrs f.Results xs).map Op.incref) with
        | .ok r => .ok ⟨r, m.mem⟩ (returnedVals f.Results xs)
        | .panic msg r => .panic msg ⟨r, m.mem⟩ := by
  refine ⟨_, FuncAst_of_args ha, ?_⟩
  have hb := bindNames_resultEnv xs 0
  rw [← hlen, ← List.range_eq_range'] at hb
  have hlook : ∀ (j : Nat) (x : Local α), xs[j]? = some x →
      (resultEnv 0 xs).lookup ("r" ++ toString (0 + j)) = some x := by
    intro j x hx
    rw [lookup_resultEnv, hx]
  have hlast : (acquireStmts f.Results ++ [Return (returnExprs f.Results)]).getLast? =
      some (Return (returnExprs f.Results)) := by simp
  have hchk : returnTypeChecks (Fields f.Results) (Return (returnExprs f.Results)) = true := by
    simp only [Return, returnTypeChecks, Bool.and_eq_true, beq_iff_eq]
    exact ⟨by simp [returnExprs, Fields], returnTypeChecks_returnExprs f.Results 0 ht⟩
  rw [if_pos hpos]
  refine (callWrapper_of_body m f.AliasedGoName args ?_ ?_ hb hlast ?_).trans ?_
  · exact hname
  · simp only [List.singleton_append, List.append_assoc]
    rfl
  · exact hchk
  have hA := exec_acquireStmts (resultEnv 0 xs) [Return (returnExprs f.Results)] f.Results xs 0 m
    hlen hlook hfit
  simp only [acquireStmts, List.enum] at hA ⊢
  rw [hA]
  cases hrun : run m.reg ((acquiredAddrs f.Results xs).map Op.incref) with
  | panic msg r => rfl
  | ok r =>
    simp only [Return, execStmts]
    exact exec_returnExprs (resultEnv 0 xs) ⟨r, m.mem⟩ f.Results xs 0 hlen hlook hfit
      (fun w hw => resultTypeChecks_hasCase (ht w hw))


theorem mem_acquiredAddrs {α : Type} {rs : List Var} {xs : List (Local α)} {i : Nat} {v : Var}
    {x : Local α} {a : Ptr} (hv : rs[i]? = some v) (hx : xs[i]? = some x)
    (ha : resultAddr v.Type_ x = some a) : a ∈ acquiredAddrs rs xs := by
  simp only [acquiredAddrs, List.mem_flatMap]
  have hz : (rs.zip xs)[i]? = some (v, x) := List.getElem?_zip_eq_some.2 ⟨hv, hx⟩
  exact ⟨(v, x), List.getElem?_mem hz, by simp [ha]⟩

theorem returnedVals_getElem? {α : Type} {rs : List Var} {xs : List (Local α)} {i : Nat}
    {v : Var} {x : Local α} (hv : rs[i]? = some v) (hx : xs[i]? = some x) :
    (returnedVals rs xs)[i]? = some (returnedVal v.Type_ x) := by
  have hz : (rs.zip xs)[i]? = some (v, x) := List.getElem?_zip_eq_some.2 ⟨hv, hx⟩
  simp only [returnedVals, List.getElem?_map, hz]
  rfl

/-- C20 (amended): take an exported function whose wrapper name is an
identifier, whose argument casts do not panic and whose results are `Basic`,
`Named` or pointers to a type that is not `Basic` (so that the values returned
have the declared boundary types), and a result `i` of `Pointer` or `Named`
type standing for the address `a`: the address the pointer holds, or the
address of the wrapper's own variable `r_i`.  The wrapper `FuncAst` emits
contains `cgo_incref(unsafe.Pointer(r_i))` and returns
`uintptr(unsafe.Pointer(r_i))` for it (`&r_i` in both places for a `Named`
result).  Run on a reachable registry after the underlying call has left its
results in `r0, r1, ..`, the wrapper returns normally or panics with
`refs.next underflow`; when it returns, the value returned for result `i` is
`a` itself as a number, `refs` maps `a` to a negative handle `h` whose `ptrs`
entry has `ptr` equal to `a`, and `ptrs` has no entry under the returned
value. -/
theorem wrapper_returns_address {α : Type} (f : Func)
    (hname : isGoIdent f.CGoName = true)
    (hc : ∀ p ∈ f.Params, castPanics p.Type_ = false)
    (ht : ∀ w ∈ f.Results, resultTypeChecks w.Type_ = true)
    (m : Machine α) (hr : Reachable m.reg) (xs : List (Local α))
    (hlen : f.Results.length = xs.length)
    (hfit : ∀ (j : Nat) (w : Var) (y : Local α), f.Results[j]? = some w → xs[j]? = some y →
      localFits w.Type_ y = true)
    (i : Nat) (v : Var) (x : Local α) (hv : f.Results[i]? = some v) (hx : xs[i]? = some x)
    (a : Ptr)
    (ha : (∃ e, v.Type_ = .Pointer e ∧ x.val = some (.ptr a)) ∨
      (∃ p n ms u, v.Type_ = .Named p n ms u ∧ x.loc = some a)) :
    ∃ d, FuncAst f = some d ∧
      (∃ args mid rets,
        d.Body = Stmt.AssignStmt ((List.range f.Results.length).map
            (fun j => Expr.Ident ("r" ++ toString j)))
            .DEFINE
          [.CallExpr f.AliasedGoName args] :: mid ++ [Stmt.ReturnStmt rets] ∧
        ((∃ e, v.Type_ = .Pointer e) →
          Stmt.ExprStmt (.CallExpr (.Ident "cgo_incref")
              [.CallExpr (.SelectorExpr (.Ident "unsafe") "Pointer")
                  [.Ident ("r" ++ toString i)]]) ∈ mid ∧
          rets[i]? = some (some (Expr.CallExpr (.Ident "uintptr")
              [.CallExpr (.SelectorExpr (.Ident "unsafe") "Pointer")
                  [.Ident ("r" ++ toString i)]]))) ∧
        ((∃ p n ms u, v.Type_ = .Named p n ms u) →
          Stmt.ExprStmt (.CallExpr (.Ident "cgo_incref")
              [.CallExpr (.SelectorExpr (.Ident "unsafe") "Pointer")
                  [.UnaryExpr .AND (.Ident ("r" ++ toString i))]]) ∈ mid ∧
          rets[i]? = some (some (Expr.CallExpr (.Ident "uintptr")
              [.CallExpr (.SelectorExpr (.Ident "unsafe") "Pointer")
                  [.UnaryExpr .AND (.Ident ("r" ++ toString i))]])))) ∧
      ((∃ m1 vals, callWrapper d m xs = .ok m1 vals) ∨
        (∃ m1, callWrapper d m xs = .panic "refs.next underflow" m1)) ∧
      ∀ m1 vals, callWrapper d m xs = .ok m1 vals →
        vals[i]? = some (.num a) ∧
        (∃ h c, m1.reg.refs a = some h ∧ m1.reg.ptrs h = some ⟨a, c⟩ ∧ h < 0) ∧
        m1.reg.ptrs (a : Int) = none := by
  obtain ⟨args, hargs⟩ := ParamIdents_of_casts hc
  have hpos : 0 < f.Results.length := by
    cases hr0 : f.Results with
    | nil => rw [hr0] at hv; simp at hv
    | cons b l => simp
  obtain ⟨d, hd, heq⟩ := callWrapper_eq f args hargs hname ht hpos m xs hlen hfit
  have haddr : resultAddr v.Type_ x = some a := by
    obtain ⟨xv, xl⟩ := x
    rcases ha with ⟨e, he, hxv⟩ | ⟨p, n, ms, u, he, hxl⟩
    · simp only at hxv
      subst hxv
      rw [he]
      rfl
    · simp only at hxl
      subst hxl
      rw [he]
      cases xv <;> rfl
  refine ⟨d, hd, ?_, ?_, ?_⟩
  · obtain ⟨d2, args2, hd2, _, hbody, _, _, _, _, hp, hn, _, hret⟩ :=
      acquire_statements_of_casts f hc i v hv
    rw [hd] at hd2
    injection hd2 with hd2
    subst hd2
    refine ⟨args2, acquireStmts f.Results, returnExprs f.Results, hbody, ?_, ?_⟩
    · rintro ⟨e, he⟩
      refine ⟨mem_acquireStmts.2 ⟨i, v, hv, ?_⟩, ?_⟩
      · rw [he]
        exact List.mem_cons_self _ _
      · rw [hret, he]
        rfl
    · rintro ⟨p, n, ms, u, he⟩
      refine ⟨mem_acquireStmts.2 ⟨i, v, hv, ?_⟩, ?_⟩
      · rw [he]
        exact List.mem_cons_self _ _
      · rw [hret, he]
        rfl
  · cases hrun : run m.reg ((acquiredAddrs f.Results xs).map Op.incref) with
    | ok r =>
      rw [hrun] at heq
      exact Or.inl ⟨_, _, heq⟩
    | panic msg r =>
      rw [hrun] at heq
      have := run_incref_panic_msg _ hrun
      subst this
      exact Or.inr ⟨_, heq⟩
  · intro m1 vals hok
    rw [heq] at hok
    cases hrun : run m.reg ((acquiredAddrs f.Results xs).map Op.incref) with
    | panic msg r =>
      rw [hrun] at hok
      cases hok
    | ok r =>
      rw [hrun] at hok
      simp only [Exec.ok.injEq] at hok
      obtain ⟨h1, h2⟩ := hok
      subst h1 h2
      have hr1 : Reachable r := run_reachable _ hr hrun
      obtain ⟨k, hk⟩ := run_incref_tracked _ hrun (mem_acquiredAddrs hv hx haddr)
      obtain ⟨_, _, c, hcnt⟩ := (inv_of_reachable hr1).fwd a k hk
      refine ⟨?_, ⟨k, c, hk, hcnt, live_handle_negative hr1 hk⟩, ptrs_at_address_none hr1 a⟩
      rw [returnedVals_getElem? hv hx]
      simp [returnedVal, haddr]

/-- Witness of C20 (amended): the wrapper of `N() *pkg.T`, the call having
returned the address `4096` into the variable `r0` at address `8192`, on a
fresh registry. -/
theorem wrapper_returns_address_witness :
    ∃ d, FuncAst pointerResultFunc = some d ∧
      ((∃ m1 vals, callWrapper d (⟨init (emptyAt 0), fun _ => none⟩ : Machine Nat)
          [⟨some (.ptr 4096), some 8192⟩] = .ok m1 vals) ∨
        (∃ m1, callWrapper d (⟨init (emptyAt 0), fun _ => none⟩ : Machine Nat)
          [⟨some (.ptr 4096), some 8192⟩] = .panic "refs.next underflow" m1)) ∧
      ∀ m1 vals, callWrapper d (⟨init (emptyAt 0), fun _ => none⟩ : Machine Nat)
          [⟨some (.ptr 4096), some 8192⟩] = .ok m1 vals →
        vals[0]? = some (.num ((4096 : Nat) : Int)) ∧
        (∃ h c, m1.reg.refs 4096 = some h ∧ m1.reg.ptrs h = some ⟨4096, c⟩ ∧ h < 0) ∧
        m1.reg.ptrs ((4096 : Nat) : Int) = none :=
  (wrapper_returns_address pointerResultFunc (by decide) (by simp [pointerResultFunc])
    (by simp [pointerResultFunc, resultTypeChecks])
    ⟨init (emptyAt 0), fun _ => none⟩ (Reachable.init (emptyAt 0))
    [⟨some (.ptr 4096), some 8192⟩] rfl
    (by
      intro j w y hw hy
      cases j with
      | zero =>
        simp only [pointerResultFunc, List.getElem?_cons_zero, Option.some.injEq] at hw hy
        subst hw hy
        rfl
      | succ j => simp [pointerResultFunc] at hw)
    0 _ _ rfl rfl 4096 (Or.inl ⟨_, rfl, rfl⟩)).elim
    (fun d h => ⟨d, h.1, h.2.2.1, h.2.2.2⟩)

/-- C20 as stated fails: for `N() *pkg.T`, the call having returned the
address `4096`, the wrapper run on a fresh registry returns `4096`, the address
itself; `ptrs` has no entry under `4096`, the entry whose `ptr` is `4096` being
stored under the handle `-1`. -/
theorem wrapper_lookup_counterexample :
    FuncAst pointerResultFunc = some pointerResultWrapper ∧
    callWrapper pointerResultWrapper (⟨init (emptyAt 0), fun _ => none⟩ : Machine Nat)
      [⟨some (.ptr 4096), some 8192⟩] = .ok ⟨single 4096 1, fun _ => none⟩ [.num 4096] ∧
    (single 4096 1).ptrs 4096 = none ∧
    (single 4096 1).refs 4096 = some (-1) ∧
    (single 4096 1).ptrs (-1) = some ⟨4096, 1⟩ ∧
    ((4096 : Nat) : Int) ≠ -1 :=
  ⟨rfl, rfl, by decide, by decide, by decide, by decide⟩

/-- The wrapper of `Q() *int` declares the result type `*int` and returns
`uintptr(..)`: it has no run. -/
theorem pointer_to_basic_wrapper_no_run {α : Type} (m : Machine α) (xs : List (Local α)) :
    ∃ d, FuncAst pointerToBasicResultFunc = some d ∧
      d.Type_.Results = some [⟨[""], .Ident "*int"⟩] ∧
      callWrapper d m xs = .undefined := by
  refine ⟨_, rfl, rfl, ?_⟩
  cases xs with
  | nil => rfl
  | cons x xs =>
    cases xs with
    | nil => rfl
    | cons y ys => rfl

/-! ## Further registry claims -/

theorem cnt_bound_incref {r r1 : Refs} {p : Ptr} {n : Int}
    (hb : ∀ k o, r.ptrs k = some o → 1 ≤ o.cnt ∧ o.cnt ≤ n) (hn0 : 0 ≤ n)
    (hn : n + 1 ≤ 2147483647) (h : cgo_incref r p = .ok r1) :
    ∀ k o, r1.ptrs k = some o → 1 ≤ o.cnt ∧ o.cnt ≤ n + 1 := by
  cases hp : r.refs p with
  | some num =>
    rw [incref_tracked hp] at h
    injection h with h; subst h
    intro k o ho
    by_cases e : k = num
    · subst e
      simp only [Function.update_same, Option.some.injEq] at ho
      subst ho
      show 1 ≤ wrap32 ((ptrsAt r k).cnt + 1) ∧ wrap32 ((ptrsAt r k).cnt + 1) ≤ n + 1
      cases hq : r.ptrs k with
      | none =>
        have : (ptrsAt r k).cnt = 0 := by simp [ptrsAt, hq]
        rw [this]
        have : wrap32 (0 + 1) = 1 := by decide
        rw [this]
        omega
      | some o =>
        have hc := hb k o hq
        rw [ptrsAt_of_some hq, wrap32_id (by omega) (by omega)]
        omega
    · simp only [Function.update_apply, e, if_false] at ho
      have := hb k o ho
      omega
  | none =>
    rw [(incref_fresh_inv hp h).2]
    intro k o ho
    by_cases e : k = r.next
    · subst e
      simp only [Function.update_same, Option.some.injEq] at ho
      subst ho
      simp only
      omega
    · simp only [Function.update_apply, e, if_false] at ho
      have := hb k o ho
      omega

theorem cnt_bound_decref {r r1 : Refs} {p : Ptr} {n : Int}
    (hb : ∀ k o, r.ptrs k = some o → 1 ≤ o.cnt ∧ o.cnt ≤ n) (hn : n ≤ 2147483647)
    (h : cgo_decref r p = .ok r1) :
    ∀ k o, r1.ptrs k = some o → 1 ≤ o.cnt ∧ o.cnt ≤ n := by
  cases hp : r.refs p with
  | none =>
    rw [decref_untracked hp] at h
    cases h
  | some num =>
    by_cases hw : wrap32 ((ptrsAt r num).cnt - 1) ≤ 0
    · rw [decref_drop hp hw] at h
      injection h with h; subst h
      intro k o ho
      by_cases e : k = num
      · subst e
        simp at ho
      · simp only [Function.update_apply, e, if_false] at ho
        exact hb k o ho
    · rw [decref_keep hp hw] at h
      injection h with h; subst h
      intro k o ho
      by_cases e : k = num
      · subst e
        simp only [Function.update_same, Option.some.injEq] at ho
        subst ho
        show 1 ≤ wrap32 ((ptrsAt r k).cnt - 1) ∧ wrap32 ((ptrsAt r k).cnt - 1) ≤ n
        cases hq : r.ptrs k with
        | none =>
          exfalso
          apply hw
          have : (ptrsAt r k).cnt = 0 := by simp [ptrsAt, hq]
          rw [this]
          decide
        | some o =>
          have hc := hb k o hq
          rw [ptrsAt_of_some hq] at hw ⊢
          rw [wrap32_id (by omega) (by omega)] at hw ⊢
          omega
      · simp only [Function.update_apply, e, if_false] at ho
        exact hb k o ho

theorem run_cnt_bound : ∀ (ops : List Op) {r r1 : Refs} {n : Int},
    (∀ k o, r.ptrs k = some o → 1 ≤ o.cnt ∧ o.cnt ≤ n) → 0 ≤ n →
    n + ops.length ≤ 2147483647 → run r ops = .ok r1 →
    ∀ k o, r1.ptrs k = some o → 1 ≤ o.cnt ∧ o.cnt ≤ n + ops.length
  | [], r, r1, n, hb, _, _, h => by
    simp only [run] at h
    injection h with h
    subst h
    simpa using hb
  | op :: ops, r, r1, n, hb, hn0, hn, h => by
    simp only [List.length_cons, Nat.cast_add, Nat.cast_one] at hn ⊢
    cases hs : step r op with
    | panic msg r2 =>
      simp only [run, hs] at h
      cases h
    | ok r2 =>
      simp only [run, hs] at h
      have hb2 : ∀ k o, r2.ptrs k = some o → 1 ≤ o.cnt ∧ o.cnt ≤ n + 1 := by
        cases op with
        | incref p => exact cnt_bound_incref hb hn0 (by omega) hs
        | decref p =>
          intro k o ho
          have := cnt_bound_decref hb (by omega) hs k o ho
          omega
      have := run_cnt_bound ops hb2 (by omega) (by omega) h
      intro k o ho
      have := this k o ho
      omega

/-- C26 (amended): in every registry state reached from `init` through at most
`2^31 - 1` acquire and release calls, every entry stored in `ptrs` has a
refcount of at least 1; there an acquire of an untracked identity stores the
entry with refcount 1, and a release that would take the refcount to `≤ 0`
deletes the entry instead of storing it, while any other release stores the
refcount decreased by one. -/
theorem refcount_positive_bounded (r0 : Refs) (ops : List Op) (r : Refs)
    (hlen : ops.length ≤ 2147483647) (h : run (init r0) ops = .ok r) :
    (∀ k o, r.ptrs k = some o → 1 ≤ o.cnt) ∧
    (∀ v r1, r.refs v = none → cgo_incref r v = .ok r1 →
      ∃ k, r1.refs v = some k ∧ r1.ptrs k = some ⟨v, 1⟩) ∧
    (∀ v k c r1, r.refs v = some k → r.ptrs k = some ⟨v, c⟩ → cgo_decref r v = .ok r1 →
      (c - 1 ≤ 0 → r1.ptrs k = none ∧ r1.refs v = none) ∧
      (¬ c - 1 ≤ 0 → r1.ptrs k = some ⟨v, c - 1⟩ ∧ 1 ≤ c - 1)) := by
  have hb0 : ∀ k o, (init r0).ptrs k = some o → 1 ≤ o.cnt ∧ o.cnt ≤ (0 : Int) := by
    intro k o ho
    simp [init] at ho
  have hb := run_cnt_bound ops hb0 (le_refl 0) (by simp only [zero_add]; exact_mod_cast hlen) h
  refine ⟨fun k o ho => (hb k o ho).1, ?_, ?_⟩
  · intro v r1 hv s1
    rw [(incref_fresh_inv hv s1).2]
    exact ⟨r.next, by simp, by simp⟩
  · intro v k c r1 hv hc s1
    have hcb := hb k _ hc
    simp only [zero_add] at hcb
    have hlen2 : (ops.length : Int) ≤ 2147483647 := by exact_mod_cast hlen
    have hw : wrap32 (c - 1) = c - 1 := wrap32_id (by omega) (by omega)
    constructor
    · intro hle
      obtain ⟨r2, s2, _, f2, p2⟩ := decref_drop_effect hv hc (by rw [hw]; exact hle)
      rw [s1] at s2
      injection s2 with s2
      subst s2
      exact ⟨by rw [p2]; simp, by rw [f2]; simp⟩
    · intro hgt
      obtain ⟨r2, s2, _, f2, p2⟩ := decref_keep_effect hv hc (by rw [hw]; exact hgt)
      rw [s1] at s2
      injection s2 with s2
      subst s2
      exact ⟨by rw [p2, hw]; simp, by omega⟩

/-- Witness of C26 (amended): after acquiring identity `7` twice and releasing
it once on a fresh registry. -/
theorem refcount_positive_bounded_witness :
    ∃ r, run (init (emptyAt 0)) [Op.incref 7, Op.incref 7, Op.decref 7] = .ok r ∧
      (∀ k o, r.ptrs k = some o → 1 ≤ o.cnt) :=
  ⟨_, rfl, (refcount_positive_bounded (emptyAt 0) [Op.incref 7, Op.incref 7, Op.decref 7] _
    (by decide) rfl).1⟩

/-- C26 as stated fails once a refcount has wrapped: the registry in which
identity `1` has been acquired `2^31` times is reachable and stores the entry
`(1, -2^31)`, whose refcount is below 1. -/
theorem refcount_wrapped_counterexample :
    Reachable (single 1 (-2147483648)) ∧
    (single 1 (-2147483648)).ptrs (-1) = some ⟨1, -2147483648⟩ ∧
    ¬ (1 : Int) ≤ (cobject.mk 1 (-2147483648)).cnt := by
  refine ⟨?_, by simp [single], by decide⟩
  have h := reachable_single_succ 1 2147483647
  have e : wrap32 (((2147483647 : Nat) : Int) + 1) = -2147483648 := by decide
  rw [e] at h
  exact h

theorem run_next_le {r r1 : Refs} (hr : Reachable r) (ops : List Op)
    (h : run r ops = .ok r1) : r1.next ≤ r.next := by
  have := (run_next ops (inv_of_reachable hr) h).2
  omega

theorem fresh_handle_is_next {r r1 : Refs} {v : Ptr} (hv : r.refs v = none)
    (h : cgo_incref r v = .ok r1) : r1.refs v = some r.next := by
  rw [(incref_fresh_inv hv h).2]
  simp

/-- C27: in every reachable registry state the generator `next` is negative
and every live handle `h` (key of `ptrs`, value of `refs`) satisfies
`next < h ≤ -1`; so the id the next fresh acquire takes, `next`, is in use in
neither index, and any id above `next`, in particular one freed by a release,
is never assigned by a later fresh acquire. -/
theorem live_handles_above_next (r : Refs) (hr : Reachable r) :
    r.next < 0 ∧
    (∀ h o, r.ptrs h = some o → r.next < h ∧ h ≤ -1) ∧
    (∀ p h, r.refs p = some h → r.next < h ∧ h ≤ -1) ∧
    r.ptrs r.next = none ∧ (∀ p, r.refs p ≠ some r.next) ∧
    (∀ h, r.next < h → ∀ ops r1, run r ops = .ok r1 →
      ∀ v r2, r1.refs v = none → cgo_incref r1 v = .ok r2 → r2.refs v ≠ some h) ∧
    (∀ p h r1, r.refs p = some h → cgo_decref r p = .ok r1 →
      ∀ ops r2, run r1 ops = .ok r2 →
        ∀ v r3, r2.refs v = none → cgo_incref r2 v = .ok r3 → r3.refs v ≠ some h) := by
  have hi := inv_of_reachable hr
  have hfwd : ∀ p h, r.refs p = some h → r.next < h ∧ h ≤ -1 := by
    intro p h hp
    have := hi.fwd p h hp
    exact ⟨this.1, this.2.1⟩
  have never : ∀ (s : Refs), Reachable s → ∀ h, s.next < h → ∀ ops r1, run s ops = .ok r1 →
      ∀ v r2, r1.refs v = none → cgo_incref r1 v = .ok r2 → r2.refs v ≠ some h := by
    intro s hs h hlt ops r1 hrun v r2 hv s2 e
    rw [fresh_handle_is_next hv s2] at e
    injection e with e
    have := run_next_le hs ops hrun
    omega
  refine ⟨by have := hi.next_hi; omega, ?_, hfwd, ptrs_next_free hi, ?_, never r hr, ?_⟩
  · intro h o ho
    exact hfwd _ _ (hi.bwd h o ho)
  · intro p e
    have := (hfwd p _ e).1
    omega
  · intro p h r1 hp s1 ops r2 hrun v r3 hv s3
    have hn := decref_next s1
    exact never r1 (Reachable.decref p hr s1) h (by rw [hn]; exact (hfwd p h hp).1)
      ops r2 hrun v r3 hv s3

/-- Witness of C27: the registry tracking identity `7` once. -/
theorem live_handles_above_next_witness :
    Reachable (single 7 1) ∧ (single 7 1).next < 0 ∧
    (∀ h o, (single 7 1).ptrs h = some o → (single 7 1).next < h ∧ h ≤ -1) ∧
    (single 7 1).ptrs (single 7 1).next = none :=
  ⟨Reachable.incref 7 (Reachable.init (emptyAt 0)) rfl,
    (live_handles_above_next (single 7 1)
      (Reachable.incref 7 (Reachable.init (emptyAt 0)) rfl)).1,
    (live_handles_above_next (single 7 1)
      (Reachable.incref 7 (Reachable.init (emptyAt 0)) rfl)).2.1,
    (live_handles_above_next (single 7 1)
      (Reachable.incref 7 (Reachable.init (emptyAt 0)) rfl)).2.2.2.1⟩

/-- C28: in every reachable registry state, for identities `q ≠ p`, an
acquire or release of `p` that returns normally leaves the bookkeeping of `q`
unchanged: `refs q` is the same, and when `q` is tracked the `ptrs` entry under
its handle is the same (same `ptr`, same refcount). -/
theorem other_identity_unchanged (r : Refs) (hr : Reachable r) (p q : Ptr) (hne : q ≠ p)
    (r1 : Refs) (hstep : cgo_incref r p = .ok r1 ∨ cgo_decref r p = .ok r1) :
    r1.refs q = r.refs q ∧ ∀ h, r.refs q = some h → r1.ptrs h = r.ptrs h := by
  have hi := inv_of_reachable hr
  have hdiff : ∀ k h, r.refs p = some k → r.refs q = some h → h ≠ k := by
    intro k h hp hq e
    subst e
    exact hne (handles_injective hi hq hp)
  rcases hstep with h | h
  · cases hp : r.refs p with
    | some num =>
      rw [incref_tracked hp] at h
      injection h with h; subst h
      refine ⟨rfl, ?_⟩
      intro k hq
      simp [Function.update_apply, hdiff num k hp hq]
    | none =>
      rw [(incref_fresh_inv hp h).2]
      refine ⟨by simp [Function.update_apply, hne], ?_⟩
      intro k hq
      have := (hi.fwd q k hq).1
      have hk : k ≠ r.next := by omega
      simp [Function.update_apply, hk]
  · cases hp : r.refs p with
    | none =>
      rw [decref_untracked hp] at h
      cases h
    | some num =>
      by_cases hw : wrap32 ((ptrsAt r num).cnt - 1) ≤ 0
      · rw [decref_drop hp hw] at h
        injection h with h; subst h
        refine ⟨by simp [Function.update_apply, hne], ?_⟩
        intro k hq
        simp [Function.update_apply, hdiff num k hp hq]
      · rw [decref_keep hp hw] at h
        injection h with h; subst h
        refine ⟨rfl, ?_⟩
        intro k hq
        simp [Function.update_apply, hdiff num k hp hq]

/-- Witness of C28: acquiring identity `8` while identity `7` is tracked. -/
theorem other_identity_unchanged_witness :
    Reachable (single 7 1) ∧ (7 : Ptr) ≠ 8 ∧
    ∃ r1, cgo_incref (single 7 1) 8 = .ok r1 ∧
      r1.refs 7 = (single 7 1).refs 7 ∧
      ∀ h, (single 7 1).refs 7 = some h → r1.ptrs h = (single 7 1).ptrs h :=
  ⟨Reachable.incref 7 (Reachable.init (emptyAt 0)) rfl, by decide, _, rfl,
    other_identity_unchanged (single 7 1)
      (Reachable.incref 7 (Reachable.init (emptyAt 0)) rfl) 8 7 (by decide) _ (Or.inl rfl)⟩

/-! ## Export comments, the binder factory, `ImplementsError`, `CastExpr` -/

/-- C21 (amended): the declarations of acquire (`IncrementRef`, `cgo_incref`)
and release (`DecrementRef`, `cgo_decref`) carry the doc comment `//export `
followed by their own name; the declaration of initialize (`Init`) is the Go
package initialiser `init` and carries no doc comment. -/
theorem registry_export_comments :
    IncrementRef.Name = "cgo_incref" ∧ IncrementRef.Doc = ["//export " ++ IncrementRef.Name] ∧
    DecrementRef.Name = "cgo_decref" ∧ DecrementRef.Doc = ["//export " ++ DecrementRef.Name] ∧
    Init.Name = "init" ∧ Init.Doc = [] :=
  ⟨rfl, rfl, rfl, rfl, rfl, rfl⟩

/-- C21 as stated fails for initialize: the declaration `Init` emits has an
empty doc comment, so no `//export init` line. -/
theorem Init_not_exported_counterexample :
    Init.Doc = [] ∧ "//export " ++ Init.Name ∉ Init.Doc := by
  refine ⟨rfl, ?_⟩
  show "//export " ++ Init.Name ∉ ([] : List String)
  simp

/-- C22 as stated fails for a registered target when `cgoAst` does not return:
for the package whose exported function is `E(e error, n int) int` the wrapper
generation that `cgoAst` runs panics in `CastExpr`, and `NewBinder` of the
registered target `py3` returns neither a binder nor an error. -/
theorem NewBinder_registered_counterexample :
    (registry (fun pkg : List Func => pkg.length)).lookup "py3" ≠ none ∧
    FuncAst errorParamFunc = none ∧
    wrappersOf [errorParamFunc] = none ∧
    NewBinder (registry (fun pkg : List Func => pkg.length)) wrappersOf [errorParamFunc] "py3" =
      .notReturned ∧
    ∀ binder err ran,
      NewBinder (registry (fun pkg : List Func => pkg.length)) wrappersOf [errorParamFunc]
        "py3" ≠ .returned binder err ran := by
  have h : NewBinder (registry (fun pkg : List Func => pkg.length)) wrappersOf
      [errorParamFunc] "py3" = .notReturned := rfl
  refine ⟨by simp [registry, List.lookup], rfl, rfl, h, ?_⟩
  intro binder err ran
  rw [h]
  simp

/-- C22 (amended): `NewBinder` returns a nil binder together with an error
exactly when the target is not a key of the registry (for the package's
registry: when the target is not `py3`); it then has not run `cgoAst`, and the
error message names the target.  For a registered target it runs `cgoAst`
first: it returns exactly when `cgoAst` does, and then returns the binder built
by the registered constructor and a nil error. -/
theorem NewBinder_fails_closed {P B F : Type} (cgoAst : P → Option F) (pkg : P)
    (target : String) :
    (∀ reg : List (String × (P → B)),
      ((∃ e ran, NewBinder reg cgoAst pkg target = .returned none (some e) ran) ↔
        reg.lookup target = none) ∧
      (reg.lookup target = none → NewBinder reg cgoAst pkg target =
        .returned none (some ("I don't know how to create a binder for " ++ target)) false) ∧
      (∀ bindable, reg.lookup target = some bindable →
        (NewBinder reg cgoAst pkg target = .notReturned ↔ cgoAst pkg = none) ∧
        (∀ f, cgoAst pkg = some f →
          NewBinder reg cgoAst pkg target = .returned (some (bindable pkg)) none true))) ∧
    (∀ NewPy3Binder : P → B,
      ((registry NewPy3Binder).lookup target = none ↔ target ≠ "py3") ∧
      (target ≠ "py3" → NewBinder (registry NewPy3Binder) cgoAst pkg target =
        .returned none (some ("I don't know how to create a binder for " ++ target)) false) ∧
      (target = "py3" →
        (NewBinder (registry NewPy3Binder) cgoAst pkg target = .notReturned ↔
          cgoAst pkg = none) ∧
        (∀ f, cgoAst pkg = some f →
          NewBinder (registry NewPy3Binder) cgoAst pkg target =
            .returned (some (NewPy3Binder pkg)) none true))) := by
  have general : ∀ reg : List (String × (P → B)),
      ((∃ e ran, NewBinder reg cgoAst pkg target = .returned none (some e) ran) ↔
        reg.lookup target = none) ∧
      (reg.lookup target = none → NewBinder reg cgoAst pkg target =
        .returned none (some ("I don't know how to create a binder for " ++ target)) false) ∧
      (∀ bindable, reg.lookup target = some bindable →
        (NewBinder reg cgoAst pkg target = .notReturned ↔ cgoAst pkg = none) ∧
        (∀ f, cgoAst pkg = some f →
          NewBinder reg cgoAst pkg target = .returned (some (bindable pkg)) none true)) := by
    intro reg
    refine ⟨?_, ?_, ?_⟩
    · constructor
      · rintro ⟨e, ran, h⟩
        cases hl : reg.lookup target with
        | none => rfl
        | some b =>
          cases hc : cgoAst pkg <;> simp [NewBinder, hl, hc] at h
      · intro hl
        exact ⟨"I don't know how to create a binder for " ++ target, false,
          by simp [NewBinder, hl]⟩
    · intro hl
      simp [NewBinder, hl]
    · intro b hl
      constructor
      · cases hc : cgoAst pkg <;> simp [NewBinder, hl, hc]
      · intro f hc
        simp [NewBinder, hl, hc]
  have hkey : ∀ NewPy3Binder : P → B,
      ((registry NewPy3Binder).lookup target = none ↔ target ≠ "py3") := by
    intro N
    by_cases e : target = "py3"
    · subst e
      simp [registry, List.lookup]
    · have : (target == "py3") = false := by simpa using e
      simp [registry, List.lookup, this, e]
  refine ⟨general, fun N => ⟨hkey N, ?_, ?_⟩⟩
  · intro hne
    exact (general (registry N)).2.1 ((hkey N).2 hne)
  · intro e
    subst e
    exact (general (registry N)).2.2 N (by simp [registry, List.lookup])

/-- Witness of C22: the targets `js` and `py3` against the package's registry,
packages and binders being numbers. -/
theorem NewBinder_fails_closed_witness :
    NewBinder (registry (fun n : Nat => n + 1)) (fun _ : Nat => some ()) 5 "js" =
      .returned none (some "I don't know how to create a binder for js") false ∧
    NewBinder (registry (fun n : Nat => n + 1)) (fun _ : Nat => some ()) 5 "py3" =
      .returned (some 6) none true :=
  ⟨((NewBinder_fails_closed (fun _ : Nat => some ()) 5 "js").2 (fun n : Nat => n + 1)).2.1
      (by decide),
    (((NewBinder_fails_closed (fun _ : Nat => some ()) 5 "py3").2 (fun n : Nat => n + 1)).2.2
      rfl).2 () rfl⟩

/-- C23 at its failing input: an interface type, and a named type whose
underlying type is an interface, with a method `Error() string` make
`ImplementsError` return true; a named struct type declaring the method
`Error() string` makes it return false, as does every named type whose
underlying type is a struct. -/
theorem ImplementsError_named_struct :
    (∀ x v ms, ("Error", GoType.Signature [] [(x, .Basic "string")] v) ∈ ms →
      ImplementsError (.Interface ms) = true) ∧
    (∀ x v pkg name ms' ms, ("Error", GoType.Signature [] [(x, .Basic "string")] v) ∈ ms →
      ImplementsError (.Named pkg name ms' (.Interface ms)) = true) ∧
    errorMethod ∈ [errorMethod] ∧
    namedStructError = .Named (some "pkg") "MyErr" [errorMethod] (.Struct []) ∧
    ImplementsError namedStructError = false ∧
    (∀ pkg name ms fields, ImplementsError (.Named pkg name ms (.Struct fields)) = false) := by
  have hm : ∀ x v ms, ("Error", GoType.Signature [] [(x, .Basic "string")] v) ∈ ms →
      hasErrorMethod ms = true := by
    intro x v ms h
    simp only [hasErrorMethod, List.any_eq_true]
    exact ⟨_, h, by simp [isError]⟩
  refine ⟨?_, ?_, by simp, rfl, rfl, fun _ _ _ _ => rfl⟩
  · intro x v ms h
    simp only [ImplementsError, Underlying]
    exact hm x v ms h
  · intro x v pkg name ms' ms h
    simp only [ImplementsError, Underlying]
    exact hm x v ms h

/-- C25 at its failing input: for a `Named` parameter with a package
`CastExpr` yields `*(*alias.Name)(unsafe.Pointer(x))`, of static type
`alias.Name`, and for a `Slice` parameter `*(*[]elem)(unsafe.Pointer(x))`, of
static type `[]elem`; for a `Pointer` to a `Named` type it yields the
dereference `*` of the pointee's cast applied to `unsafe.Pointer(x)`, which has
no static type, and not an expression of type `*alias.Name`; for a `Named`
type without a package it panics. -/
theorem CastExpr_static_types :
    (∀ path name ms u x,
      CastExpr (.Named (some path) name ms u) x =
        some (DeRef (CastUnsafePtr
          (DeRef (.SelectorExpr (.Ident (PkgPathAliasFromString path)) name))
          (UintptrToUnsafePointer x))) ∧
      (CastExpr (.Named (some path) name ms u) x).bind staticType =
        some (.SelectorExpr (.Ident (PkgPathAliasFromString path)) name)) ∧
    (∀ elem x,
      CastExpr (.Slice elem) x =
        some (DeRef (CastUnsafePtr (DeRef (.Ident ("[]" ++ typeString elem)))
          (UintptrToUnsafePointer x))) ∧
      (CastExpr (.Slice elem) x).bind staticType =
        some (.Ident ("[]" ++ typeString elem))) ∧
    (∀ path name ms u x,
      CastExpr (.Pointer (.Named (some path) name ms u)) x =
        (CastExpr (.Named (some path) name ms u) (UintptrToUnsafePointer x)).map DeRef ∧
      CastExpr (.Pointer (.Named (some path) name ms u)) x =
        some (DeRef (DeRef (CastUnsafePtr
          (DeRef (.SelectorExpr (.Ident (PkgPathAliasFromString path)) name))
          (UintptrToUnsafePointer (UintptrToUnsafePointer x))))) ∧
      (CastExpr (.Pointer (.Named (some path) name ms u)) x).bind staticType = none) ∧
    CastExpr (.Pointer veilT) (.Ident "x") =
      some (.StarExpr (.StarExpr (.CallExpr
        (.ParenExpr (.StarExpr (.SelectorExpr (.Ident "github_com_devigned_veil") "T")))
        [.CallExpr (.SelectorExpr (.Ident "unsafe") "Pointer")
          [.CallExpr (.SelectorExpr (.Ident "unsafe") "Pointer") [.Ident "x"]]]))) ∧
    (CastExpr (.Pointer veilT) (.Ident "x")).bind staticType ≠
      some (.StarExpr (.SelectorExpr (.Ident "github_com_devigned_veil") "T")) ∧
    (∀ name ms u x, CastExpr (.Named none name ms u) x = none) := by
  refine ⟨fun _ _ _ _ _ => ⟨rfl, rfl⟩, fun _ _ => ⟨rfl, rfl⟩, fun _ _ _ _ _ => ⟨rfl, rfl, rfl⟩,
    rfl, ?_, fun _ _ _ _ => rfl⟩
  have h : (CastExpr (.Pointer veilT) (.Ident "x")).bind staticType = none := rfl
  rw [h]
  simp

/-! ## Bundle names -/

theorem string_append_right_cancel {a b c : String} (h : a ++ c = b ++ c) : a = b := by
  have h2 := congrArg String.data h
  simp only [String.data_append, List.append_cancel_right_eq] at h2
  exact String.ext h2

theorem name_ne_of_prefix {a b : String} (s : String) (hab : a ≠ b) : a ++ s ≠ b ++ s :=
  fun e => hab (string_append_right_cancel e)

theorem name_ne_of_last {a b s1 s2 : String} (h1 : s1.data ≠ []) (h2 : s2.data ≠ [])
    (hne : s1.data.getLast? ≠ s2.data.getLast?) : a ++ s1 ≠ b ++ s2 := by
  intro e
  have h := congrArg (fun t : String => t.data.getLast?) e
  simp only [String.data_append] at h
  rw [List.getLast?_append_of_ne_nil _ h1, List.getLast?_append_of_ne_nil _ h2] at h
  exact hne h

/-- C24: the name of a bundle is the fixed prefix `slice_of_` followed by the
rendering of the element type; two slices have the same `CGoName` exactly when
their element types have the same rendering; with the same rendering the six
function names of the two bundles are the same, and with different renderings
no function name of the one bundle is a function name of the other. -/
theorem CGoName_deterministic (e1 e2 : GoType) :
    (Slice.mk e1).CGoName = "slice_of_" ++ typeString e1 ∧
    ((Slice.mk e1).CGoName = (Slice.mk e2).CGoName ↔ typeString e1 = typeString e2) ∧
    (typeString e1 = typeString e2 →
      (Slice.mk e1).ToAst.map (fun d => d.Name) = (Slice.mk e2).ToAst.map (fun d => d.Name)) ∧
    (typeString e1 ≠ typeString e2 →
      ∀ n ∈ (Slice.mk e1).ToAst.map (fun d => d.Name),
        n ∉ (Slice.mk e2).ToAst.map (fun d => d.Name)) := by
  have hiff : (Slice.mk e1).CGoName = (Slice.mk e2).CGoName ↔ typeString e1 = typeString e2 := by
    constructor
    · intro h
      exact string_append_left_cancel h
    · intro h
      simp only [Slice.CGoName, h]
  refine ⟨rfl, hiff, ?_, ?_⟩
  · intro h
    rw [Slice_ToAst_names, Slice_ToAst_names, hiff.2 h]
  · intro hne n hn
    have hc : (Slice.mk e1).CGoName ≠ (Slice.mk e2).CGoName := fun e => hne (hiff.1 e)
    rw [Slice_ToAst_names] at hn ⊢
    simp only [List.mem_cons, List.mem_singleton, List.not_mem_nil, or_false] at hn
    simp only [List.mem_cons, List.mem_singleton, List.not_mem_nil, or_false, not_or]
    rcases hn with rfl | rfl | rfl | rfl | rfl | rfl <;>
      refine ⟨?_, ?_, ?_, ?_, ?_, ?_⟩ <;>
      first
        | exact name_ne_of_prefix _ hc
        | exact name_ne_of_last (by decide) (by decide) (by decide)

/-- Witness of C24: the slices of `int` and of `string`. -/
theorem CGoName_deterministic_witness :
    (Slice.mk (.Basic "int")).CGoName = "slice_of_int" ∧
    typeString (.Basic "int") ≠ typeString (.Basic "string") ∧
    ∀ n ∈ (Slice.mk (.Basic "int")).ToAst.map (fun d => d.Name),
      n ∉ (Slice.mk (.Basic "string")).ToAst.map (fun d => d.Name) :=
  ⟨(CGoName_deterministic (.Basic "int") (.Basic "string")).1, by decide,
    (CGoName_deterministic (.Basic "int") (.Basic "string")).2.2.2 (by decide)⟩

/-! ## Package path aliases -/

theorem fieldsFuncAux_eq_splitOnP (f : Char → Bool) : ∀ (cs cur : List Char),
    fieldsFuncAux f cs cur =
      ((List.splitOnP.go f cs cur).filter (fun l => !l.isEmpty)).map String.mk
  | [], cur => by
    cases cur <;> simp [fieldsFuncAux, List.splitOnP.go]
  | c :: cs, cur => by
    by_cases hc : f c = true
    · cases cur <;>
        simp [fieldsFuncAux, List.splitOnP.go, hc, fieldsFuncAux_eq_splitOnP f cs []]
    · simp [fieldsFuncAux, List.splitOnP.go, hc, fieldsFuncAux_eq_splitOnP f cs (c :: cur)]

theorem fieldsFuncAux_fields (f : Char → Bool) : ∀ (cs cur : List Char),
    (∀ c ∈ cur, f c = false) →
    ∀ s ∈ fieldsFuncAux f cs cur, s.data ≠ [] ∧ ∀ c ∈ s.data, f c = false
  | [], cur, hcur, s, hs => by
    cases cur with
    | nil => simp [fieldsFuncAux] at hs
    | cons a l =>
      simp only [fieldsFuncAux, List.isEmpty_cons, Bool.false_eq_true, if_false,
        List.mem_singleton] at hs
      subst hs
      refine ⟨by simp, ?_⟩
      intro c hc
      exact hcur c (by simp at hc; simp; tauto)
  | c :: cs, cur, hcur, s, hs => by
    by_cases hc : f c = true
    · cases cur with
      | nil =>
        simp only [fieldsFuncAux, hc, if_true, List.isEmpty_nil] at hs
        exact fieldsFuncAux_fields f cs [] (by simp) s hs
      | cons a l =>
        simp only [fieldsFuncAux, hc, if_true, List.isEmpty_cons, Bool.false_eq_true,
          if_false, List.mem_cons] at hs
        rcases hs with rfl | hs
        · refine ⟨by simp, ?_⟩
          intro d hd
          exact hcur d (by simp at hd; simp; tauto)
        · exact fieldsFuncAux_fields f cs [] (by simp) s hs
    · have hcf : f c = false := by simpa using hc
      simp only [fieldsFuncAux, hc, if_false] at hs
      refine fieldsFuncAux_fields f cs (c :: cur) ?_ s hs
      intro d hd
      rcases List.mem_cons.1 hd with rfl | hd
      · exact hcf
      · exact hcur d hd

theorem fieldsFuncAux_no_sep (f : Char → Bool) : ∀ (cs cur : List Char),
    (∀ c ∈ cs, f c = false) → (cs ≠ [] ∨ cur ≠ []) →
    fieldsFuncAux f cs cur = [String.mk (cur.reverse ++ cs)]
  | [], cur, _, hne => by
    cases cur with
    | nil => simp at hne
    | cons a l => simp [fieldsFuncAux]
  | c :: cs, cur, hcs, _ => by
    have hc : f c = false := hcs c (List.mem_cons_self _ _)
    simp only [fieldsFuncAux, hc, Bool.false_eq_true, if_false]
    rw [fieldsFuncAux_no_sep f cs (c :: cur) (fun d hd => hcs d (List.mem_cons_of_mem _ hd))
      (Or.inr (by simp))]
    simp

theorem intercalate_go_mem (sep : String) : ∀ (l : List String) (acc : String) (c : Char),
    c ∈ (String.intercalate.go acc sep l).data →
    c ∈ acc.data ∨ c ∈ sep.data ∨ ∃ s ∈ l, c ∈ s.data
  | [], acc, c, h => by
    simp only [String.intercalate.go] at h
    exact Or.inl h
  | a :: l, acc, c, h => by
    simp only [String.intercalate.go] at h
    rcases intercalate_go_mem sep l _ c h with h1 | h1 | ⟨s, hs, h1⟩
    · simp only [String.data_append, List.mem_append] at h1
      rcases h1 with (h1 | h1) | h1
      · exact Or.inl h1
      · exact Or.inr (Or.inl h1)
      · exact Or.inr (Or.inr ⟨a, List.mem_cons_self _ _, h1⟩)
    · exact Or.inr (Or.inl h1)
    · exact Or.inr (Or.inr ⟨s, List.mem_cons_of_mem _ hs, h1⟩)

theorem intercalate_mem (sep : String) (l : List String) (c : Char)
    (h : c ∈ (sep.intercalate l).data) : c ∈ sep.data ∨ ∃ s ∈ l, c ∈ s.data := by
  cases l with
  | nil => simp [String.intercalate] at h
  | cons a l =>
    simp only [String.intercalate] at h
    rcases intercalate_go_mem sep l a c h with h1 | h1 | ⟨s, hs, h1⟩
    · exact Or.inr ⟨a, List.mem_cons_self _ _, h1⟩
    · exact Or.inl h1
    · exact Or.inr ⟨s, List.mem_cons_of_mem _ hs, h1⟩

theorem alias_no_sep (path : String) :
    ∀ c ∈ (PkgPathAliasFromString path).data, splitPkgPath c = false := by
  intro c hc
  rcases intercalate_mem "_" _ c hc with h | ⟨s, hs, h⟩
  · have : c = '_' := by simpa using h
    subst this
    decide
  · exact (fieldsFuncAux_fields splitPkgPath path.data [] (by simp) s hs).2 c h

theorem splitPkgPath_false {c : Char} (h : splitPkgPath c = false) : c ≠ '.' ∧ c ≠ '/' := by
  simp only [splitPkgPath, Bool.or_eq_false_iff, beq_eq_false_iff_ne, ne_eq] at h
  exact h

/-- C29: for every path, `PkgPathAliasFromString path` contains neither `.`
nor `/`; it is the fields of the path joined with `_`, the fields being the
non-empty segments of the path between separators, in order (each non-empty
and free of separators); applying the function to its own output returns that
output.  The path `github.com/devigned/veil` gives `github_com_devigned_veil`. -/
theorem PkgPathAlias_idempotent (path : String) :
    (∀ c ∈ (PkgPathAliasFromString path).data, c ≠ '.' ∧ c ≠ '/') ∧
    PkgPathAliasFromString path = "_".intercalate (FieldsFunc path splitPkgPath) ∧
    FieldsFunc path splitPkgPath =
      ((path.data.splitOnP splitPkgPath).filter (fun l => !l.isEmpty)).map String.mk ∧
    (∀ s ∈ FieldsFunc path splitPkgPath, s ≠ "" ∧ ∀ c ∈ s.data, c ≠ '.' ∧ c ≠ '/') ∧
    PkgPathAliasFromString (PkgPathAliasFromString path) = PkgPathAliasFromString path ∧
    PkgPathAliasFromString "github.com/devigned/veil" = "github_com_devigned_veil" ∧
    PkgPathAliasFromString "/a..b/" = "a_b" := by
  refine ⟨fun c hc => splitPkgPath_false (alias_no_sep path c hc), rfl,
    fieldsFuncAux_eq_splitOnP _ _ _, ?_, ?_, by decide, by decide⟩
  · intro s hs
    obtain ⟨h1, h2⟩ := fieldsFuncAux_fields splitPkgPath path.data [] (by simp) s hs
    refine ⟨?_, fun c hc => splitPkgPath_false (h2 c hc)⟩
    intro e
    apply h1
    rw [e]
  · by_cases he : (PkgPathAliasFromString path).data = []
    · have e : PkgPathAliasFromString path = "" := String.ext he
      rw [e]
      decide
    · have h := fieldsFuncAux_no_sep splitPkgPath (PkgPathAliasFromString path).data []
        (alias_no_sep path) (Or.inl he)
      show "_".intercalate (fieldsFuncAux splitPkgPath (PkgPathAliasFromString path).data []) =
        PkgPathAliasFromString path
      rw [h]
      simp [String.intercalate, String.intercalate.go]

end Veil
